import Mathlib

/-!
ROI pooling (`lib/roi_pooling_layer/roi_pooling_op_gpu.cu.cc`)

A shallow embedding of the two CUDA kernels `ROIPoolForward` and
`ROIPoolBackward` and of their launchers.

Modelling conventions

* `Dtype` (the kernels are instantiated at `float`) is modelled by the exact
  rationals: comparisons are exact on finite floats.  A finite float lies in
  `[-FLT_MAX, FLT_MAX]`; a rational below `-FLT_MAX` stands for `-inf`.
* `binSize`, `binStart`, `binEnd`, `pooledStart`, `pooledEnd` and the kernels
  built on them compute the bin sizes, their products and quotients exactly.
  The code rounds each of these operations to single precision; `fl32` is that
  rounding, and `binSize32`, `binStart32`, `binEnd32`, `poolCell32` and
  `ROIPoolForward32` are the forward window arithmetic with it.
* C `int` is modelled by `Int` (no wrap-around: the dimension products are
  assumed to fit the machine word), except for the counter of the kernel loop,
  which `kernelLoop` reduces modulo `2^32` as the code does.
* A buffer is a `List`; reading `p[i]` outside the buffer is undefined in C and
  is `none` here, so every kernel body returns an `Option`.
* One kernel thread body is a function of the global `index`.
  `ROIPoolForwardLaucher` and `ROIPoolBackwardLaucher` give the buffers written
  by a launch that reports no error and runs the body once for every `index` in
  `[0, output_size)`; `ROIPoolForwardLaunch` and `ROIPoolBackwardLaunch` are the
  calls with the launch configuration, the loops of the threads and the error
  test of the code.
-/

namespace ROIPool

/-- The element type of the feature map, the regions and the gradients. -/
abbrev Dtype := ℚ

/-- The constant `FLT_MAX` of `<cfloat>`: `(2 - 2^-23) * 2^127`. -/
def FLT_MAX : Dtype := 340282346638528859811704183484516925440

/-- C `round`: nearest integer, halfway cases away from zero. -/
def round (x : Dtype) : Int := if 0 ≤ x then ⌊x + 1 / 2⌋ else ⌈x - 1 / 2⌉

/-- The conversion `int(x)` of a floating value: truncation toward zero. -/
def toInt (x : Dtype) : Int := if 0 ≤ x then ⌊x⌋ else ⌈x⌉

/-- The read `p[i]` of a buffer `p`; `none` outside the buffer. -/
def load {α : Type} (p : List α) (i : Int) : Option α :=
  if 0 ≤ i then p[i.toNat]? else none

/-- The values `lo, lo+1, ..., hi-1` taken by `for (int i = lo; i < hi; ++i)`. -/
def loopRange (lo hi : Int) : List Int :=
  (List.range (hi - lo).toNat).map (fun (k : Nat) => lo + (k : Int))

/-- All results of the thread bodies, or `none` if one of them is undefined. -/
def collect {α : Type} : List (Option α) → Option (List α)
  | [] => some []
  | none :: _ => none
  | some x :: xs => (collect xs).map (fun r => x :: r)

/-- The clamp `min(max(x, 0), bound)` of lines 71-74 and 205-208. -/
def clip (x bound : Int) : Int := min (max x 0) bound

/-- The forced extent `max(roi_end - roi_start + 1, 1)` of lines 54-55 and 192-193. -/
def roiExtent (roi_start roi_end : Int) : Int := max (roi_end - roi_start + 1) 1

/-- The bin size `static_cast<Dtype>(roi_extent) / static_cast<Dtype>(pooled)`,
computed exactly (`binSize32` is the quotient rounded to `float`). -/
def binSize (roi_extent pooled : Int) : Dtype := (roi_extent : Dtype) / (pooled : Dtype)

/-- The unclipped window start `floor(p * bin_size)` relative to the region start
(lines 61-64), computed exactly (`binStart32` rounds to `float`). -/
def binStart (p roi_extent pooled : Int) : Int :=
  ⌊(p : Dtype) * binSize roi_extent pooled⌋

/-- The unclipped window end `ceil((p + 1) * bin_size)` relative to the region start
(lines 65-68), computed exactly (`binEnd32` rounds to `float`). -/
def binEnd (p roi_extent pooled : Int) : Int :=
  ⌈((p + 1 : Int) : Dtype) * binSize roi_extent pooled⌉

/-- The clipped window start of pooled index `p` on one axis (lines 71, 73). -/
def winStart (p roi_start roi_end pooled bound : Int) : Int :=
  clip (binStart p (roiExtent roi_start roi_end) pooled + roi_start) bound

/-- The clipped window end of pooled index `p` on one axis (lines 72, 74). -/
def winEnd (p roi_start roi_end pooled bound : Int) : Int :=
  clip (binEnd p (roiExtent roi_start roi_end) pooled + roi_start) bound

/-- One region record `[batch_index, class_index, x1, y1, x2, y2]`: the six values
`offset_bottom_rois[0..5]`. -/
structure Roi where
  /-- The field `offset_bottom_rois[0]`. -/
  batch_index : Dtype
  /-- The field `offset_bottom_rois[1]`. -/
  class_index : Dtype
  /-- The field `offset_bottom_rois[2]`. -/
  x1 : Dtype
  /-- The field `offset_bottom_rois[3]`. -/
  y1 : Dtype
  /-- The field `offset_bottom_rois[4]`. -/
  x2 : Dtype
  /-- The field `offset_bottom_rois[5]`. -/
  y2 : Dtype
deriving DecidableEq

/-- The six reads `offset_bottom_rois[0..5]`, `offset_bottom_rois = bottom_rois + off`. -/
def loadRoi (bottom_rois : List Dtype) (off : Int) : Option Roi :=
  (load bottom_rois (off + 0)).bind fun r0 =>
  (load bottom_rois (off + 1)).bind fun r1 =>
  (load bottom_rois (off + 2)).bind fun r2 =>
  (load bottom_rois (off + 3)).bind fun r3 =>
  (load bottom_rois (off + 4)).bind fun r4 =>
  (load bottom_rois (off + 5)).bind fun r5 =>
    some ⟨r0, r1, r2, r3, r4, r5⟩

/-- The local `roi_batch_ind = int(offset_bottom_rois[0])`. -/
def Roi.roi_batch_ind (r : Roi) : Int := toInt r.batch_index

/-- The local `roi_cls = int(offset_bottom_rois[1])`. -/
def Roi.roi_cls (r : Roi) : Int := toInt r.class_index

/-- The local `roi_start_w = round(offset_bottom_rois[2] * spatial_scale)`. -/
def Roi.roi_start_w (r : Roi) (spatial_scale : Dtype) : Int := round (r.x1 * spatial_scale)

/-- The local `roi_start_h = round(offset_bottom_rois[3] * spatial_scale)`. -/
def Roi.roi_start_h (r : Roi) (spatial_scale : Dtype) : Int := round (r.y1 * spatial_scale)

/-- The local `roi_end_w = round(offset_bottom_rois[4] * spatial_scale)`. -/
def Roi.roi_end_w (r : Roi) (spatial_scale : Dtype) : Int := round (r.x2 * spatial_scale)

/-- The local `roi_end_h = round(offset_bottom_rois[5] * spatial_scale)`. -/
def Roi.roi_end_h (r : Roi) (spatial_scale : Dtype) : Int := round (r.y2 * spatial_scale)

/-- The local `hstart` of `ROIPoolForward` after clipping (line 71). -/
def hstart (r : Roi) (spatial_scale : Dtype) (pooled_height height ph : Int) : Int :=
  winStart ph (r.roi_start_h spatial_scale) (r.roi_end_h spatial_scale) pooled_height height

/-- The local `hend` of `ROIPoolForward` after clipping (line 72). -/
def hend (r : Roi) (spatial_scale : Dtype) (pooled_height height ph : Int) : Int :=
  winEnd ph (r.roi_start_h spatial_scale) (r.roi_end_h spatial_scale) pooled_height height

/-- The local `wstart` of `ROIPoolForward` after clipping (line 73). -/
def wstart (r : Roi) (spatial_scale : Dtype) (pooled_width width pw : Int) : Int :=
  winStart pw (r.roi_start_w spatial_scale) (r.roi_end_w spatial_scale) pooled_width width

/-- The local `wend` of `ROIPoolForward` after clipping (line 74). -/
def wend (r : Roi) (spatial_scale : Dtype) (pooled_width width pw : Int) : Int :=
  winEnd pw (r.roi_start_w spatial_scale) (r.roi_end_w spatial_scale) pooled_width width

/-- The local `bottom_index` of the scan loops (lines 86-90) for the channel used. -/
def bottomIndex (width channels ch h w : Int) : Int := (h * width + w) * channels + ch

/-- The body of the two scan loops of `ROIPoolForward` (lines 86-94): `base` is
the offset `roi_batch_ind * channels * height * width` added to `bottom_data`,
`ch` the channel used, and the state is `(maxval, maxidx)`. -/
def scanStep (bottom_data : List Dtype) (base width channels ch h w : Int)
    (st : Dtype × Int) : Option (Dtype × Int) :=
  let bottom_index := bottomIndex width channels ch h w
  (load bottom_data (base + bottom_index)).bind fun v =>
    if v > st.1 then some (v, bottom_index) else some st

/-- The scan loops of `ROIPoolForward` (lines 82-96): rows outermost, then columns. -/
def scanWindow (bottom_data : List Dtype) (base width channels ch : Int)
    (hstart hend wstart wend : Int) (st : Dtype × Int) : Option (Dtype × Int) :=
  (loopRange hstart hend).foldlM
    (fun st h => (loopRange wstart wend).foldlM
      (fun st w => scanStep bottom_data base width channels ch h w st) st) st

/-- The decomposition of the output index in `ROIPoolForward` (lines 28-43):
the result is `(n, ph, pw, c)`. `%` and `/` are those of C. -/
def decodeForward (pool_channel channels pooled_height pooled_width index : Int) :
    Int × Int × Int × Int :=
  let n := index
  let cn : Int × Int :=
    if pool_channel ≠ 0 then (1, n) else (Int.tmod n channels, Int.tdiv n channels)
  let c := cn.1
  let n := cn.2
  let pw := Int.tmod n pooled_width
  let n := Int.tdiv n pooled_width
  let ph := Int.tmod n pooled_height
  let n := Int.tdiv n pooled_height
  (n, ph, pw, c)

/-- The channel of the feature map that the scan reads (lines 87-90): the
region's class in pool-by-channel mode, the output channel `c` otherwise. -/
def channelUsed (pool_channel : Int) (r : Roi) (c : Int) : Int :=
  if pool_channel ≠ 0 then r.roi_cls else c

/-- The offset added to `bottom_data` for the region's batch element (line 81). -/
def batchBase (r : Roi) (height width channels : Int) : Int :=
  r.roi_batch_ind * channels * height * width

/-- Lines 53-97 of `ROIPoolForward` for the region record `r` and the pooled
element `(ph, pw, c)`: the final `(maxval, maxidx)`. -/
def poolCell (bottom_data : List Dtype) (spatial_scale : Dtype)
    (pool_channel height width channels pooled_height pooled_width : Int)
    (r : Roi) (ph pw c : Int) : Option (Dtype × Int) :=
  let hstart := hstart r spatial_scale pooled_height height ph
  let hend := hend r spatial_scale pooled_height height ph
  let wstart := wstart r spatial_scale pooled_width width pw
  let wend := wend r spatial_scale pooled_width width pw
  let is_empty : Bool := decide (hend ≤ hstart) || decide (wend ≤ wstart)
  let maxval : Dtype := if is_empty then 0 else -FLT_MAX
  let maxidx : Int := -1
  scanWindow bottom_data (batchBase r height width channels) width channels
    (channelUsed pool_channel r c) hstart hend wstart wend (maxval, maxidx)

/-- One iteration of the kernel loop of `ROIPoolForward` (lines 27-99): the pair
`(top_data[index], argmax_data[index])` it writes (the buffer `argmax_data` is
present, so line 99 runs). -/
def ROIPoolForward (bottom_data : List Dtype) (spatial_scale : Dtype)
    (pool_channel height width channels pooled_height pooled_width channel_rois : Int)
    (bottom_rois : List Dtype) (index : Int) : Option (Dtype × Int) :=
  let d := decodeForward pool_channel channels pooled_height pooled_width index
  let n := d.1
  let ph := d.2.1
  let pw := d.2.2.1
  let c := d.2.2.2
  (loadRoi bottom_rois (n * channel_rois)).bind fun r =>
    poolCell bottom_data spatial_scale pool_channel height width channels pooled_height
      pooled_width r ph pw c

/-- The launcher of the forward kernel (lines 103-131) when the launch reports no
error and the threads run the body once at every index of `[0, output_size)`:
`(top_data, argmax_data)`.  The launch configuration, the loops of the threads and
the error test are in `ROIPoolForwardLaunch`. -/
def ROIPoolForwardLaucher (bottom_data : List Dtype) (spatial_scale : Dtype)
    (pool_channel num_rois channel_rois height width channels pooled_height
      pooled_width : Int)
    (bottom_rois : List Dtype) : Option (List Dtype × List Int) :=
  let output_size :=
    if pool_channel ≠ 0 then num_rois * pooled_height * pooled_width
    else num_rois * pooled_height * pooled_width * channels
  (collect ((loopRange 0 output_size).map
    (ROIPoolForward bottom_data spatial_scale pool_channel height width channels
      pooled_height pooled_width channel_rois bottom_rois))).map List.unzip

/-- The body of the two pooled-cell loops of `ROIPoolBackward` (lines 214-223);
`offset` is the offset added to `top_diff` and `argmax_data` (lines 180-186). -/
def backStep (top_diff : List Dtype) (argmax_data : List Int)
    (pool_channel width channels pooled_width offset h w c ph pw : Int)
    (gradient : Dtype) : Option Dtype :=
  let k := if pool_channel ≠ 0 then ph * pooled_width + pw
    else (ph * pooled_width + pw) * channels + c
  (load argmax_data (offset + k)).bind fun a =>
    if a = (h * width + w) * channels + c then
      (load top_diff (offset + k)).bind fun g => some (gradient + g)
    else some gradient

/-- The pooled-cell loops of `ROIPoolBackward` (lines 210-225). -/
def backWindow (top_diff : List Dtype) (argmax_data : List Int)
    (pool_channel width channels pooled_width offset h w c : Int)
    (phstart phend pwstart pwend : Int) (gradient : Dtype) : Option Dtype :=
  (loopRange phstart phend).foldlM
    (fun g ph => (loopRange pwstart pwend).foldlM
      (fun g pw => backStep top_diff argmax_data pool_channel width channels
        pooled_width offset h w c ph pw g) g) gradient

/-- The local `phstart` / `pwstart` of `ROIPoolBackward` after clamping (lines 200,
202, 205, 207) for the source coordinate `x` on one axis. -/
def pooledStart (x roi_start roi_end pooled : Int) : Int :=
  clip ⌊((x - roi_start : Int) : Dtype) / binSize (roiExtent roi_start roi_end) pooled⌋
    pooled

/-- The local `phend` / `pwend` of `ROIPoolBackward` after clamping (lines 201,
203, 206, 208) for the source coordinate `x` on one axis. -/
def pooledEnd (x roi_start roi_end pooled : Int) : Int :=
  clip ⌈((x - roi_start + 1 : Int) : Dtype) / binSize (roiExtent roi_start roi_end) pooled⌉
    pooled

/-- Lines 168-225 of `ROIPoolBackward` for the region record `r` of index `roi_n`
whose batch (and class) matched the source element `(h, w, c)`. -/
def backCell (top_diff : List Dtype) (argmax_data : List Int) (spatial_scale : Dtype)
    (pool_channel width channels pooled_height pooled_width : Int)
    (r : Roi) (roi_n h w c : Int) (gradient : Dtype) : Option Dtype :=
  let roi_start_w := r.roi_start_w spatial_scale
  let roi_start_h := r.roi_start_h spatial_scale
  let roi_end_w := r.roi_end_w spatial_scale
  let roi_end_h := r.roi_end_h spatial_scale
  let in_roi : Bool := decide (w ≥ roi_start_w) && decide (w ≤ roi_end_w) &&
    decide (h ≥ roi_start_h) && decide (h ≤ roi_end_h)
  if !in_roi then some gradient
  else
    let offset := if pool_channel ≠ 0 then roi_n * pooled_height * pooled_width
      else roi_n * pooled_height * pooled_width * channels
    backWindow top_diff argmax_data pool_channel width channels pooled_width
      offset h w c
      (pooledStart h roi_start_h roi_end_h pooled_height)
      (pooledEnd h roi_start_h roi_end_h pooled_height)
      (pooledStart w roi_start_w roi_end_w pooled_width)
      (pooledEnd w roi_start_w roi_end_w pooled_width) gradient

/-- The body of the region loop of `ROIPoolBackward` (lines 155-225) for the
source element `(n, h, w, c)`: the gradient after region `roi_n`. -/
def backRoi (top_diff : List Dtype) (argmax_data : List Int)
    (channel_rois : Int) (spatial_scale : Dtype)
    (pool_channel width channels pooled_height pooled_width : Int)
    (bottom_rois : List Dtype) (n h w c : Int) (gradient : Dtype) (roi_n : Int) :
    Option Dtype :=
  let off := roi_n * channel_rois
  (load bottom_rois (off + 0)).bind fun r0 =>
  (load bottom_rois (off + 1)).bind fun r1 =>
    let roi_batch_ind := toInt r0
    let roi_cls := toInt r1
    if n ≠ roi_batch_ind then some gradient
    else if pool_channel ≠ 0 ∧ c ≠ roi_cls then some gradient
    else
      (load bottom_rois (off + 2)).bind fun r2 =>
      (load bottom_rois (off + 3)).bind fun r3 =>
      (load bottom_rois (off + 4)).bind fun r4 =>
      (load bottom_rois (off + 5)).bind fun r5 =>
        backCell top_diff argmax_data spatial_scale pool_channel width channels
          pooled_height pooled_width ⟨r0, r1, r2, r3, r4, r5⟩ roi_n h w c gradient

/-- One iteration of the kernel loop of `ROIPoolBackward` (lines 142-227): the
value `bottom_diff[index]` it writes. -/
def ROIPoolBackward (top_diff : List Dtype) (argmax_data : List Int)
    (num_rois channel_rois : Int) (spatial_scale : Dtype)
    (pool_channel height width channels pooled_height pooled_width : Int)
    (bottom_rois : List Dtype) (index : Int) : Option Dtype :=
  let n := index
  let c := Int.tmod n channels
  let n := Int.tdiv n channels
  let w := Int.tmod n width
  let n := Int.tdiv n width
  let h := Int.tmod n height
  let n := Int.tdiv n height
  (loopRange 0 num_rois).foldlM
    (backRoi top_diff argmax_data channel_rois spatial_scale pool_channel width
      channels pooled_height pooled_width bottom_rois n h w c) 0

/-- The launcher of the backward kernel (lines 232-254) when the launch reports no
error and the threads run the body once at every index of `[0, output_size)`:
`bottom_diff`.  The launch configuration, the loops of the threads and the error
test are in `ROIPoolBackwardLaunch`. -/
def ROIPoolBackwardLaucher (top_diff : List Dtype) (spatial_scale : Dtype)
    (pool_channel batch_size num_rois channel_rois height width channels pooled_height
      pooled_width : Int)
    (bottom_rois : List Dtype) (argmax_data : List Int) : Option (List Dtype) :=
  let output_size := batch_size * height * width * channels
  collect ((loopRange 0 output_size).map
    (ROIPoolBackward top_diff argmax_data num_rois channel_rois spatial_scale pool_channel
      height width channels pooled_height pooled_width bottom_rois))


/-! ### The window arithmetic in single precision

The kernels are instantiated at `Dtype = float`, so the casts
`static_cast<Dtype>(int)`, the quotient of lines 56-59 and the products of lines
61-68 are each rounded to the nearest `float`.  The definitions above compute
them exactly; the definitions of this section round them as the code does. -/

/-- The number of binary digits of `n`; `fuel` bounds the digits counted. -/
def bitLength : Nat → Nat → Nat
  | 0, _ => 0
  | fuel + 1, n => if n = 0 then 0 else bitLength fuel (n / 2) + 1

/-- The power `2^k` for an exponent of either sign. -/
def pow2 (k : Int) : Dtype :=
  if 0 ≤ k then ((2 ^ k.toNat : Nat) : Dtype) else 1 / ((2 ^ (-k).toNat : Nat) : Dtype)

/-- The `float` nearest to the real number `x` (IEEE 754 binary32, round to
nearest, ties to even): with `2^e <= |x| < 2^(e+1)` the result is the multiple of
`2^(e-23)` nearest to `x`.  Exponent overflow and underflow are not modelled: the
values rounded here are bin sizes and window bounds. -/
def fl32 (x : Dtype) : Dtype :=
  if x = 0 then 0 else
    let a := if x < 0 then -x else x
    let k : Int := (bitLength a.num.natAbs a.num.natAbs : Int) - (bitLength a.den a.den : Int)
    let e : Int := if pow2 k ≤ a then k else k - 1
    let ulp := pow2 (e - 23)
    let q := a / ulp
    let f : Int := ⌊q⌋
    let m : Int :=
      if q - f < 1 / 2 then f
      else if 1 / 2 < q - f then f + 1
      else if f % 2 = 0 then f else f + 1
    if x < 0 then -((m : Dtype) * ulp) else (m : Dtype) * ulp

/-- The bin size of lines 56-59 as a `float`: both casts and the quotient rounded. -/
def binSize32 (roi_extent pooled : Int) : Dtype :=
  fl32 (fl32 (roi_extent : Dtype) / fl32 (pooled : Dtype))

/-- The unclipped window start `floor(static_cast<float>(p) * bin_size)` of lines
61-64 with the product rounded to `float`. -/
def binStart32 (p roi_extent pooled : Int) : Int :=
  ⌊fl32 (fl32 (p : Dtype) * binSize32 roi_extent pooled)⌋

/-- The unclipped window end `ceil(static_cast<float>(p + 1) * bin_size)` of lines
65-68 with the product rounded to `float`. -/
def binEnd32 (p roi_extent pooled : Int) : Int :=
  ⌈fl32 (fl32 ((p + 1 : Int) : Dtype) * binSize32 roi_extent pooled)⌉

/-- The clipped window start of lines 71 and 73 from the `float` bin arithmetic. -/
def winStart32 (p roi_start roi_end pooled bound : Int) : Int :=
  clip (binStart32 p (roiExtent roi_start roi_end) pooled + roi_start) bound

/-- The clipped window end of lines 72 and 74 from the `float` bin arithmetic. -/
def winEnd32 (p roi_start roi_end pooled bound : Int) : Int :=
  clip (binEnd32 p (roiExtent roi_start roi_end) pooled + roi_start) bound

/-- The corner `round(offset_bottom_rois[k] * spatial_scale)` of lines 48-51 with
the product rounded to `float`. -/
def scaledCorner32 (x spatial_scale : Dtype) : Int := round (fl32 (x * spatial_scale))

/-- Lines 48-97 of `ROIPoolForward` at `Dtype = float` for the region record `r`
and the pooled element `(ph, pw, c)`: `poolCell` with the corners and the window
bounds rounded as the code rounds them. -/
def poolCell32 (bottom_data : List Dtype) (spatial_scale : Dtype)
    (pool_channel height width channels pooled_height pooled_width : Int)
    (r : Roi) (ph pw c : Int) : Option (Dtype × Int) :=
  let roi_start_w := scaledCorner32 r.x1 spatial_scale
  let roi_start_h := scaledCorner32 r.y1 spatial_scale
  let roi_end_w := scaledCorner32 r.x2 spatial_scale
  let roi_end_h := scaledCorner32 r.y2 spatial_scale
  let hstart := winStart32 ph roi_start_h roi_end_h pooled_height height
  let hend := winEnd32 ph roi_start_h roi_end_h pooled_height height
  let wstart := winStart32 pw roi_start_w roi_end_w pooled_width width
  let wend := winEnd32 pw roi_start_w roi_end_w pooled_width width
  let is_empty : Bool := decide (hend ≤ hstart) || decide (wend ≤ wstart)
  let maxval : Dtype := if is_empty then 0 else -FLT_MAX
  let maxidx : Int := -1
  scanWindow bottom_data (batchBase r height width channels) width channels
    (channelUsed pool_channel r c) hstart hend wstart wend (maxval, maxidx)

/-- One iteration of the kernel loop of `ROIPoolForward` (lines 27-99) at
`Dtype = float`: the pair `(top_data[index], argmax_data[index])` it writes. -/
def ROIPoolForward32 (bottom_data : List Dtype) (spatial_scale : Dtype)
    (pool_channel height width channels pooled_height pooled_width channel_rois : Int)
    (bottom_rois : List Dtype) (index : Int) : Option (Dtype × Int) :=
  let d := decodeForward pool_channel channels pooled_height pooled_width index
  let n := d.1
  let ph := d.2.1
  let pw := d.2.2.1
  let c := d.2.2.2
  (loadRoi bottom_rois (n * channel_rois)).bind fun r =>
    poolCell32 bottom_data spatial_scale pool_channel height width channels pooled_height
      pooled_width r ph pw c

/-! ### The kernel launch -/

/-- The value of an `int` that receives the exact result `x`: the residue of `x`
modulo `2^32` in `[-2^31, 2^31)`. -/
def wrapInt (x : Int) : Int := (x + 2147483648) % 4294967296 - 2147483648

/-- The loop `CUDA_1D_KERNEL_LOOP(i, n)` of one thread (lines 9-11): the values of
`i` at which the body runs, in order.  The counter is an `int` and the stride
`blockDim.x * gridDim.x` is `unsigned`, so `i += stride` is computed modulo `2^32`
and stored back into the `int`.  `fuel` bounds the number of tests `i < n`. -/
def kernelLoop (n : Int) (stride : Nat) : Nat → Int → List Int
  | 0, _ => []
  | fuel + 1, i =>
    if i < n then i :: kernelLoop n stride fuel (wrapInt (i + (stride : Int))) else []

/-- The grid size `(output_size + kThreadsPerBlock - 1) / kThreadsPerBlock` of
lines 118 and 241, an `int` converted to the `unsigned` of `dim3`. -/
def gridDim (output_size : Int) : Nat :=
  let kThreadsPerBlock : Int := 512
  (Int.tdiv (output_size + kThreadsPerBlock - 1) kThreadsPerBlock % 4294967296).toNat

/-- The indices at which the thread `threadIdx` of block `blockIdx` runs the kernel
body in the launch `<<<gridDim, kThreadsPerBlock>>>` with `nthreads = output_size`:
the counter starts at the `unsigned` value `blockIdx.x * blockDim.x + threadIdx.x`
stored into an `int`.  A counter of 32 bits either leaves the loop within `2^32`
tests or never does, so `2^32` is enough fuel. -/
def threadVisits (output_size : Int) (blockIdx threadIdx : Nat) : List Int :=
  let blockDim : Nat := 512
  kernelLoop output_size ((blockDim * gridDim output_size) % 4294967296) 4294967296
    (wrapInt (((blockIdx * blockDim + threadIdx) % 4294967296 : Nat) : Int))

/-- The indices at which the threads of the launch
`<<<(output_size + kThreadsPerBlock - 1) / kThreadsPerBlock, kThreadsPerBlock>>>`
(lines 109, 118-119 and 237, 241-242) run the kernel body, block by block and
thread by thread. -/
def launchVisits (output_size : Int) : List Int :=
  (List.range (gridDim output_size)).flatMap fun blockIdx =>
    (List.range 512).flatMap fun threadIdx => threadVisits output_size blockIdx threadIdx

/-- The writes `(index, value)` of a launch whose body writes `body index` at
`index`; `none` if one of the bodies is undefined. -/
def launchWrites {β : Type} (output_size : Int) (body : Int → Option β) :
    Option (List (Int × β)) :=
  collect ((launchVisits output_size).map fun index =>
    (body index).map fun v => (index, v))

/-- What a call of a launcher does: it ends the process with `exit(-1)` (lines
124-128 and 247-251) or it returns. -/
inductive Outcome (α : Type) where
  | exited : Outcome α
  | returned (result : α) : Outcome α
deriving DecidableEq

/-- The test `cudaSuccess != err` of lines 123-124 and 246-247.  A launch with a
grid of zero blocks is an invalid launch configuration, which `cudaGetLastError()`
reports and which runs no thread; `device_error` stands for every other error the
CUDA runtime reports. -/
def launchFailed (gridDim : Nat) (device_error : Bool) : Bool :=
  decide (gridDim = 0) || device_error

/-- The call `ROIPoolForwardLaucher(...)` (lines 103-131) with its launch
configuration and its error test: the process exits, or the call returns after
the writes `(index, (top_data[index], argmax_data[index]))` of the threads. -/
def ROIPoolForwardLaunch (device_error : Bool) (bottom_data : List Dtype)
    (spatial_scale : Dtype)
    (pool_channel num_rois channel_rois height width channels pooled_height
      pooled_width : Int)
    (bottom_rois : List Dtype) : Outcome (Option (List (Int × (Dtype × Int)))) :=
  let output_size :=
    if pool_channel ≠ 0 then num_rois * pooled_height * pooled_width
    else num_rois * pooled_height * pooled_width * channels
  if launchFailed (gridDim output_size) device_error then Outcome.exited
  else Outcome.returned (launchWrites output_size
    (ROIPoolForward bottom_data spatial_scale pool_channel height width channels
      pooled_height pooled_width channel_rois bottom_rois))

/-- The call `ROIPoolBackwardLaucher(...)` (lines 232-254) with its launch
configuration and its error test: the process exits, or the call returns after
the writes `(index, bottom_diff[index])` of the threads. -/
def ROIPoolBackwardLaunch (device_error : Bool) (top_diff : List Dtype)
    (spatial_scale : Dtype)
    (pool_channel batch_size num_rois channel_rois height width channels pooled_height
      pooled_width : Int)
    (bottom_rois : List Dtype) (argmax_data : List Int) :
    Outcome (Option (List (Int × Dtype))) :=
  let output_size := batch_size * height * width * channels
  if launchFailed (gridDim output_size) device_error then Outcome.exited
  else Outcome.returned (launchWrites output_size
    (ROIPoolBackward top_diff argmax_data num_rois channel_rois spatial_scale pool_channel
      height width channels pooled_height pooled_width bottom_rois))
/-! ### Auxiliary definitions for the statements -/

/-- The positions `(h, w)` visited by two nested loops, in visiting order. -/
def positions (hs ws : List Int) : List (Int × Int) :=
  hs.flatMap fun h => ws.map fun w => (h, w)

/-- The update of `(maxval, maxidx)` by one value and its index (lines 91-94). -/
def pick (st x : Dtype × Int) : Dtype × Int := if x.1 > st.1 then x else st

/-- The feature-map value at `(h, w)` of channel `ch` in the slice at offset `base`. -/
def feature (bottom_data : List Dtype) (base width channels ch h w : Int) : Option Dtype :=
  load bottom_data (base + bottomIndex width channels ch h w)

/-- The position `(h, w)` lies in the clipped window of the pooled cell `(ph, pw)` of
region `r`. -/
def InWindow (r : Roi) (spatial_scale : Dtype)
    (height width pooled_height pooled_width ph pw h w : Int) : Prop :=
  hstart r spatial_scale pooled_height height ph ≤ h ∧
  h < hend r spatial_scale pooled_height height ph ∧
  wstart r spatial_scale pooled_width width pw ≤ w ∧
  w < wend r spatial_scale pooled_width width pw

instance (r : Roi) (spatial_scale : Dtype)
    (height width pooled_height pooled_width ph pw h w : Int) :
    Decidable (InWindow r spatial_scale height width pooled_height pooled_width ph pw h w) := by
  unfold InWindow
  infer_instance

/-- The feature-map value that the scan of region `r`, output channel `c`, reads at
`(h, w)`. -/
def cellFeature (bottom_data : List Dtype) (pool_channel height width channels : Int)
    (r : Roi) (c h w : Int) : Option Dtype :=
  feature bottom_data (batchBase r height width channels) width channels
    (channelUsed pool_channel r c) h w

/-- The flat index, inside the batch slice, that the scan of region `r`, output
channel `c`, uses at `(h, w)`. -/
def cellIndex (pool_channel width channels : Int) (r : Roi) (c h w : Int) : Int :=
  bottomIndex width channels (channelUsed pool_channel r c) h w

/-- The list of `(value, index)` pairs met by the scan of a cell, in scan order. -/
def scanned (bottom_data : List Dtype) (spatial_scale : Dtype)
    (pool_channel height width channels pooled_height pooled_width : Int)
    (r : Roi) (ph pw c : Int) : List (Dtype × Int) :=
  (positions
      (loopRange (hstart r spatial_scale pooled_height height ph)
        (hend r spatial_scale pooled_height height ph))
      (loopRange (wstart r spatial_scale pooled_width width pw)
        (wend r spatial_scale pooled_width width pw))).map
    fun p => ((cellFeature bottom_data pool_channel height width channels r c p.1 p.2).getD 0,
      cellIndex pool_channel width channels r c p.1 p.2)

/-- The feature map of the scenario: the values `0..15` in row-major order. -/
def scenarioMap : List Dtype := [0, 1, 2, 3, 4, 5, 6, 7, 8, 9, 10, 11, 12, 13, 14, 15]

/-- The region list of the scenario: the one record `[0,0,0,0,3,3]`. -/
def scenarioRois : List Dtype := [0, 0, 0, 0, 3, 3]

/-- The region record of the scenario. -/
def scenarioRoi : Roi := ⟨0, 0, 0, 0, 3, 3⟩

/-- A 1x2x2x1 feature map whose four values are equal. -/
def tieMap : List Dtype := [7, 7, 7, 7]

/-- A 1x2x2x1 feature map whose four values are the least finite float. -/
def lowestMap : List Dtype := [-FLT_MAX, -FLT_MAX, -FLT_MAX, -FLT_MAX]

/-- The region list with the one record `[0,0,0,0,1,1]`, covering a 2x2 map. -/
def tieRois : List Dtype := [0, 0, 0, 0, 1, 1]

/-- The region record `[0,0,0,0,1,1]`. -/
def tieRoi : Roi := ⟨0, 0, 0, 0, 1, 1⟩

/-- The region list with the one record `[0,0,4,4,7,7]`, outside a 4x4 map. -/
def outsideRois : List Dtype := [0, 0, 4, 4, 7, 7]

/-- The region record `[0,0,4,4,7,7]`. -/
def outsideRoi : Roi := ⟨0, 0, 4, 4, 7, 7⟩

/-- The region list with the one malformed record `[0,0,2,2,1,1]` (`x2 < x1`, `y2 < y1`). -/
def malformedRois : List Dtype := [0, 0, 2, 2, 1, 1]

/-- The region list with the one record `[0,0,2,2,2,2]`: the single point `(h, w) = (2, 2)`. -/
def singleRois : List Dtype := [0, 0, 2, 2, 2, 2]

/-- The region list with the one record `[0,0,2,1,2,1]`: the single point `(h, w) = (1, 2)`. -/
def pointRois : List Dtype := [0, 0, 2, 1, 2, 1]

/-- The region record `[0,0,2,1,2,1]`. -/
def pointRoi : Roi := ⟨0, 0, 2, 1, 2, 1⟩

/-- A 1x2x2x1 feature map with one value equal to `-FLT_MAX`. -/
def mixedMap : List Dtype := [3, -FLT_MAX, 0, 8]

/-- The slot of `top_diff` and `argmax_data` that `ROIPoolBackward` reads for region
`roi_n`, pooled cell `(ph, pw)` and channel `c`: the `offset` of lines 180-184 plus
the subscript of lines 216-222. -/
def topSlot (pool_channel channels pooled_height pooled_width roi_n ph pw c : Int) : Int :=
  (if pool_channel ≠ 0 then roi_n * pooled_height * pooled_width
    else roi_n * pooled_height * pooled_width * channels) +
  (if pool_channel ≠ 0 then ph * pooled_width + pw
    else (ph * pooled_width + pw) * channels + c)

/-- The `output_size` of `ROIPoolForwardLaucher` (lines 113-116). -/
def forwardSize (pool_channel num_rois channels pooled_height pooled_width : Int) : Int :=
  if pool_channel ≠ 0 then num_rois * pooled_height * pooled_width
  else num_rois * pooled_height * pooled_width * channels

/-- The decomposition of the element index in `ROIPoolBackward` (lines 143-149):
the result is `(n, h, w, c)`. -/
def decodeBackward (height width channels index : Int) : Int × Int × Int × Int :=
  let n := index
  let c := Int.tmod n channels
  let n := Int.tdiv n channels
  let w := Int.tmod n width
  let n := Int.tdiv n width
  let h := Int.tmod n height
  let n := Int.tdiv n height
  (n, h, w, c)

/-- The test `in_roi` of `ROIPoolBackward` (lines 174-175). -/
def inRoi (r : Roi) (spatial_scale : Dtype) (h w : Int) : Bool :=
  decide (w ≥ r.roi_start_w spatial_scale) && decide (w ≤ r.roi_end_w spatial_scale) &&
    decide (h ≥ r.roi_start_h spatial_scale) && decide (h ≤ r.roi_end_h spatial_scale)

/-- What one pooled cell adds to the gradient of the element with flat index `idx`:
the output gradient at `slot` when the argmax recorded at `slot` is `idx`, else `0`. -/
def cellGrad (top_diff : List Dtype) (argmax_data : List Int) (slot idx : Int) : Dtype :=
  if load argmax_data slot = some idx then (load top_diff slot).getD 0 else 0

/-- The sum of `cellGrad` over the pooled cells `(ph, pw)`, `ph` in `phs` and `pw` in
`pws`, of region `roi_n`, for the element `(h, w, c)`. -/
def regionGrad (top_diff : List Dtype) (argmax_data : List Int)
    (pool_channel width channels pooled_height pooled_width roi_n h w c : Int)
    (phs pws : List Int) : Dtype :=
  ((positions phs pws).map fun p =>
    cellGrad top_diff argmax_data
      (topSlot pool_channel channels pooled_height pooled_width roi_n p.1 p.2 c)
      ((h * width + w) * channels + c)).sum

/-- What region `roi_n`, of record `r`, adds to the gradient of the element
`(n, h, w, c)` in `ROIPoolBackward` (lines 155-225). -/
def roiGradient (top_diff : List Dtype) (argmax_data : List Int) (spatial_scale : Dtype)
    (pool_channel width channels pooled_height pooled_width : Int)
    (r : Roi) (roi_n n h w c : Int) : Dtype :=
  if n ≠ r.roi_batch_ind then 0
  else if pool_channel ≠ 0 ∧ c ≠ r.roi_cls then 0
  else if !inRoi r spatial_scale h w then 0
  else regionGrad top_diff argmax_data pool_channel width channels pooled_height
    pooled_width roi_n h w c
    (loopRange
      (pooledStart h (r.roi_start_h spatial_scale) (r.roi_end_h spatial_scale) pooled_height)
      (pooledEnd h (r.roi_start_h spatial_scale) (r.roi_end_h spatial_scale) pooled_height))
    (loopRange
      (pooledStart w (r.roi_start_w spatial_scale) (r.roi_end_w spatial_scale) pooled_width)
      (pooledEnd w (r.roi_start_w spatial_scale) (r.roi_end_w spatial_scale) pooled_width))

/-- The gradient of the element of index `index` as the sum, over all regions whose
batch index is the element's batch (and whose class index is the element's channel
in pool-by-channel mode) and over all pooled cells `(ph, pw)` of the pooled grid, of
the output gradients of the cells whose argmax is the element's flat index
`(h*width + w)*channels + c`. -/
def gradientOfAllCells (top_diff : List Dtype) (argmax_data : List Int)
    (num_rois channel_rois pool_channel height width channels pooled_height
      pooled_width : Int)
    (bottom_rois : List Dtype) (index : Int) : Dtype :=
  let d := decodeBackward height width channels index
  ((loopRange 0 num_rois).map fun roi_n =>
    match loadRoi bottom_rois (roi_n * channel_rois) with
    | some r =>
      if d.1 = r.roi_batch_ind ∧ (pool_channel ≠ 0 → d.2.2.2 = r.roi_cls) then
        regionGrad top_diff argmax_data pool_channel width channels pooled_height
          pooled_width roi_n d.2.1 d.2.2.1 d.2.2.2
          (loopRange 0 pooled_height) (loopRange 0 pooled_width)
      else 0
    | none => 0).sum

/-- The slot `slot` can be read by the pooled-cell loop body of `ROIPoolBackward`:
`argmax_data[slot]` exists, and so does `top_diff[slot]` when the argmax is `idx`. -/
def SlotReadable (top_diff : List Dtype) (argmax_data : List Int) (slot idx : Int) : Prop :=
  (∃ a, load argmax_data slot = some a) ∧
    (load argmax_data slot = some idx → ∃ t, load top_diff slot = some t)

/-- The value `ROIPoolBackward` writes for the element of index `index`: the sum of
`roiGradient` over the regions, in the order of the region loop. -/
def backwardValue (top_diff : List Dtype) (argmax_data : List Int)
    (num_rois channel_rois : Int) (spatial_scale : Dtype)
    (pool_channel height width channels pooled_height pooled_width : Int)
    (bottom_rois : List Dtype) (index : Int) : Dtype :=
  let d := decodeBackward height width channels index
  ((loopRange 0 num_rois).map fun roi_n =>
    match loadRoi bottom_rois (roi_n * channel_rois) with
    | some r => roiGradient top_diff argmax_data spatial_scale pool_channel width channels
        pooled_height pooled_width r roi_n d.1 d.2.1 d.2.2.1 d.2.2.2
    | none => 0).sum

/-- A 1x2x2x2 feature map: channel 0 holds `1, 2, 3, 4` and channel 1 holds `5, 6, 7, 8`. -/
def poolMap : List Dtype := [1, 5, 2, 6, 3, 7, 4, 8]

/-- The region list with the one record `[0,1,0,0,1,1]`: class 1, covering a 2x2 map. -/
def poolRois : List Dtype := [0, 1, 0, 0, 1, 1]

/-- The region record `[0,1,0,0,1,1]`. -/
def poolRoi : Roi := ⟨0, 1, 0, 0, 1, 1⟩

/-- The pooled output of the scenario. -/
def scenarioTop : List Dtype := [5, 7, 13, 15]

/-- The argmax map of the scenario. -/
def scenarioArgmax : List Int := [5, 7, 13, 15]

/-- An output gradient of the shape of the pooled output of the scenario. -/
def rampGrad : List Dtype := [1, 2, 3, 4]

/-- An argmax map of the shape of the scenario whose entries are all the sentinel. -/
def sentinelArgmax : List Int := [-1, -1, -1, -1]


/-- A 2x2 feature map whose value at `(0, 1)` lies below `-FLT_MAX`, as the float
`-inf` does. -/
def belowMap : List Dtype := [3, -2 * FLT_MAX, 0, 8]

/-- The region list with the one record `[0,0,1,0,1,0]`: the single point `(0, 1)`. -/
def belowRois : List Dtype := [0, 0, 1, 0, 1, 0]

/-- The region record `[0,0,1,0,1,0]`. -/
def belowRoi : Roi := ⟨0, 0, 1, 0, 1, 0⟩

/-- A feature map of one row of eight columns and one channel. -/
def leftMap : List Dtype := [5, 6, 7, 8, 9, 10, 11, 12]

/-- The region list with the one record `[0,0,-7,0,-1,0]`: the columns `-7..-1` of
row 0, all of them left of the feature map. -/
def leftRois : List Dtype := [0, 0, -7, 0, -1, 0]

/-- The region record `[0,0,-7,0,-1,0]`. -/
def leftRoi : Roi := ⟨0, 0, -7, 0, -1, 0⟩

/-- The single-precision arithmetic of the pooled cell `(ph, pw)` of region `r`
gives the corners and the unclipped window bounds of exact arithmetic, as it does
when the products with `spatial_scale`, the bin sizes and their products with the
pooled indices are computed exactly. -/
def SameWindow32 (r : Roi) (spatial_scale : Dtype)
    (pooled_height pooled_width ph pw : Int) : Prop :=
  scaledCorner32 r.x1 spatial_scale = r.roi_start_w spatial_scale ∧
  scaledCorner32 r.y1 spatial_scale = r.roi_start_h spatial_scale ∧
  scaledCorner32 r.x2 spatial_scale = r.roi_end_w spatial_scale ∧
  scaledCorner32 r.y2 spatial_scale = r.roi_end_h spatial_scale ∧
  binStart32 ph (roiExtent (r.roi_start_h spatial_scale) (r.roi_end_h spatial_scale))
      pooled_height
    = binStart ph (roiExtent (r.roi_start_h spatial_scale) (r.roi_end_h spatial_scale))
      pooled_height ∧
  binEnd32 ph (roiExtent (r.roi_start_h spatial_scale) (r.roi_end_h spatial_scale))
      pooled_height
    = binEnd ph (roiExtent (r.roi_start_h spatial_scale) (r.roi_end_h spatial_scale))
      pooled_height ∧
  binStart32 pw (roiExtent (r.roi_start_w spatial_scale) (r.roi_end_w spatial_scale))
      pooled_width
    = binStart pw (roiExtent (r.roi_start_w spatial_scale) (r.roi_end_w spatial_scale))
      pooled_width ∧
  binEnd32 pw (roiExtent (r.roi_start_w spatial_scale) (r.roi_end_w spatial_scale))
      pooled_width
    = binEnd pw (roiExtent (r.roi_start_w spatial_scale) (r.roi_end_w spatial_scale))
      pooled_width

instance (r : Roi) (spatial_scale : Dtype) (pooled_height pooled_width ph pw : Int) :
    Decidable (SameWindow32 r spatial_scale pooled_height pooled_width ph pw) := by
  unfold SameWindow32
  infer_instance
/-! ### Loops and buffers -/

theorem mem_loopRange {lo hi x : Int} : x ∈ loopRange lo hi ↔ lo ≤ x ∧ x < hi := by
  unfold loopRange
  simp only [List.mem_map, List.mem_range]
  constructor
  · rintro ⟨k, hk, rfl⟩
    omega
  · rintro ⟨h1, h2⟩
    exact ⟨(x - lo).toNat, by omega, by omega⟩

theorem loopRange_nil {lo hi : Int} (h : hi ≤ lo) : loopRange lo hi = [] := by
  unfold loopRange
  have : (hi - lo).toNat = 0 := by omega
  simp [this]

theorem loopRange_one (lo : Int) : loopRange lo (lo + 1) = [lo] := by
  unfold loopRange
  have : (lo + 1 - lo).toNat = 1 := by omega
  rw [this]
  simp [List.range_succ]

theorem loopRange_length (lo hi : Int) : (loopRange lo hi).length = (hi - lo).toNat := by
  simp [loopRange]

theorem loopRange_pairwise (lo hi : Int) : (loopRange lo hi).Pairwise (fun a b => a < b) := by
  unfold loopRange
  rw [List.pairwise_map]
  refine (List.pairwise_lt_range _).imp ?_
  intro a b hab
  omega

theorem load_eq_some {α : Type} {p : List α} {i : Int} (h0 : 0 ≤ i)
    (h1 : i < (p.length : Int)) : ∃ v, load p i = some v := by
  have hlt : i.toNat < p.length := by omega
  exact ⟨p[i.toNat], by simp [load, h0, List.getElem?_eq_getElem hlt]⟩

theorem collect_map_some {α β : Type} (f : α → Option β) (g : α → β) (l : List α)
    (h : ∀ x ∈ l, f x = some (g x)) : collect (l.map f) = some (l.map g) := by
  induction l with
  | nil => rfl
  | cons a l ih =>
    have ha : f a = some (g a) := h a (List.mem_cons_self a l)
    have hl : ∀ x ∈ l, f x = some (g x) := fun x hx => h x (List.mem_cons_of_mem a hx)
    simp [collect, ha, ih hl]

/-! ### Geometry of the bins -/

theorem binStart_nonneg {p e P : Int} (hp : 0 ≤ p) (he : 0 ≤ e) (hP : 0 < P) :
    0 ≤ binStart p e P := by
  unfold binStart binSize
  rw [Int.le_floor]
  have h1 : (0 : ℚ) ≤ (p : ℚ) := by exact_mod_cast hp
  have h2 : (0 : ℚ) ≤ (e : ℚ) := by exact_mod_cast he
  have h3 : (0 : ℚ) < (P : ℚ) := by exact_mod_cast hP
  simp only [Int.cast_zero]
  positivity

theorem binEnd_le {p e P : Int} (hp : p + 1 ≤ P) (he : 0 ≤ e) (hP : 0 < P) :
    binEnd p e P ≤ e := by
  unfold binEnd binSize
  rw [Int.ceil_le]
  have h1 : ((p + 1 : Int) : ℚ) ≤ (P : ℚ) := by exact_mod_cast hp
  have h2 : (0 : ℚ) ≤ (e : ℚ) := by exact_mod_cast he
  have h3 : (0 : ℚ) < (P : ℚ) := by exact_mod_cast hP
  rw [← mul_div_assoc, div_le_iff₀ h3]
  nlinarith

theorem binStart_lt_binEnd {p e P : Int} (he : 0 < e) (hP : 0 < P) :
    binStart p e P < binEnd p e P := by
  unfold binStart binEnd binSize
  rw [Int.floor_lt]
  have h2 : (0 : ℚ) < (e : ℚ) := by exact_mod_cast he
  have h3 : (0 : ℚ) < (P : ℚ) := by exact_mod_cast hP
  have hb : (0 : ℚ) < (e : ℚ) / (P : ℚ) := by positivity
  refine lt_of_lt_of_le ?_ (Int.le_ceil _)
  push_cast
  nlinarith

theorem binStart_unit {p P : Int} (hp : 0 ≤ p) (hpP : p < P) : binStart p 1 P = 0 := by
  unfold binStart binSize
  rw [Int.floor_eq_iff]
  have h1 : (0 : ℚ) ≤ (p : ℚ) := by exact_mod_cast hp
  have h2 : (p : ℚ) < (P : ℚ) := by exact_mod_cast hpP
  have h3 : (0 : ℚ) < (P : ℚ) := by linarith
  constructor
  · simp only [Int.cast_zero, Int.cast_one]
    positivity
  · simp only [Int.cast_zero, Int.cast_one, zero_add]
    rw [← mul_div_assoc, div_lt_iff₀ h3]
    linarith

theorem binEnd_unit {p P : Int} (hp : 0 ≤ p) (hpP : p < P) : binEnd p 1 P = 1 := by
  unfold binEnd binSize
  rw [Int.ceil_eq_iff]
  have h1 : (0 : ℚ) ≤ (p : ℚ) := by exact_mod_cast hp
  have h2 : (p : ℚ) + 1 ≤ (P : ℚ) := by exact_mod_cast (show p + 1 ≤ P by omega)
  have h3 : (0 : ℚ) < (P : ℚ) := by linarith
  push_cast
  constructor
  · simp only [sub_self]
    positivity
  · rw [← mul_div_assoc, div_le_iff₀ h3]
    linarith

theorem binSize_self {P : Int} (hP : 0 < P) : binSize P P = 1 := by
  unfold binSize
  have h3 : (P : ℚ) ≠ 0 := by exact_mod_cast (ne_of_gt hP)
  exact div_self h3

theorem binStart_self {p P : Int} (hP : 0 < P) : binStart p P P = p := by
  unfold binStart
  rw [binSize_self hP, mul_one, Int.floor_intCast]

theorem binEnd_self {p P : Int} (hP : 0 < P) : binEnd p P P = p + 1 := by
  unfold binEnd
  rw [binSize_self hP, mul_one, Int.ceil_intCast]

/-! ### The scan as a fold over the window positions -/

theorem mem_positions {hs ws : List Int} {p : Int × Int} :
    p ∈ positions hs ws ↔ p.1 ∈ hs ∧ p.2 ∈ ws := by
  unfold positions
  simp only [List.mem_flatMap, List.mem_map]
  constructor
  · rintro ⟨h, hh, w, hw, rfl⟩
    exact ⟨hh, hw⟩
  · rintro ⟨h1, h2⟩
    exact ⟨p.1, h1, p.2, h2, rfl⟩

theorem foldlM_nested {σ : Type} (f : σ → Int → Int → Option σ) (hs ws : List Int) (st : σ) :
    hs.foldlM (fun st h => ws.foldlM (fun st w => f st h w) st) st
      = (positions hs ws).foldlM (fun st p => f st p.1 p.2) st := by
  induction hs generalizing st with
  | nil => rfl
  | cons h hs ih =>
    have hpos : positions (h :: hs) ws = ws.map (fun w => (h, w)) ++ positions hs ws := by
      simp [positions]
    rw [hpos, List.foldlM_append, List.foldlM_cons, List.foldlM_map]
    congr 1
    funext st1
    exact ih st1

theorem scan_eq_foldl (bottom_data : List Dtype) (base width channels ch : Int)
    (val : Int × Int → Dtype) (L : List (Int × Int)) (st : Dtype × Int)
    (hval : ∀ p ∈ L, feature bottom_data base width channels ch p.1 p.2 = some (val p)) :
    L.foldlM (fun st p => scanStep bottom_data base width channels ch p.1 p.2 st) st
      = some (L.foldl (fun st p => pick st (val p, bottomIndex width channels ch p.1 p.2)) st) := by
  induction L generalizing st with
  | nil => rfl
  | cons p L ih =>
    have hp := hval p (List.mem_cons_self p L)
    have hL : ∀ q ∈ L, feature bottom_data base width channels ch q.1 q.2 = some (val q) :=
      fun q hq => hval q (List.mem_cons_of_mem p hq)
    unfold feature at hp
    rw [List.foldlM_cons, List.foldl_cons]
    have hstep : scanStep bottom_data base width channels ch p.1 p.2 st
        = some (pick st (val p, bottomIndex width channels ch p.1 p.2)) := by
      unfold scanStep pick
      simp only [hp, Option.some_bind]
      split <;> rfl
    rw [hstep]
    exact ih _ hL

/-- The fold of `pick`: the result dominates the start value and every element;
either nothing exceeded the start value and the state is unchanged, or the
result is the first element of the list that carries the greatest value. -/
theorem foldl_pick_spec (xs : List (Dtype × Int)) (st : Dtype × Int) :
    (∀ x ∈ xs, x.1 ≤ (xs.foldl pick st).1) ∧ st.1 ≤ (xs.foldl pick st).1 ∧
    ((xs.foldl pick st = st ∧ ∀ x ∈ xs, x.1 ≤ st.1) ∨
     (st.1 < (xs.foldl pick st).1 ∧ ∃ pre post, xs = pre ++ xs.foldl pick st :: post ∧
        ∀ y ∈ pre, y.1 < (xs.foldl pick st).1)) := by
  induction xs generalizing st with
  | nil => simp
  | cons x xs ih =>
    rw [List.foldl_cons]
    obtain ⟨h1, h2, h3⟩ := ih (pick st x)
    by_cases hx : x.1 > st.1
    · have hpk : pick st x = x := by simp [pick, hx]
      rw [hpk] at h1 h2 h3 ⊢
      refine ⟨?_, by linarith, Or.inr ⟨by linarith, ?_⟩⟩
      · intro y hy
        rcases List.mem_cons.1 hy with rfl | hy
        · exact h2
        · exact h1 y hy
      · rcases h3 with ⟨he, _⟩ | ⟨hlt, pre, post, hsplit, hpre⟩
        · refine ⟨[], xs, ?_, by simp⟩
          rw [he]
          rfl
        · refine ⟨x :: pre, post, ?_, ?_⟩
          · rw [List.cons_append, ← hsplit]
          · intro y hy
            rcases List.mem_cons.1 hy with rfl | hy
            · exact hlt
            · exact hpre y hy
    · have hpk : pick st x = st := by simp [pick, hx]
      rw [hpk] at h1 h2 h3 ⊢
      have hxle : x.1 ≤ st.1 := not_lt.1 hx
      refine ⟨?_, h2, ?_⟩
      · intro y hy
        rcases List.mem_cons.1 hy with rfl | hy
        · linarith
        · exact h1 y hy
      · rcases h3 with ⟨he, hall⟩ | ⟨hlt, pre, post, hsplit, hpre⟩
        · refine Or.inl ⟨he, ?_⟩
          intro y hy
          rcases List.mem_cons.1 hy with rfl | hy
          · exact hxle
          · exact hall y hy
        · refine Or.inr ⟨hlt, x :: pre, post, ?_, ?_⟩
          · rw [List.cons_append, ← hsplit]
          · intro y hy
            rcases List.mem_cons.1 hy with rfl | hy
            · linarith
            · exact hpre y hy

theorem positions_nil_right (hs : List Int) : positions hs [] = [] := by
  induction hs with
  | nil => rfl
  | cons h hs ih =>
    unfold positions at ih ⊢
    simp

theorem positions_pairwise {hs ws : List Int} (hhs : hs.Pairwise (fun a b => a < b))
    (hws : ws.Pairwise (fun a b => a < b)) :
    (positions hs ws).Pairwise (fun p q => p.1 < q.1 ∨ (p.1 = q.1 ∧ p.2 < q.2)) := by
  unfold positions
  rw [List.pairwise_flatMap]
  constructor
  · intro h _
    rw [List.pairwise_map]
    exact hws.imp (fun hab => Or.inr ⟨rfl, hab⟩)
  · refine hhs.imp ?_
    intro a b hab x hx y hy
    rw [List.mem_map] at hx hy
    obtain ⟨_, _, rfl⟩ := hx
    obtain ⟨_, _, rfl⟩ := hy
    exact Or.inl hab

theorem clip_window {a b bound : Int} (h : clip a bound < clip b bound) :
    0 ≤ clip a bound ∧ clip b bound ≤ bound ∧ 0 < bound := by
  unfold clip at *
  omega

theorem bottomIndex_bounds {height width channels ch h w : Int}
    (hc0 : 0 ≤ ch) (hc1 : ch < channels) (hh0 : 0 ≤ h) (hh1 : h < height)
    (hw0 : 0 ≤ w) (hw1 : w < width) :
    0 ≤ bottomIndex width channels ch h w ∧
      bottomIndex width channels ch h w < channels * height * width := by
  unfold bottomIndex
  have e0 : 0 ≤ h * width := mul_nonneg hh0 (by omega)
  have e1 : (h + 1) * width ≤ height * width :=
    mul_le_mul_of_nonneg_right (by omega) (by omega)
  have e2 : 0 ≤ (h * width + w) * channels := mul_nonneg (by omega) (by omega)
  have e3 : (h * width + w + 1) * channels ≤ (height * width) * channels :=
    mul_le_mul_of_nonneg_right (by linarith) (by omega)
  constructor
  · omega
  · have e4 : channels * height * width = height * width * channels := by ring
    have e5 : (h * width + w + 1) * channels = (h * width + w) * channels + channels := by ring
    omega

theorem feature_defined {bottom_data : List Dtype} {b height width channels ch h w : Int}
    (hb0 : 0 ≤ b) (hb1 : (b + 1) * channels * height * width ≤ (bottom_data.length : Int))
    (hc0 : 0 ≤ ch) (hc1 : ch < channels) (hh0 : 0 ≤ h) (hh1 : h < height)
    (hw0 : 0 ≤ w) (hw1 : w < width) :
    ∃ v, feature bottom_data (b * channels * height * width) width channels ch h w = some v := by
  obtain ⟨i0, i1⟩ := bottomIndex_bounds hc0 hc1 hh0 hh1 hw0 hw1
  have e0 : 0 ≤ b * (channels * height * width) := mul_nonneg hb0 (by omega)
  have e1 : b * channels * height * width = b * (channels * height * width) := by ring
  have e2 : (b + 1) * channels * height * width
      = b * (channels * height * width) + channels * height * width := by ring
  unfold feature
  exact load_eq_some (by omega) (by omega)

theorem bottomIndex_lt (ch : Int) {width channels h w h1 w1 : Int} (hch : 0 < channels)
    (hw : 0 ≤ w) (hw1 : w < width) (hw0 : 0 ≤ w1)
    (hlex : h < h1 ∨ (h = h1 ∧ w < w1)) :
    bottomIndex width channels ch h w < bottomIndex width channels ch h1 w1 := by
  unfold bottomIndex
  have key : h * width + w < h1 * width + w1 := by
    rcases hlex with hlt | ⟨rfl, hlt⟩
    · have : (h + 1) * width ≤ h1 * width :=
        mul_le_mul_of_nonneg_right (by omega) (by omega)
      have e : (h + 1) * width = h * width + width := by ring
      omega
    · omega
  have := mul_lt_mul_of_pos_right key hch
  omega

/-! ### The forward kernel on one pooled cell -/

theorem ROIPoolForward_eq_poolCell {bottom_data : List Dtype} {spatial_scale : Dtype}
    {pool_channel height width channels pooled_height pooled_width channel_rois : Int}
    {bottom_rois : List Dtype} {index n ph pw c : Int} {r : Roi}
    (hdec : decodeForward pool_channel channels pooled_height pooled_width index
      = (n, ph, pw, c))
    (hroi : loadRoi bottom_rois (n * channel_rois) = some r) :
    ROIPoolForward bottom_data spatial_scale pool_channel height width channels
        pooled_height pooled_width channel_rois bottom_rois index
      = poolCell bottom_data spatial_scale pool_channel height width channels
          pooled_height pooled_width r ph pw c := by
  unfold ROIPoolForward
  simp only [hdec, hroi, Option.some_bind]

theorem poolCell_empty (bottom_data : List Dtype) (spatial_scale : Dtype)
    (pool_channel height width channels pooled_height pooled_width : Int)
    (r : Roi) (ph pw c : Int)
    (hempty : hend r spatial_scale pooled_height height ph
        ≤ hstart r spatial_scale pooled_height height ph ∨
      wend r spatial_scale pooled_width width pw
        ≤ wstart r spatial_scale pooled_width width pw) :
    poolCell bottom_data spatial_scale pool_channel height width channels
      pooled_height pooled_width r ph pw c = some (0, -1) := by
  unfold poolCell scanWindow
  rw [foldlM_nested]
  have hpos : positions
      (loopRange (hstart r spatial_scale pooled_height height ph)
        (hend r spatial_scale pooled_height height ph))
      (loopRange (wstart r spatial_scale pooled_width width pw)
        (wend r spatial_scale pooled_width width pw)) = [] := by
    rcases hempty with h | h
    · rw [loopRange_nil h]
      rfl
    · rw [loopRange_nil h]
      exact positions_nil_right _
  have hb : (decide (hend r spatial_scale pooled_height height ph
        ≤ hstart r spatial_scale pooled_height height ph) ||
      decide (wend r spatial_scale pooled_width width pw
        ≤ wstart r spatial_scale pooled_width width pw)) = true := by
    rcases hempty with h | h <;> simp [h]
  rw [hpos]
  simp only [hb, if_true]
  rfl

theorem mem_scanned {bottom_data : List Dtype} {spatial_scale : Dtype}
    {pool_channel height width channels pooled_height pooled_width : Int}
    {r : Roi} {ph pw c : Int} {x : Dtype × Int} :
    x ∈ scanned bottom_data spatial_scale pool_channel height width channels
        pooled_height pooled_width r ph pw c ↔
      ∃ h w, InWindow r spatial_scale height width pooled_height pooled_width ph pw h w ∧
        x = ((cellFeature bottom_data pool_channel height width channels r c h w).getD 0,
          cellIndex pool_channel width channels r c h w) := by
  unfold scanned InWindow
  simp only [List.mem_map, mem_positions, mem_loopRange]
  constructor
  · rintro ⟨p, ⟨⟨h1, h2⟩, h3, h4⟩, rfl⟩
    exact ⟨p.1, p.2, ⟨h1, h2, h3, h4⟩, rfl⟩
  · rintro ⟨h, w, ⟨h1, h2, h3, h4⟩, rfl⟩
    exact ⟨(h, w), ⟨⟨h1, h2⟩, h3, h4⟩, rfl⟩

/-- Every read of the scan of a cell is inside the buffer when the region's batch
element and the channel used are valid. -/
theorem cellFeature_defined {bottom_data : List Dtype} {spatial_scale : Dtype}
    {pool_channel height width channels pooled_height pooled_width : Int}
    {r : Roi} {ph pw c h w : Int}
    (hb0 : 0 ≤ r.roi_batch_ind)
    (hb1 : (r.roi_batch_ind + 1) * channels * height * width ≤ (bottom_data.length : Int))
    (hc0 : 0 ≤ channelUsed pool_channel r c) (hc1 : channelUsed pool_channel r c < channels)
    (hin : InWindow r spatial_scale height width pooled_height pooled_width ph pw h w) :
    ∃ v, cellFeature bottom_data pool_channel height width channels r c h w = some v := by
  obtain ⟨h1, h2, h3, h4⟩ := hin
  unfold hstart hend wstart wend winStart winEnd at *
  obtain ⟨a1, a2, _⟩ := clip_window (lt_of_le_of_lt h1 h2)
  obtain ⟨a3, a4, _⟩ := clip_window (lt_of_le_of_lt h3 h4)
  unfold cellFeature batchBase
  exact feature_defined hb0 hb1 hc0 hc1 (by omega) (by omega) (by omega) (by omega)

theorem poolCell_nonempty {bottom_data : List Dtype} {spatial_scale : Dtype}
    {pool_channel height width channels pooled_height pooled_width : Int}
    {r : Roi} {ph pw c : Int}
    (hb0 : 0 ≤ r.roi_batch_ind)
    (hb1 : (r.roi_batch_ind + 1) * channels * height * width ≤ (bottom_data.length : Int))
    (hc0 : 0 ≤ channelUsed pool_channel r c) (hc1 : channelUsed pool_channel r c < channels)
    (hne : hstart r spatial_scale pooled_height height ph
        < hend r spatial_scale pooled_height height ph)
    (wne : wstart r spatial_scale pooled_width width pw
        < wend r spatial_scale pooled_width width pw) :
    poolCell bottom_data spatial_scale pool_channel height width channels
        pooled_height pooled_width r ph pw c
      = some ((scanned bottom_data spatial_scale pool_channel height width channels
          pooled_height pooled_width r ph pw c).foldl pick (-FLT_MAX, -1)) := by
  unfold poolCell scanWindow
  rw [foldlM_nested]
  have hb : (decide (hend r spatial_scale pooled_height height ph
        ≤ hstart r spatial_scale pooled_height height ph) ||
      decide (wend r spatial_scale pooled_width width pw
        ≤ wstart r spatial_scale pooled_width width pw)) = false := by
    simp [not_le.2 hne, not_le.2 wne]
  simp only [hb]
  rw [scan_eq_foldl bottom_data (batchBase r height width channels) width channels
    (channelUsed pool_channel r c)
    (fun p => (cellFeature bottom_data pool_channel height width channels r c p.1 p.2).getD 0)]
  · unfold scanned cellIndex
    rw [List.foldl_map]
    rfl
  · intro p hp
    rw [mem_positions, mem_loopRange, mem_loopRange] at hp
    have hin : InWindow r spatial_scale height width pooled_height pooled_width ph pw
        p.1 p.2 := ⟨hp.1.1, hp.1.2, hp.2.1, hp.2.2⟩
    obtain ⟨v, hv⟩ := cellFeature_defined hb0 hb1 hc0 hc1 hin
    simp only [hv, Option.getD_some]
    exact hv

theorem scanned_pairwise (bottom_data : List Dtype) (spatial_scale : Dtype)
    (pool_channel height width channels pooled_height pooled_width : Int)
    (r : Roi) (ph pw c : Int) (hch : 0 < channels) :
    (scanned bottom_data spatial_scale pool_channel height width channels
      pooled_height pooled_width r ph pw c).Pairwise (fun x y => x.2 < y.2) := by
  unfold scanned
  rw [List.pairwise_map]
  refine (positions_pairwise (loopRange_pairwise _ _) (loopRange_pairwise _ _)).imp_of_mem ?_
  intro p q hp hq hlex
  rw [mem_positions, mem_loopRange, mem_loopRange] at hp hq
  unfold wstart wend winStart winEnd at hp hq
  obtain ⟨a1, a2, _⟩ := clip_window (lt_of_le_of_lt hp.2.1 hp.2.2)
  exact bottomIndex_lt _ hch (by omega) (by omega) (by omega) hlex

/-- The result of the forward kernel on a cell whose window holds a value above
`-FLT_MAX`: the maximum of the window, at its first position in scan order. -/
theorem poolCell_scan_spec {bottom_data : List Dtype} {spatial_scale : Dtype}
    {pool_channel height width channels pooled_height pooled_width : Int}
    {r : Roi} {ph pw c : Int}
    (hb0 : 0 ≤ r.roi_batch_ind)
    (hb1 : (r.roi_batch_ind + 1) * channels * height * width ≤ (bottom_data.length : Int))
    (hc0 : 0 ≤ channelUsed pool_channel r c) (hc1 : channelUsed pool_channel r c < channels)
    (hbig : ∃ h w, InWindow r spatial_scale height width pooled_height pooled_width ph pw h w ∧
      ∃ v, cellFeature bottom_data pool_channel height width channels r c h w = some v ∧
        -FLT_MAX < v) :
    ∃ out h0 w0, InWindow r spatial_scale height width pooled_height pooled_width ph pw h0 w0 ∧
      poolCell bottom_data spatial_scale pool_channel height width channels
        pooled_height pooled_width r ph pw c
        = some (out, cellIndex pool_channel width channels r c h0 w0) ∧
      cellFeature bottom_data pool_channel height width channels r c h0 w0 = some out ∧
      -FLT_MAX < out ∧
      (∀ h w, InWindow r spatial_scale height width pooled_height pooled_width ph pw h w →
        ∃ v, cellFeature bottom_data pool_channel height width channels r c h w = some v ∧
          v ≤ out) ∧
      (∀ h w, InWindow r spatial_scale height width pooled_height pooled_width ph pw h w →
        cellFeature bottom_data pool_channel height width channels r c h w = some out →
        cellIndex pool_channel width channels r c h0 w0
          ≤ cellIndex pool_channel width channels r c h w) := by
  obtain ⟨hb, wb, hinb, vb, hvb, hbigv⟩ := hbig
  have hne := lt_of_le_of_lt hinb.1 hinb.2.1
  have wne := lt_of_le_of_lt hinb.2.2.1 hinb.2.2.2
  rw [poolCell_nonempty hb0 hb1 hc0 hc1 hne wne]
  have hdef : ∀ h w,
      InWindow r spatial_scale height width pooled_height pooled_width ph pw h w →
      ∃ v, cellFeature bottom_data pool_channel height width channels r c h w = some v :=
    fun h w hin => cellFeature_defined hb0 hb1 hc0 hc1 hin
  have hpw := scanned_pairwise bottom_data spatial_scale pool_channel height width channels
    pooled_height pooled_width r ph pw c (lt_of_le_of_lt hc0 hc1)
  obtain ⟨h1, h2, h3⟩ := foldl_pick_spec
    (scanned bottom_data spatial_scale pool_channel height width channels
      pooled_height pooled_width r ph pw c) (-FLT_MAX, -1)
  generalize (scanned bottom_data spatial_scale pool_channel height width channels
      pooled_height pooled_width r ph pw c).foldl pick (-FLT_MAX, -1) = res at h1 h2 h3
  have hmemb : (vb, cellIndex pool_channel width channels r c hb wb) ∈
      scanned bottom_data spatial_scale pool_channel height width channels
        pooled_height pooled_width r ph pw c :=
    mem_scanned.2 ⟨hb, wb, hinb, by simp [hvb]⟩
  rcases h3 with ⟨_, hall⟩ | ⟨hlt, pre, post, hsplit, hpre⟩
  · have := hall _ hmemb
    simp only at this
    exact absurd hbigv (not_lt.2 this)
  · have hres : res ∈ scanned bottom_data spatial_scale pool_channel height width channels
        pooled_height pooled_width r ph pw c := by
      rw [hsplit]
      simp
    obtain ⟨h0, w0, hin0, hres0⟩ := mem_scanned.1 hres
    obtain ⟨v0, hv0⟩ := hdef h0 w0 hin0
    rw [hv0, Option.getD_some] at hres0
    refine ⟨v0, h0, w0, hin0, by rw [hres0], hv0, ?_, ?_, ?_⟩
    · rw [hres0] at hlt
      exact hlt
    · intro h w hin
      obtain ⟨v, hv⟩ := hdef h w hin
      refine ⟨v, hv, ?_⟩
      have := h1 _ (mem_scanned.2 ⟨h, w, hin, rfl⟩)
      rw [hv, Option.getD_some, hres0] at this
      exact this
    · intro h w hin hv
      have hmem : (v0, cellIndex pool_channel width channels r c h w) ∈
          scanned bottom_data spatial_scale pool_channel height width channels
            pooled_height pooled_width r ph pw c :=
        mem_scanned.2 ⟨h, w, hin, by simp [hv]⟩
      rw [hsplit, hres0] at hmem hpw
      rw [hres0] at hpre
      rcases List.mem_append.1 hmem with hm | hm
      · exact absurd (hpre _ hm) (lt_irrefl _)
      · rcases List.mem_cons.1 hm with hm | hm
        · rw [Prod.mk.injEq] at hm
          exact le_of_eq hm.2.symm
        · have hp2 := (List.pairwise_append.1 hpw).2.1
          have := List.rel_of_pairwise_cons hp2 hm
          exact le_of_lt this

/-- The result of the forward kernel on a non-empty window that holds no value
above `-FLT_MAX`: the start state of the scan. -/
theorem poolCell_no_big {bottom_data : List Dtype} {spatial_scale : Dtype}
    {pool_channel height width channels pooled_height pooled_width : Int}
    {r : Roi} {ph pw c : Int}
    (hb0 : 0 ≤ r.roi_batch_ind)
    (hb1 : (r.roi_batch_ind + 1) * channels * height * width ≤ (bottom_data.length : Int))
    (hc0 : 0 ≤ channelUsed pool_channel r c) (hc1 : channelUsed pool_channel r c < channels)
    (hne : hstart r spatial_scale pooled_height height ph
        < hend r spatial_scale pooled_height height ph)
    (wne : wstart r spatial_scale pooled_width width pw
        < wend r spatial_scale pooled_width width pw)
    (hsmall : ∀ h w v,
      InWindow r spatial_scale height width pooled_height pooled_width ph pw h w →
      cellFeature bottom_data pool_channel height width channels r c h w = some v →
      v ≤ -FLT_MAX) :
    poolCell bottom_data spatial_scale pool_channel height width channels
      pooled_height pooled_width r ph pw c = some (-FLT_MAX, -1) := by
  rw [poolCell_nonempty hb0 hb1 hc0 hc1 hne wne]
  obtain ⟨_, _, h3⟩ := foldl_pick_spec
    (scanned bottom_data spatial_scale pool_channel height width channels
      pooled_height pooled_width r ph pw c) (-FLT_MAX, -1)
  generalize (scanned bottom_data spatial_scale pool_channel height width channels
      pooled_height pooled_width r ph pw c).foldl pick (-FLT_MAX, -1) = res at h3
  rcases h3 with ⟨he, _⟩ | ⟨hlt, pre, post, hsplit, _⟩
  · rw [he]
  · exfalso
    have hres : res ∈ scanned bottom_data spatial_scale pool_channel height width channels
        pooled_height pooled_width r ph pw c := by
      rw [hsplit]
      simp
    obtain ⟨h0, w0, hin0, hres0⟩ := mem_scanned.1 hres
    obtain ⟨v0, hv0⟩ := cellFeature_defined hb0 hb1 hc0 hc1 hin0
    rw [hv0, Option.getD_some] at hres0
    rw [hres0] at hlt
    exact absurd (hsmall h0 w0 v0 hin0 hv0) (not_le.2 hlt)

theorem decodeForward_range {pool_channel channels pooled_height pooled_width index : Int}
    {n ph pw c : Int}
    (hdec : decodeForward pool_channel channels pooled_height pooled_width index
      = (n, ph, pw, c))
    (hidx : 0 ≤ index) (hch : 0 ≤ channels) (hph : 0 < pooled_height)
    (hpw : 0 < pooled_width) :
    0 ≤ ph ∧ ph < pooled_height ∧ 0 ≤ pw ∧ pw < pooled_width := by
  unfold decodeForward at hdec
  simp only [Prod.mk.injEq] at hdec
  obtain ⟨_, rfl, rfl, _⟩ := hdec
  have hn : 0 ≤ (if pool_channel ≠ 0 then ((1 : Int), index)
      else (Int.tmod index channels, Int.tdiv index channels)).2 := by
    split
    · exact hidx
    · exact Int.tdiv_nonneg hidx hch
  exact ⟨Int.tmod_nonneg _ (Int.tdiv_nonneg hn (le_of_lt hpw)), Int.tmod_lt_of_pos _ hph,
    Int.tmod_nonneg _ hn, Int.tmod_lt_of_pos _ hpw⟩

/-! ### The scenario -/

/-- C1: on the 1x4x4x1 feature map `0..15` with the region `[0,0,0,0,3,3]`,
`spatial_scale = 1`, a 2x2 pooled grid and `pool_by_channel = false`, Forward
returns the pooled output `[5,7,13,15]` and the argmax map `[5,7,13,15]`. -/
theorem forward_scenario :
    ROIPoolForwardLaucher scenarioMap 1 0 1 6 4 4 1 2 2 scenarioRois
      = some ([5, 7, 13, 15], [5, 7, 13, 15]) := by
  decide!

/-- C2: on the scenario, Backward fed the argmax map `[5,7,13,15]` and the output
gradient `[1,1,1,1]` returns the 16-element gradient that is `1` at the flat
indices 5, 7, 13, 15 and `0` elsewhere. -/
theorem backward_scenario :
    ROIPoolBackwardLaucher [1, 1, 1, 1] 1 0 1 1 6 4 4 1 2 2 scenarioRois [5, 7, 13, 15]
      = some [0, 0, 0, 0, 0, 1, 0, 1, 0, 0, 0, 0, 0, 1, 0, 1] := by
  decide!

/-! ### The forward kernel: window maximum, ties, empty windows -/

theorem inWindow_bounds {r : Roi} {spatial_scale : Dtype}
    {height width pooled_height pooled_width ph pw h w : Int}
    (hin : InWindow r spatial_scale height width pooled_height pooled_width ph pw h w) :
    0 ≤ h ∧ h < height ∧ 0 ≤ w ∧ w < width := by
  obtain ⟨h1, h2, h3, h4⟩ := hin
  unfold hstart hend wstart wend winStart winEnd at *
  obtain ⟨a1, a2, _⟩ := clip_window (lt_of_le_of_lt h1 h2)
  obtain ⟨a3, a4, _⟩ := clip_window (lt_of_le_of_lt h3 h4)
  omega

theorem cellIndex_nonneg {r : Roi} {spatial_scale : Dtype}
    {pool_channel height width channels pooled_height pooled_width ph pw c h w : Int}
    (hc0 : 0 ≤ channelUsed pool_channel r c) (hc1 : channelUsed pool_channel r c < channels)
    (hin : InWindow r spatial_scale height width pooled_height pooled_width ph pw h w) :
    0 ≤ cellIndex pool_channel width channels r c h w := by
  obtain ⟨b1, b2, b3, b4⟩ := inWindow_bounds hin
  exact (bottomIndex_bounds hc0 hc1 b1 b2 b3 b4).1

theorem cellIndex_lex {r : Roi} {pool_channel width channels c h0 w0 h w : Int}
    (hch : 0 < channels) (hw0 : 0 ≤ w0) (hw1 : w < width) (hw : 0 ≤ w)
    (hle : cellIndex pool_channel width channels r c h0 w0
      ≤ cellIndex pool_channel width channels r c h w) :
    h0 < h ∨ (h0 = h ∧ w0 ≤ w) := by
  by_contra hcon
  have hlex : h < h0 ∨ (h = h0 ∧ w < w0) := by omega
  have := bottomIndex_lt (channelUsed pool_channel r c) hch hw hw1 hw0 hlex
  unfold cellIndex at hle
  omega

/-- C4: for a region with a valid batch index and a pooled cell whose clipped
window holds a value strictly greater than `-FLT_MAX`, the forward kernel returns
a pooled output that bounds every feature-map value of the window from above and
is attained in it (the maximum of the window), the recorded argmax is the flat
index `(h*width + w)*channels + channel` of a window position, and the feature
map holds the pooled output at the recorded argmax. -/
theorem forward_window_max (bottom_data : List Dtype) (spatial_scale : Dtype)
    (pool_channel height width channels pooled_height pooled_width channel_rois : Int)
    (bottom_rois : List Dtype) (index n ph pw c : Int) (r : Roi)
    (hdec : decodeForward pool_channel channels pooled_height pooled_width index
      = (n, ph, pw, c))
    (hroi : loadRoi bottom_rois (n * channel_rois) = some r)
    (hb0 : 0 ≤ r.roi_batch_ind)
    (hb1 : (r.roi_batch_ind + 1) * channels * height * width ≤ (bottom_data.length : Int))
    (hc0 : 0 ≤ channelUsed pool_channel r c) (hc1 : channelUsed pool_channel r c < channels)
    (hbig : ∃ h w, InWindow r spatial_scale height width pooled_height pooled_width ph pw h w ∧
      ∃ v, cellFeature bottom_data pool_channel height width channels r c h w = some v ∧
        -FLT_MAX < v) :
    ∃ out a, ROIPoolForward bottom_data spatial_scale pool_channel height width channels
        pooled_height pooled_width channel_rois bottom_rois index = some (out, a) ∧
      (∀ h w, InWindow r spatial_scale height width pooled_height pooled_width ph pw h w →
        ∃ v, cellFeature bottom_data pool_channel height width channels r c h w = some v ∧
          v ≤ out) ∧
      (∃ h w, InWindow r spatial_scale height width pooled_height pooled_width ph pw h w ∧
        a = (h * width + w) * channels + channelUsed pool_channel r c ∧
        cellFeature bottom_data pool_channel height width channels r c h w = some out) ∧
      load bottom_data (batchBase r height width channels + a) = some out := by
  obtain ⟨out, h0, w0, hin0, hcell, hv0, _, hmax, _⟩ :=
    poolCell_scan_spec hb0 hb1 hc0 hc1 hbig
  refine ⟨out, cellIndex pool_channel width channels r c h0 w0, ?_, hmax,
    ⟨h0, w0, hin0, rfl, hv0⟩, ?_⟩
  · rw [ROIPoolForward_eq_poolCell hdec hroi]
    exact hcell
  · exact hv0

/-- C6: when the window of a pooled cell holds a value above `-FLT_MAX`, the
recorded argmax is the flat index of a maximal position `(h0, w0)` that comes
first: every position of the window that holds the maximal value has `(h0, w0)`
before or at it in the lexicographic order of `(h, w)`, and has a flat index at
least the recorded one. -/
theorem forward_tie_first (bottom_data : List Dtype) (spatial_scale : Dtype)
    (pool_channel height width channels pooled_height pooled_width channel_rois : Int)
    (bottom_rois : List Dtype) (index n ph pw c : Int) (r : Roi)
    (hdec : decodeForward pool_channel channels pooled_height pooled_width index
      = (n, ph, pw, c))
    (hroi : loadRoi bottom_rois (n * channel_rois) = some r)
    (hb0 : 0 ≤ r.roi_batch_ind)
    (hb1 : (r.roi_batch_ind + 1) * channels * height * width ≤ (bottom_data.length : Int))
    (hc0 : 0 ≤ channelUsed pool_channel r c) (hc1 : channelUsed pool_channel r c < channels)
    (hbig : ∃ h w, InWindow r spatial_scale height width pooled_height pooled_width ph pw h w ∧
      ∃ v, cellFeature bottom_data pool_channel height width channels r c h w = some v ∧
        -FLT_MAX < v) :
    ∃ out h0 w0,
      InWindow r spatial_scale height width pooled_height pooled_width ph pw h0 w0 ∧
      ROIPoolForward bottom_data spatial_scale pool_channel height width channels
        pooled_height pooled_width channel_rois bottom_rois index
        = some (out, cellIndex pool_channel width channels r c h0 w0) ∧
      cellFeature bottom_data pool_channel height width channels r c h0 w0 = some out ∧
      (∀ h w, InWindow r spatial_scale height width pooled_height pooled_width ph pw h w →
        ∃ v, cellFeature bottom_data pool_channel height width channels r c h w = some v ∧
          v ≤ out) ∧
      (∀ h w, InWindow r spatial_scale height width pooled_height pooled_width ph pw h w →
        cellFeature bottom_data pool_channel height width channels r c h w = some out →
        (h0 < h ∨ (h0 = h ∧ w0 ≤ w)) ∧
        cellIndex pool_channel width channels r c h0 w0
          ≤ cellIndex pool_channel width channels r c h w) := by
  obtain ⟨out, h0, w0, hin0, hcell, hv0, _, hmax, hfirst⟩ :=
    poolCell_scan_spec hb0 hb1 hc0 hc1 hbig
  refine ⟨out, h0, w0, hin0, ?_, hv0, hmax, ?_⟩
  · rw [ROIPoolForward_eq_poolCell hdec hroi]
    exact hcell
  · intro h w hin hv
    have hle := hfirst h w hin hv
    obtain ⟨_, _, b3, _⟩ := inWindow_bounds hin0
    obtain ⟨_, _, d3, d4⟩ := inWindow_bounds hin
    exact ⟨cellIndex_lex (lt_of_le_of_lt hc0 hc1) b3 d4 d3 hle, hle⟩

/-- C7: for a region and a pooled cell whose clipped window is empty
(`hend <= hstart` or `wend <= wstart`) the forward kernel writes the pooled
output `0` and the argmax `-1`, whatever the feature map holds. -/
theorem forward_empty_window (bottom_data : List Dtype) (spatial_scale : Dtype)
    (pool_channel height width channels pooled_height pooled_width channel_rois : Int)
    (bottom_rois : List Dtype) (index n ph pw c : Int) (r : Roi)
    (hdec : decodeForward pool_channel channels pooled_height pooled_width index
      = (n, ph, pw, c))
    (hroi : loadRoi bottom_rois (n * channel_rois) = some r)
    (hempty : hend r spatial_scale pooled_height height ph
        ≤ hstart r spatial_scale pooled_height height ph ∨
      wend r spatial_scale pooled_width width pw
        ≤ wstart r spatial_scale pooled_width width pw) :
    ROIPoolForward bottom_data spatial_scale pool_channel height width channels
      pooled_height pooled_width channel_rois bottom_rois index = some (0, -1) := by
  rw [ROIPoolForward_eq_poolCell hdec hroi]
  exact poolCell_empty bottom_data spatial_scale pool_channel height width channels
    pooled_height pooled_width r ph pw c hempty

/-- C8 (as amended): the forward kernel records the argmax `-1` exactly when the
clipped window of the cell is empty or holds no value greater than `-FLT_MAX`;
every other cell records the flat index of a position of its window. -/
theorem forward_sentinel_iff (bottom_data : List Dtype) (spatial_scale : Dtype)
    (pool_channel height width channels pooled_height pooled_width channel_rois : Int)
    (bottom_rois : List Dtype) (index n ph pw c : Int) (r : Roi)
    (hdec : decodeForward pool_channel channels pooled_height pooled_width index
      = (n, ph, pw, c))
    (hroi : loadRoi bottom_rois (n * channel_rois) = some r)
    (hb0 : 0 ≤ r.roi_batch_ind)
    (hb1 : (r.roi_batch_ind + 1) * channels * height * width ≤ (bottom_data.length : Int))
    (hc0 : 0 ≤ channelUsed pool_channel r c) (hc1 : channelUsed pool_channel r c < channels) :
    ∃ out a, ROIPoolForward bottom_data spatial_scale pool_channel height width channels
        pooled_height pooled_width channel_rois bottom_rois index = some (out, a) ∧
      (a = -1 ↔
        (hend r spatial_scale pooled_height height ph
            ≤ hstart r spatial_scale pooled_height height ph ∨
          wend r spatial_scale pooled_width width pw
            ≤ wstart r spatial_scale pooled_width width pw ∨
          ∀ h w v, InWindow r spatial_scale height width pooled_height pooled_width ph pw h w →
            cellFeature bottom_data pool_channel height width channels r c h w = some v →
            v ≤ -FLT_MAX)) ∧
      (a ≠ -1 →
        ∃ h w, InWindow r spatial_scale height width pooled_height pooled_width ph pw h w ∧
          a = (h * width + w) * channels + channelUsed pool_channel r c) := by
  rw [ROIPoolForward_eq_poolCell hdec hroi]
  by_cases hbig : ∃ h w,
      InWindow r spatial_scale height width pooled_height pooled_width ph pw h w ∧
      ∃ v, cellFeature bottom_data pool_channel height width channels r c h w = some v ∧
        -FLT_MAX < v
  · obtain ⟨out, h0, w0, hin0, hcell, _, _, _, _⟩ :=
      poolCell_scan_spec hb0 hb1 hc0 hc1 hbig
    have hnn := cellIndex_nonneg hc0 hc1 hin0
    refine ⟨out, cellIndex pool_channel width channels r c h0 w0, hcell, ?_, ?_⟩
    · constructor
      · intro ha
        omega
      · intro hcase
        exfalso
        obtain ⟨hb, wb, hinb, vb, hvb, hgt⟩ := hbig
        rcases hcase with he | he | hall
        · exact absurd (lt_of_le_of_lt hinb.1 hinb.2.1) (not_lt.2 he)
        · exact absurd (lt_of_le_of_lt hinb.2.2.1 hinb.2.2.2) (not_lt.2 he)
        · exact absurd (hall hb wb vb hinb hvb) (not_le.2 hgt)
    · intro _
      exact ⟨h0, w0, hin0, rfl⟩
  · have hsmall : ∀ h w v,
        InWindow r spatial_scale height width pooled_height pooled_width ph pw h w →
        cellFeature bottom_data pool_channel height width channels r c h w = some v →
        v ≤ -FLT_MAX := by
      intro h w v hin hv
      by_contra hcon
      exact hbig ⟨h, w, hin, v, hv, not_le.1 hcon⟩
    by_cases hempty : hend r spatial_scale pooled_height height ph
        ≤ hstart r spatial_scale pooled_height height ph ∨
      wend r spatial_scale pooled_width width pw
        ≤ wstart r spatial_scale pooled_width width pw
    · refine ⟨0, -1, poolCell_empty bottom_data spatial_scale pool_channel height width
        channels pooled_height pooled_width r ph pw c hempty, ?_, ?_⟩
      · constructor
        · intro _
          rcases hempty with he | he
          · exact Or.inl he
          · exact Or.inr (Or.inl he)
        · intro _
          rfl
      · intro hne
        exact absurd rfl hne
    · have hne : hstart r spatial_scale pooled_height height ph
          < hend r spatial_scale pooled_height height ph := by
        by_contra hcon
        exact hempty (Or.inl (not_lt.1 hcon))
      have wne : wstart r spatial_scale pooled_width width pw
          < wend r spatial_scale pooled_width width pw := by
        by_contra hcon
        exact hempty (Or.inr (not_lt.1 hcon))
      refine ⟨-FLT_MAX, -1, poolCell_no_big hb0 hb1 hc0 hc1 hne wne hsmall, ?_, ?_⟩
      · constructor
        · intro _
          exact Or.inr (Or.inr hsmall)
        · intro _
          rfl
      · intro hne1
        exact absurd rfl hne1

/-! ### Degenerate regions and regions outside the image -/

theorem roiExtent_pos (roi_start roi_end : Int) : 1 ≤ roiExtent roi_start roi_end := by
  unfold roiExtent
  omega

theorem roiExtent_degenerate {roi_start roi_end : Int} (h : roi_end ≤ roi_start) :
    roiExtent roi_start roi_end = 1 := by
  unfold roiExtent
  omega

theorem clip_of_mem {x bound : Int} (h0 : 0 ≤ x) (h1 : x ≤ bound) : clip x bound = x := by
  unfold clip
  omega

/-- Where single precision gives the corners and window bounds of exact
arithmetic, the kernel in single precision writes what the exact kernel writes. -/
theorem ROIPoolForward32_eq (bottom_data : List Dtype) (spatial_scale : Dtype)
    (pool_channel height width channels pooled_height pooled_width channel_rois : Int)
    (bottom_rois : List Dtype) (index n ph pw c : Int) (r : Roi)
    (hdec : decodeForward pool_channel channels pooled_height pooled_width index
      = (n, ph, pw, c))
    (hroi : loadRoi bottom_rois (n * channel_rois) = some r)
    (hsame : SameWindow32 r spatial_scale pooled_height pooled_width ph pw) :
    ROIPoolForward32 bottom_data spatial_scale pool_channel height width channels
        pooled_height pooled_width channel_rois bottom_rois index
      = ROIPoolForward bottom_data spatial_scale pool_channel height width channels
        pooled_height pooled_width channel_rois bottom_rois index := by
  obtain ⟨c1, c2, c3, c4, b1, b2, b3, b4⟩ := hsame
  unfold ROIPoolForward32 ROIPoolForward
  simp only [hdec, hroi, Option.some_bind]
  unfold poolCell32 poolCell hstart hend wstart wend winStart32 winEnd32 winStart winEnd
  simp only [c1, c2, c3, c4, b1, b2, b3, b4]

theorem round_intCast (k : Int) : round (k : Dtype) = k := by
  unfold round
  split
  · rw [Int.floor_eq_iff]
    constructor <;> norm_num
  · rw [Int.ceil_eq_iff]
    constructor <;> norm_num

theorem toInt_zero : toInt 0 = 0 := by
  unfold toInt
  simp

theorem loopRange_getElem? {lo hi : Int} {i : Nat} (h : i < (hi - lo).toNat) :
    (loopRange lo hi)[i]? = some (lo + (i : Int)) := by
  unfold loopRange
  rw [List.getElem?_map, List.getElem?_range h]
  rfl

theorem decodeForward_single {height width i : Int} (hw : 0 < width)
    (hi0 : 0 ≤ i) (hi1 : i < height * width) :
    decodeForward 0 1 height width i = (0, i / width, i % width, 0) := by
  have hq0 : 0 ≤ i / width := Int.ediv_nonneg hi0 (le_of_lt hw)
  have hq1 : i / width < height := Int.ediv_lt_of_lt_mul hw hi1
  have hh : 0 ≤ height := by omega
  unfold decodeForward
  simp only [ne_eq, not_true_eq_false, if_false, Int.tmod_one, Int.tdiv_one]
  rw [Int.tmod_eq_emod hi0 (le_of_lt hw), Int.tdiv_eq_ediv hi0 (le_of_lt hw),
    Int.tmod_eq_emod hq0 hh, Int.tdiv_eq_ediv hq0 hh, Int.emod_eq_of_lt hq0 hq1,
    Int.ediv_eq_zero_of_lt hq0 hq1]

/-- The region record `[0, 0, 0, 0, width-1, height-1]` covering the whole map. -/
theorem loadRoi_whole (height width : Int) :
    loadRoi [0, 0, 0, 0, ((width - 1 : Int) : Dtype), ((height - 1 : Int) : Dtype)] (0 * 6)
      = some ⟨0, 0, 0, 0, ((width - 1 : Int) : Dtype), ((height - 1 : Int) : Dtype)⟩ := by
  rfl

/-- The forward kernel at output index `i` of the round-trip configuration. -/
theorem whole_map_cell {height width : Int} (hh : 1 ≤ height) (hw : 1 ≤ width)
    (bottom_data : List Dtype) (hlen : (bottom_data.length : Int) = height * width)
    (i : Nat) (v : Dtype) (hv : bottom_data[i]? = some v) :
    ROIPoolForward bottom_data 1 0 height width 1 height width 6
        [0, 0, 0, 0, ((width - 1 : Int) : Dtype), ((height - 1 : Int) : Dtype)] (i : Int)
      = some (if -FLT_MAX < v then (v, (i : Int)) else (-FLT_MAX, -1)) := by
  have hilt : i < bottom_data.length := by
    by_contra hcon
    rw [List.getElem?_eq_none (by omega)] at hv
    exact Option.noConfusion hv
  have hi0 : (0 : Int) ≤ (i : Int) := by omega
  have hi1 : (i : Int) < height * width := by omega
  have hdec := decodeForward_single (by omega) hi0 hi1
  have hq0 : 0 ≤ (i : Int) / width := Int.ediv_nonneg hi0 (by omega)
  have hq1 : (i : Int) / width < height := Int.ediv_lt_of_lt_mul (by omega) hi1
  have hm0 : 0 ≤ (i : Int) % width := Int.emod_nonneg _ (by omega)
  have hm1 : (i : Int) % width < width := Int.emod_lt_of_pos _ (by omega)
  have hsum : (i : Int) / width * width + (i : Int) % width = (i : Int) :=
    Int.ediv_add_emod' _ _
  rw [ROIPoolForward_eq_poolCell hdec (loadRoi_whole height width)]
  generalize hr : (⟨0, 0, 0, 0, ((width - 1 : Int) : Dtype), ((height - 1 : Int) : Dtype)⟩
    : Roi) = r
  have rb : r.roi_batch_ind = 0 := by
    rw [← hr]
    exact toInt_zero
  have rsw : r.roi_start_w 1 = 0 := by
    rw [← hr]
    simpa [Roi.roi_start_w] using round_intCast 0
  have rsh : r.roi_start_h 1 = 0 := by
    rw [← hr]
    simpa [Roi.roi_start_h] using round_intCast 0
  have rew : r.roi_end_w 1 = width - 1 := by
    rw [← hr]
    unfold Roi.roi_end_w
    rw [mul_one]
    exact round_intCast _
  have reh : r.roi_end_h 1 = height - 1 := by
    rw [← hr]
    unfold Roi.roi_end_h
    rw [mul_one]
    exact round_intCast _
  have xw : roiExtent 0 (width - 1) = width := by
    unfold roiExtent
    omega
  have xh : roiExtent 0 (height - 1) = height := by
    unfold roiExtent
    omega
  have e1 : hstart r 1 height height ((i : Int) / width) = (i : Int) / width := by
    unfold hstart winStart
    rw [rsh, reh, xh, binStart_self (by omega), add_zero]
    exact clip_of_mem (by omega) (by omega)
  have e2 : hend r 1 height height ((i : Int) / width) = (i : Int) / width + 1 := by
    unfold hend winEnd
    rw [rsh, reh, xh, binEnd_self (by omega), add_zero]
    exact clip_of_mem (by omega) (by omega)
  have e3 : wstart r 1 width width ((i : Int) % width) = (i : Int) % width := by
    unfold wstart winStart
    rw [rsw, rew, xw, binStart_self (by omega), add_zero]
    exact clip_of_mem (by omega) (by omega)
  have e4 : wend r 1 width width ((i : Int) % width) = (i : Int) % width + 1 := by
    unfold wend winEnd
    rw [rsw, rew, xw, binEnd_self (by omega), add_zero]
    exact clip_of_mem (by omega) (by omega)
  have hwin : ∀ h w,
      InWindow r 1 height width height width ((i : Int) / width) ((i : Int) % width) h w ↔
      (h = (i : Int) / width ∧ w = (i : Int) % width) := by
    intro h w
    unfold InWindow
    rw [e1, e2, e3, e4]
    omega
  have hcu : channelUsed 0 r 0 = 0 := by simp [channelUsed]
  have hidx : cellIndex 0 width 1 r 0 ((i : Int) / width) ((i : Int) % width) = (i : Int) := by
    unfold cellIndex bottomIndex
    rw [hcu]
    omega
  have hfeat : cellFeature bottom_data 0 height width 1 r 0
      ((i : Int) / width) ((i : Int) % width) = some v := by
    have hx := hidx
    unfold cellIndex at hx
    unfold cellFeature feature batchBase
    rw [hx, rb]
    simp only [zero_mul, zero_add]
    unfold load
    simp [hv]
  have hb0 : 0 ≤ r.roi_batch_ind := by omega
  have hb1 : (r.roi_batch_ind + 1) * 1 * height * width ≤ (bottom_data.length : Int) := by
    rw [rb, hlen]
    simp
  have hc0 : 0 ≤ channelUsed 0 r 0 := by omega
  have hc1 : channelUsed 0 r 0 < 1 := by omega
  have hin0 := (hwin _ _).2 ⟨rfl, rfl⟩
  by_cases hgt : -FLT_MAX < v
  · have hbig : ∃ h w,
        InWindow r 1 height width height width ((i : Int) / width) ((i : Int) % width) h w ∧
        ∃ u, cellFeature bottom_data 0 height width 1 r 0 h w = some u ∧ -FLT_MAX < u :=
      ⟨_, _, hin0, v, hfeat, hgt⟩
    obtain ⟨out, h2, w2, hin2, hcell, hv2, _, _, _⟩ :=
      poolCell_scan_spec hb0 hb1 hc0 hc1 hbig
    obtain ⟨rfl, rfl⟩ := (hwin h2 w2).1 hin2
    rw [hfeat] at hv2
    obtain rfl := Option.some.inj hv2
    rw [hcell, hidx, if_pos hgt]
  · rw [if_neg hgt]
    apply poolCell_no_big hb0 hb1 hc0 hc1 (by rw [e1, e2]; omega) (by rw [e3, e4]; omega)
    intro h w u hin hu
    obtain ⟨rfl, rfl⟩ := (hwin h w).1 hin
    rw [hfeat] at hu
    obtain rfl := Option.some.inj hu
    exact not_lt.1 hgt

/-- C4 on the scenario: the pooled cell `(1, 1)` of the region `[0,0,0,0,3,3]`. -/
theorem forward_window_max_witness :
    ∃ out a, ROIPoolForward scenarioMap 1 0 4 4 1
        2 2 6 scenarioRois 3 = some (out, a) ∧
      (∀ h w, InWindow scenarioRoi 1 4 4 2 2 1 1 h w →
        ∃ v, cellFeature scenarioMap 0 4 4 1 scenarioRoi 0 h w = some v ∧
          v ≤ out) ∧
      (∃ h w, InWindow scenarioRoi 1 4 4 2 2 1 1 h w ∧
        a = (h * 4 + w) * 1 + channelUsed 0 scenarioRoi 0 ∧
        cellFeature scenarioMap 0 4 4 1 scenarioRoi 0 h w = some out) ∧
      load scenarioMap (batchBase scenarioRoi 4 4 1 + a) = some out :=
  forward_window_max scenarioMap 1 0 4 4 1 2 2 6 scenarioRois 3 0 1 1 0 scenarioRoi
    (by decide!) (by decide!) (by decide!) (by decide!) (by decide!) (by decide!)
    ⟨3, 3, by decide!, 15, by decide!, by decide!⟩

/-- C6 on a 2x2 map of four equal values pooled into one cell. -/
theorem forward_tie_first_witness :
    ∃ out h0 w0,
      InWindow tieRoi 1 2 2 1 1 0 0 h0 w0 ∧
      ROIPoolForward tieMap 1 0 2 2 1
        1 1 6 tieRois 0
        = some (out, cellIndex 0 2 1 tieRoi 0 h0 w0) ∧
      cellFeature tieMap 0 2 2 1 tieRoi 0 h0 w0 = some out ∧
      (∀ h w, InWindow tieRoi 1 2 2 1 1 0 0 h w →
        ∃ v, cellFeature tieMap 0 2 2 1 tieRoi 0 h w = some v ∧
          v ≤ out) ∧
      (∀ h w, InWindow tieRoi 1 2 2 1 1 0 0 h w →
        cellFeature tieMap 0 2 2 1 tieRoi 0 h w = some out →
        (h0 < h ∨ (h0 = h ∧ w0 ≤ w)) ∧
        cellIndex 0 2 1 tieRoi 0 h0 w0
          ≤ cellIndex 0 2 1 tieRoi 0 h w) :=
  forward_tie_first tieMap 1 0 2 2 1 1 1 6 tieRois 0 0 0 0 0 tieRoi
    (by decide!) (by decide!) (by decide!) (by decide!) (by decide!) (by decide!)
    ⟨1, 1, by decide!, 7, by decide!, by decide!⟩

/-- C7 on the scenario map with the region `[0,0,4,4,7,7]`, whose windows are empty. -/
theorem forward_empty_window_witness :
    ROIPoolForward scenarioMap 1 0 4 4 1
      2 2 6 outsideRois 0 = some (0, -1) :=
  forward_empty_window scenarioMap 1 0 4 4 1 2 2 6 outsideRois 0 0 0 0 0 outsideRoi
    (by decide!) (by decide!) (by decide!)

/-- C8 (as amended) on the pooled cell `(1, 1)` of the scenario. -/
theorem forward_sentinel_iff_witness :
    ∃ out a, ROIPoolForward scenarioMap 1 0 4 4 1
        2 2 6 scenarioRois 3 = some (out, a) ∧
      (a = -1 ↔
        (hend scenarioRoi 1 2 4 1
            ≤ hstart scenarioRoi 1 2 4 1 ∨
          wend scenarioRoi 1 2 4 1
            ≤ wstart scenarioRoi 1 2 4 1 ∨
          ∀ h w v, InWindow scenarioRoi 1 4 4 2 2 1 1 h w →
            cellFeature scenarioMap 0 4 4 1 scenarioRoi 0 h w = some v →
            v ≤ -FLT_MAX)) ∧
      (a ≠ -1 →
        ∃ h w, InWindow scenarioRoi 1 4 4 2 2 1 1 h w ∧
          a = (h * 4 + w) * 1 + channelUsed 0 scenarioRoi 0) :=
  forward_sentinel_iff scenarioMap 1 0 4 4 1 2 2 6 scenarioRois 3 0 1 1 0 scenarioRoi
    (by decide!) (by decide!) (by decide!) (by decide!) (by decide!) (by decide!)

/-- C8, counterexample: on a 2x2 map whose values are all `-FLT_MAX`, pooled into
one cell by the region `[0,0,0,0,1,1]`, the window `[0,2) x [0,2)` is not empty
and yet the recorded argmax is `-1`. -/
theorem sentinel_without_empty_window :
    decodeForward 0 1 1 1 0 = (0, 0, 0, 0) ∧
    loadRoi tieRois (0 * 6) = some tieRoi ∧
    hstart tieRoi 1 1 2 0 = 0 ∧ hend tieRoi 1 1 2 0 = 2 ∧
    wstart tieRoi 1 1 2 0 = 0 ∧ wend tieRoi 1 1 2 0 = 2 ∧
    ROIPoolForward lowestMap 1 0 2 2 1 1 1 6 tieRois 0 = some (-FLT_MAX, -1) := by
  decide!

/-- C3, failing input: on the scenario map with the malformed region
`[0,0,2,2,1,1]` and a 1x1 pooled grid, Forward pools the value `10` with argmax
`10`, and Backward fed that argmax and the output gradient `[1]` returns the
gradient `0` at every element, flat index `10` included; for the well-formed
region `[0,0,2,2,2,2]`, which Forward pools over the same 1x1 window, Backward
returns the gradient `1` at flat index `10`. -/
theorem backward_malformed_region_lost :
    ROIPoolForwardLaucher scenarioMap 1 0 1 6 4 4 1 1 1 malformedRois
      = some ([10], [10]) ∧
    ROIPoolBackwardLaucher [1] 1 0 1 1 6 4 4 1 1 1 malformedRois [10]
      = some [0, 0, 0, 0, 0, 0, 0, 0, 0, 0, 0, 0, 0, 0, 0, 0] ∧
    ROIPoolForwardLaucher scenarioMap 1 0 1 6 4 4 1 1 1 singleRois
      = some ([10], [10]) ∧
    ROIPoolBackwardLaucher [1] 1 0 1 1 6 4 4 1 1 1 singleRois [10]
      = some [0, 0, 0, 0, 0, 0, 0, 0, 0, 0, 1, 0, 0, 0, 0, 0] := by
  decide!

theorem tdivmod_encode {a b B : Int} (ha : 0 ≤ a) (hb0 : 0 ≤ b) (hb1 : b < B) :
    Int.tmod (a * B + b) B = b ∧ Int.tdiv (a * B + b) B = a := by
  have hx : 0 ≤ a * B + b := add_nonneg (mul_nonneg ha (by omega)) hb0
  have hB : 0 ≤ B := by omega
  rw [Int.tmod_eq_emod hx hB, Int.tdiv_eq_ediv hx hB]
  constructor
  · rw [Int.add_comm, Int.add_mul_emod_self]
    exact Int.emod_eq_of_lt hb0 hb1
  · rw [Int.add_comm, Int.add_mul_ediv_right _ _ (by omega), Int.ediv_eq_zero_of_lt hb0 hb1]
    omega

theorem encode_bounds {a b A B : Int} (ha0 : 0 ≤ a) (ha1 : a < A) (hb0 : 0 ≤ b)
    (hb1 : b < B) : 0 ≤ a * B + b ∧ a * B + b < A * B := by
  have h1 : 0 ≤ a * B := mul_nonneg ha0 (by omega)
  have h2 : (a + 1) * B ≤ A * B := mul_le_mul_of_nonneg_right (by omega) (by omega)
  have h3 : (a + 1) * B = a * B + B := by ring
  omega

theorem tdivmod_decode {x B A : Int} (hx0 : 0 ≤ x) (hx1 : x < A * B) (hB : 0 ≤ B) :
    0 ≤ Int.tmod x B ∧ Int.tmod x B < B ∧ 0 ≤ Int.tdiv x B ∧ Int.tdiv x B < A ∧
      x = Int.tdiv x B * B + Int.tmod x B := by
  have hBpos : 0 < B := by
    by_contra hcon
    have h0 : B = 0 := by omega
    rw [h0, mul_zero] at hx1
    omega
  rw [Int.tmod_eq_emod hx0 hB, Int.tdiv_eq_ediv hx0 hB]
  refine ⟨Int.emod_nonneg _ (by omega), Int.emod_lt_of_pos _ hBpos,
    Int.ediv_nonneg hx0 hB, Int.ediv_lt_of_lt_mul hBpos hx1, ?_⟩
  exact (Int.ediv_add_emod' x B).symm

theorem decodeForward_full {channels pooled_height pooled_width n ph pw c : Int}
    (hn : 0 ≤ n) (hph0 : 0 ≤ ph) (hph1 : ph < pooled_height)
    (hpw0 : 0 ≤ pw) (hpw1 : pw < pooled_width) (hc0 : 0 ≤ c) (hc1 : c < channels) :
    decodeForward 0 channels pooled_height pooled_width
      (((n * pooled_height + ph) * pooled_width + pw) * channels + c) = (n, ph, pw, c) := by
  have h1 : 0 ≤ n * pooled_height + ph := add_nonneg (mul_nonneg hn (by omega)) hph0
  have h2 : 0 ≤ (n * pooled_height + ph) * pooled_width + pw :=
    add_nonneg (mul_nonneg h1 (by omega)) hpw0
  obtain ⟨e1, e2⟩ := tdivmod_encode h2 hc0 hc1
  obtain ⟨e3, e4⟩ := tdivmod_encode h1 hpw0 hpw1
  obtain ⟨e5, e6⟩ := tdivmod_encode hn hph0 hph1
  unfold decodeForward
  simp only [ne_eq, not_true_eq_false, if_false, e1, e2, e3, e4, e5, e6]

theorem decodeForward_pool {pool_channel channels pooled_height pooled_width n ph pw : Int}
    (hpc : pool_channel ≠ 0)
    (hn : 0 ≤ n) (hph0 : 0 ≤ ph) (hph1 : ph < pooled_height)
    (hpw0 : 0 ≤ pw) (hpw1 : pw < pooled_width) :
    decodeForward pool_channel channels pooled_height pooled_width
      ((n * pooled_height + ph) * pooled_width + pw) = (n, ph, pw, 1) := by
  have h1 : 0 ≤ n * pooled_height + ph := add_nonneg (mul_nonneg hn (by omega)) hph0
  obtain ⟨e3, e4⟩ := tdivmod_encode h1 hpw0 hpw1
  obtain ⟨e5, e6⟩ := tdivmod_encode hn hph0 hph1
  unfold decodeForward
  simp only [ne_eq, hpc, not_false_eq_true, if_true, e3, e4, e5, e6]

theorem topSlot_full {channels pooled_height pooled_width roi_n ph pw c : Int} :
    topSlot 0 channels pooled_height pooled_width roi_n ph pw c
      = ((roi_n * pooled_height + ph) * pooled_width + pw) * channels + c := by
  unfold topSlot
  simp only [ne_eq, not_true_eq_false, if_false]
  ring

theorem topSlot_pool {pool_channel channels pooled_height pooled_width roi_n ph pw c : Int}
    (hpc : pool_channel ≠ 0) :
    topSlot pool_channel channels pooled_height pooled_width roi_n ph pw c
      = (roi_n * pooled_height + ph) * pooled_width + pw := by
  unfold topSlot
  simp only [ne_eq, hpc, not_false_eq_true, if_true]
  ring

/-- The slot read by `ROIPoolBackward` lies in the pooled output of `num_rois` regions. -/
theorem topSlot_bounds (pool_channel : Int)
    {num_rois channels pooled_height pooled_width : Int} {roi_n ph pw c : Int}
    (hn0 : 0 ≤ roi_n) (hn1 : roi_n < num_rois) (hph0 : 0 ≤ ph) (hph1 : ph < pooled_height)
    (hpw0 : 0 ≤ pw) (hpw1 : pw < pooled_width) (hc0 : 0 ≤ c) (hc1 : c < channels) :
    0 ≤ topSlot pool_channel channels pooled_height pooled_width roi_n ph pw c ∧
      topSlot pool_channel channels pooled_height pooled_width roi_n ph pw c
        < forwardSize pool_channel num_rois channels pooled_height pooled_width := by
  obtain ⟨a1, a2⟩ := encode_bounds hn0 hn1 hph0 hph1
  obtain ⟨b1, b2⟩ := encode_bounds a1 a2 hpw0 hpw1
  obtain ⟨c1, c2⟩ := encode_bounds b1 b2 hc0 hc1
  unfold forwardSize
  by_cases hpc : pool_channel ≠ 0
  · rw [topSlot_pool hpc, if_pos hpc]
    exact ⟨b1, b2⟩
  · have h0 : pool_channel = 0 := not_not.1 hpc
    subst h0
    rw [topSlot_full, if_neg hpc]
    exact ⟨c1, c2⟩

/-- The loop body of lines 214-223 reads the slot `topSlot` of the region. -/
theorem backStep_topSlot (top_diff : List Dtype) (argmax_data : List Int)
    (pool_channel width channels pooled_height pooled_width roi_n h w c ph pw : Int)
    (g : Dtype) :
    backStep top_diff argmax_data pool_channel width channels pooled_width
        (if pool_channel ≠ 0 then roi_n * pooled_height * pooled_width
          else roi_n * pooled_height * pooled_width * channels) h w c ph pw g
      = (load argmax_data
          (topSlot pool_channel channels pooled_height pooled_width roi_n ph pw c)).bind
        fun a => if a = (h * width + w) * channels + c then
          (load top_diff
            (topSlot pool_channel channels pooled_height pooled_width roi_n ph pw c)).bind
            fun t => some (g + t)
        else some g := by
  rfl

/-- C18 (as amended): the slot of `top_diff` / `argmax_data` that Backward reads
for region `roi_n`, pooled cell `(ph, pw)` and channel `c`, namely
`roi_n*pooled_height*pooled_width*channels + (ph*pooled_width + pw)*channels + c`
without pool-by-channel and `roi_n*pooled_height*pooled_width + ph*pooled_width + pw`
with it, is the output index that Forward decomposes into `(roi_n, ph, pw, c)`
without pool-by-channel, and into `(roi_n, ph, pw)` with `c` set to the constant
`1` with pool-by-channel, where the channel Forward then scans is the class index
of the region. -/
theorem layout_agreement (pool_channel channels pooled_height pooled_width : Int)
    (roi_n ph pw c : Int) (r : Roi)
    (hn : 0 ≤ roi_n) (hph0 : 0 ≤ ph) (hph1 : ph < pooled_height)
    (hpw0 : 0 ≤ pw) (hpw1 : pw < pooled_width) (hc0 : 0 ≤ c) (hc1 : c < channels) :
    (∀ (top_diff : List Dtype) (argmax_data : List Int) (width h w : Int) (g : Dtype),
      backStep top_diff argmax_data pool_channel width channels pooled_width
          (if pool_channel ≠ 0 then roi_n * pooled_height * pooled_width
            else roi_n * pooled_height * pooled_width * channels) h w c ph pw g
        = (load argmax_data
            (topSlot pool_channel channels pooled_height pooled_width roi_n ph pw c)).bind
          fun a => if a = (h * width + w) * channels + c then
            (load top_diff
              (topSlot pool_channel channels pooled_height pooled_width roi_n ph pw c)).bind
              fun t => some (g + t)
          else some g) ∧
    topSlot pool_channel channels pooled_height pooled_width roi_n ph pw c
      = (if pool_channel ≠ 0 then
          roi_n * pooled_height * pooled_width + ph * pooled_width + pw
        else roi_n * pooled_height * pooled_width * channels
          + (ph * pooled_width + pw) * channels + c) ∧
    decodeForward pool_channel channels pooled_height pooled_width
        (topSlot pool_channel channels pooled_height pooled_width roi_n ph pw c)
      = (roi_n, ph, pw, if pool_channel ≠ 0 then 1 else c) ∧
    channelUsed pool_channel r (if pool_channel ≠ 0 then 1 else c)
      = (if pool_channel ≠ 0 then r.roi_cls else c) := by
  refine ⟨fun top_diff argmax_data width h w g =>
    backStep_topSlot top_diff argmax_data pool_channel width channels pooled_height
      pooled_width roi_n h w c ph pw g, ?_⟩
  by_cases hpc : pool_channel ≠ 0
  · rw [if_pos hpc, if_pos hpc, if_pos hpc, topSlot_pool hpc]
    refine ⟨by ring, decodeForward_pool hpc hn hph0 hph1 hpw0 hpw1, ?_⟩
    simp [channelUsed, hpc]
  · rw [if_neg hpc, if_neg hpc, if_neg hpc]
    have h0 : pool_channel = 0 := not_not.1 hpc
    subst h0
    rw [topSlot_full]
    refine ⟨by ring, decodeForward_full hn hph0 hph1 hpw0 hpw1 hc0 hc1, ?_⟩
    simp [channelUsed]

theorem decodeForward_full_range {num_rois channels pooled_height pooled_width index : Int}
    {n ph pw c : Int}
    (hidx0 : 0 ≤ index)
    (hidx1 : index < num_rois * pooled_height * pooled_width * channels)
    (hPH : 0 ≤ pooled_height) (hPW : 0 ≤ pooled_width) (hC : 0 ≤ channels)
    (hdec : decodeForward 0 channels pooled_height pooled_width index = (n, ph, pw, c)) :
    0 ≤ n ∧ n < num_rois ∧ 0 ≤ ph ∧ ph < pooled_height ∧ 0 ≤ pw ∧ pw < pooled_width ∧
      0 ≤ c ∧ c < channels ∧
      index = ((n * pooled_height + ph) * pooled_width + pw) * channels + c := by
  unfold decodeForward at hdec
  simp only [ne_eq, not_true_eq_false, if_false, Prod.mk.injEq] at hdec
  obtain ⟨rfl, rfl, rfl, rfl⟩ := hdec
  obtain ⟨a1, a2, a3, a4, a5⟩ := tdivmod_decode hidx0 hidx1 hC
  obtain ⟨b1, b2, b3, b4, b5⟩ := tdivmod_decode a3 a4 hPW
  obtain ⟨c1, c2, c3, c4, c5⟩ := tdivmod_decode b3 b4 hPH
  refine ⟨c3, c4, c1, c2, b1, b2, a1, a2, ?_⟩
  rw [← c5, ← b5, ← a5]

theorem decodeForward_pool_range {pool_channel num_rois channels pooled_height pooled_width : Int}
    {index n ph pw c : Int} (hpc : pool_channel ≠ 0)
    (hidx0 : 0 ≤ index) (hidx1 : index < num_rois * pooled_height * pooled_width)
    (hPH : 0 ≤ pooled_height) (hPW : 0 ≤ pooled_width)
    (hdec : decodeForward pool_channel channels pooled_height pooled_width index
      = (n, ph, pw, c)) :
    0 ≤ n ∧ n < num_rois ∧ 0 ≤ ph ∧ ph < pooled_height ∧ 0 ≤ pw ∧ pw < pooled_width ∧
      c = 1 ∧ index = (n * pooled_height + ph) * pooled_width + pw := by
  unfold decodeForward at hdec
  simp only [ne_eq, hpc, not_false_eq_true, if_true, Prod.mk.injEq] at hdec
  obtain ⟨rfl, rfl, rfl, rfl⟩ := hdec
  obtain ⟨b1, b2, b3, b4, b5⟩ := tdivmod_decode hidx0 hidx1 hPW
  obtain ⟨c1, c2, c3, c4, c5⟩ := tdivmod_decode b3 b4 hPH
  refine ⟨c3, c4, c1, c2, b1, b2, rfl, ?_⟩
  rw [← c5, ← b5]

/-- C20 (as amended): for an output index in `[0, output_size)` the modulo/divide
steps of Forward yield `n` in `[0, num_rois)`, `ph` in `[0, pooled_height)` and `pw`
in `[0, pooled_width)`; without pool-by-channel also `c` in `[0, channels)` and
`index = ((n*pooled_height + ph)*pooled_width + pw)*channels + c`; with
pool-by-channel `index = (n*pooled_height + ph)*pooled_width + pw` and `c` is the
constant `1`, not a coordinate of the grid. Conversely every point
`(n1, ph1, pw1, c1)` of the output grid is the decomposition of an index of
`[0, output_size)`. So the region record read is one of the `num_rois` records. -/
theorem decode_bijection (pool_channel num_rois channels pooled_height pooled_width : Int)
    (index n ph pw c n1 ph1 pw1 c1 : Int)
    (hPH : 0 ≤ pooled_height) (hPW : 0 ≤ pooled_width) (hC : 0 ≤ channels)
    (hidx0 : 0 ≤ index)
    (hidx1 : index < forwardSize pool_channel num_rois channels pooled_height pooled_width)
    (hdec : decodeForward pool_channel channels pooled_height pooled_width index
      = (n, ph, pw, c))
    (hn0 : 0 ≤ n1) (hn1 : n1 < num_rois) (hph0 : 0 ≤ ph1) (hph1 : ph1 < pooled_height)
    (hpw0 : 0 ≤ pw1) (hpw1 : pw1 < pooled_width) (hc0 : 0 ≤ c1) (hc1 : c1 < channels) :
    (0 ≤ n ∧ n < num_rois ∧ 0 ≤ ph ∧ ph < pooled_height ∧ 0 ≤ pw ∧ pw < pooled_width) ∧
    (if pool_channel ≠ 0 then
      c = 1 ∧ index = (n * pooled_height + ph) * pooled_width + pw
    else 0 ≤ c ∧ c < channels ∧
      index = ((n * pooled_height + ph) * pooled_width + pw) * channels + c) ∧
    0 ≤ (if pool_channel ≠ 0 then (n1 * pooled_height + ph1) * pooled_width + pw1
      else ((n1 * pooled_height + ph1) * pooled_width + pw1) * channels + c1) ∧
    (if pool_channel ≠ 0 then (n1 * pooled_height + ph1) * pooled_width + pw1
      else ((n1 * pooled_height + ph1) * pooled_width + pw1) * channels + c1)
      < forwardSize pool_channel num_rois channels pooled_height pooled_width ∧
    decodeForward pool_channel channels pooled_height pooled_width
        (if pool_channel ≠ 0 then (n1 * pooled_height + ph1) * pooled_width + pw1
          else ((n1 * pooled_height + ph1) * pooled_width + pw1) * channels + c1)
      = (n1, ph1, pw1, if pool_channel ≠ 0 then 1 else c1) := by
  obtain ⟨a1, a2⟩ := encode_bounds hn0 hn1 hph0 hph1
  obtain ⟨b1, b2⟩ := encode_bounds a1 a2 hpw0 hpw1
  obtain ⟨c1', c2'⟩ := encode_bounds b1 b2 hc0 hc1
  by_cases hpc : pool_channel ≠ 0
  · unfold forwardSize at hidx1 ⊢
    rw [if_pos hpc] at hidx1
    simp only [if_pos hpc]
    obtain ⟨r1, r2, r3, r4, r5, r6, r7, r8⟩ :=
      decodeForward_pool_range hpc hidx0 hidx1 hPH hPW hdec
    exact ⟨⟨r1, r2, r3, r4, r5, r6⟩, ⟨r7, r8⟩, b1, b2,
      decodeForward_pool hpc hn0 hph0 hph1 hpw0 hpw1⟩
  · have h0 : pool_channel = 0 := not_not.1 hpc
    subst h0
    unfold forwardSize at hidx1 ⊢
    rw [if_neg hpc] at hidx1
    simp only [if_neg hpc]
    obtain ⟨r1, r2, r3, r4, r5, r6, r7, r8, r9⟩ :=
      decodeForward_full_range hidx0 hidx1 hPH hPW hC hdec
    exact ⟨⟨r1, r2, r3, r4, r5, r6⟩, ⟨r7, r8, r9⟩, c1', c2',
      decodeForward_full hn0 hph0 hph1 hpw0 hpw1 hc0 hc1⟩

theorem poolCell_defined (bottom_data : List Dtype) (spatial_scale : Dtype)
    (pool_channel height width channels pooled_height pooled_width : Int)
    (r : Roi) (ph pw c : Int)
    (hb0 : 0 ≤ r.roi_batch_ind)
    (hb1 : (r.roi_batch_ind + 1) * channels * height * width ≤ (bottom_data.length : Int))
    (hc0 : 0 ≤ channelUsed pool_channel r c) (hc1 : channelUsed pool_channel r c < channels) :
    ∃ res, poolCell bottom_data spatial_scale pool_channel height width channels
      pooled_height pooled_width r ph pw c = some res := by
  by_cases hempty : hend r spatial_scale pooled_height height ph
      ≤ hstart r spatial_scale pooled_height height ph ∨
    wend r spatial_scale pooled_width width pw
      ≤ wstart r spatial_scale pooled_width width pw
  · exact ⟨_, poolCell_empty bottom_data spatial_scale pool_channel height width channels
      pooled_height pooled_width r ph pw c hempty⟩
  · have hne : hstart r spatial_scale pooled_height height ph
        < hend r spatial_scale pooled_height height ph := by
      by_contra hcon
      exact hempty (Or.inl (not_lt.1 hcon))
    have wne : wstart r spatial_scale pooled_width width pw
        < wend r spatial_scale pooled_width width pw := by
      by_contra hcon
      exact hempty (Or.inr (not_lt.1 hcon))
    exact ⟨_, poolCell_nonempty hb0 hb1 hc0 hc1 hne wne⟩

/-- The forward kernel depends on the mode and on `c` only through the channel used. -/
theorem poolCell_congr_channel (bottom_data : List Dtype) (spatial_scale : Dtype)
    (pool_channel pool_channel1 height width channels pooled_height pooled_width : Int)
    (r : Roi) (ph pw c c1 : Int)
    (h : channelUsed pool_channel r c = channelUsed pool_channel1 r c1) :
    poolCell bottom_data spatial_scale pool_channel height width channels
        pooled_height pooled_width r ph pw c
      = poolCell bottom_data spatial_scale pool_channel1 height width channels
        pooled_height pooled_width r ph pw c1 := by
  unfold poolCell
  rw [h]

theorem clip_nonempty_iff {a b bound : Int} :
    clip a bound < clip b bound ↔ ∃ x, a ≤ x ∧ x < b ∧ 0 ≤ x ∧ x < bound := by
  unfold clip
  constructor
  · intro h
    exact ⟨min (max a 0) bound, by omega, by omega, by omega, by omega⟩
  · rintro ⟨x, h1, h2, h3, h4⟩
    omega

/-- The pooled index whose window holds the offset `y` of a coordinate from the
region start: `floor(y / bin_size)`, as computed by Backward (lines 200, 202). -/
theorem bin_of_offset {y e P : Int} (hy0 : 0 ≤ y) (hy1 : y < e) (hP : 0 < P) :
    0 ≤ ⌊(y : Dtype) / binSize e P⌋ ∧ ⌊(y : Dtype) / binSize e P⌋ < P ∧
      binStart ⌊(y : Dtype) / binSize e P⌋ e P ≤ y ∧
      y < binEnd ⌊(y : Dtype) / binSize e P⌋ e P := by
  have he : (0 : ℚ) < (e : ℚ) := by exact_mod_cast (show (0 : Int) < e by omega)
  have hPq : (0 : ℚ) < (P : ℚ) := by exact_mod_cast hP
  have hbin : (0 : ℚ) < binSize e P := by
    unfold binSize
    positivity
  have hyq0 : (0 : ℚ) ≤ (y : ℚ) := by exact_mod_cast hy0
  have hyq1 : (y : ℚ) < (e : ℚ) := by exact_mod_cast hy1
  have hPbin : (P : ℚ) * binSize e P = (e : ℚ) := by
    unfold binSize
    field_simp
  have hfl : ((⌊(y : Dtype) / binSize e P⌋ : Int) : ℚ) ≤ (y : ℚ) / binSize e P :=
    Int.floor_le _
  have hfu : (y : ℚ) / binSize e P < ((⌊(y : Dtype) / binSize e P⌋ : Int) : ℚ) + 1 :=
    Int.lt_floor_add_one _
  have hl : ((⌊(y : Dtype) / binSize e P⌋ : Int) : ℚ) * binSize e P ≤ (y : ℚ) :=
    (le_div_iff₀ hbin).1 hfl
  have hu : (y : ℚ) < (((⌊(y : Dtype) / binSize e P⌋ : Int) : ℚ) + 1) * binSize e P :=
    (div_lt_iff₀ hbin).1 hfu
  refine ⟨?_, ?_, ?_, ?_⟩
  · rw [Int.le_floor]
    simp only [Int.cast_zero]
    positivity
  · rw [Int.floor_lt, div_lt_iff₀ hbin, hPbin]
    exact hyq1
  · unfold binStart
    have h1 := Int.floor_le (((⌊(y : Dtype) / binSize e P⌋ : Int) : Dtype) * binSize e P)
    have h2 := le_trans h1 hl
    exact_mod_cast h2
  · unfold binEnd
    rw [Int.lt_ceil]
    push_cast
    exact hu

/-- C17: for a region with `roi_start <= roi_end` on an axis and `P >= 1` pooled
cells on it, the unclipped windows
`[roi_start + floor(p*bin), roi_start + ceil((p+1)*bin))`, `p = 0..P-1`, follow each
other without gap (the next start is at most the previous end) and their union is
the inclusive range `[roi_start, roi_end]` accepted by the `in_roi` test of Backward. -/
theorem windows_tile_region (roi_start roi_end P : Int) (hwf : roi_start ≤ roi_end)
    (hP : 1 ≤ P) :
    (∀ p, 0 ≤ p → p + 1 < P →
      roi_start + binStart (p + 1) (roiExtent roi_start roi_end) P
        ≤ roi_start + binEnd p (roiExtent roi_start roi_end) P) ∧
    (∀ x, (∃ p, 0 ≤ p ∧ p < P ∧
        roi_start + binStart p (roiExtent roi_start roi_end) P ≤ x ∧
        x < roi_start + binEnd p (roiExtent roi_start roi_end) P) ↔
      (x ≥ roi_start ∧ x ≤ roi_end)) := by
  have hext : roiExtent roi_start roi_end = roi_end - roi_start + 1 := by
    unfold roiExtent
    omega
  constructor
  · intro p _ _
    have h1 : binStart (p + 1) (roiExtent roi_start roi_end) P
        ≤ binEnd p (roiExtent roi_start roi_end) P := by
      unfold binStart binEnd
      rw [Int.le_ceil_iff]
      have := Int.floor_le (((p + 1 : Int) : Dtype) * binSize (roiExtent roi_start roi_end) P)
      linarith
    omega
  · intro x
    constructor
    · rintro ⟨p, hp0, hp1, h1, h2⟩
      have s := binStart_nonneg (e := roiExtent roi_start roi_end) (P := P) hp0
        (by omega) (by omega)
      have t := binEnd_le (e := roiExtent roi_start roi_end) (P := P) (p := p)
        (by omega) (by omega) (by omega)
      omega
    · rintro ⟨h1, h2⟩
      obtain ⟨p0, p1, b1, b2⟩ := bin_of_offset (y := x - roi_start)
        (e := roiExtent roi_start roi_end) (P := P) (by omega) (by omega) (by omega)
      exact ⟨_, p0, p1, by omega, by omega⟩

/-- Whatever the scan returns, its index is the start index or the index of a
visited position. -/
theorem scan_result_index (bottom_data : List Dtype) (base width channels ch : Int)
    (L : List (Int × Int)) (st res : Dtype × Int)
    (h : L.foldlM (fun st p => scanStep bottom_data base width channels ch p.1 p.2 st) st
      = some res) :
    res.2 = st.2 ∨ ∃ p ∈ L, res.2 = bottomIndex width channels ch p.1 p.2 := by
  induction L generalizing st with
  | nil =>
    simp only [List.foldlM_nil] at h
    have : st = res := Option.some.inj h
    exact Or.inl (by rw [this])
  | cons p L ih =>
    rw [List.foldlM_cons] at h
    cases hstep : scanStep bottom_data base width channels ch p.1 p.2 st with
    | none =>
      rw [hstep] at h
      exact Option.noConfusion h
    | some st1 =>
      rw [hstep] at h
      have hst1 : st1.2 = st.2 ∨ st1.2 = bottomIndex width channels ch p.1 p.2 := by
        unfold scanStep at hstep
        cases hl : load bottom_data (base + bottomIndex width channels ch p.1 p.2) with
        | none =>
          simp [hl] at hstep
        | some v =>
          simp only [hl, Option.some_bind] at hstep
          split at hstep
          · have := Option.some.inj hstep
            exact Or.inr (by rw [← this])
          · have := Option.some.inj hstep
            exact Or.inl (by rw [← this])
      rcases ih st1 h with h1 | ⟨q, hq, h1⟩
      · rcases hst1 with h2 | h2
        · exact Or.inl (by rw [h1, h2])
        · exact Or.inr ⟨p, List.mem_cons_self p L, by rw [h1, h2]⟩
      · exact Or.inr ⟨q, List.mem_cons_of_mem p hq, h1⟩

/-- Whatever the forward kernel records as argmax of a cell is `-1` or the flat
index of a position of the clipped window. -/
theorem poolCell_argmax {bottom_data : List Dtype} {spatial_scale : Dtype}
    {pool_channel height width channels pooled_height pooled_width : Int}
    {r : Roi} {ph pw c : Int} {res : Dtype × Int}
    (h : poolCell bottom_data spatial_scale pool_channel height width channels
      pooled_height pooled_width r ph pw c = some res) :
    res.2 = -1 ∨ ∃ h0 w0,
      InWindow r spatial_scale height width pooled_height pooled_width ph pw h0 w0 ∧
      res.2 = cellIndex pool_channel width channels r c h0 w0 := by
  unfold poolCell scanWindow at h
  rw [foldlM_nested] at h
  rcases scan_result_index _ _ _ _ _ _ _ _ h with h1 | ⟨p, hp, h1⟩
  · exact Or.inl h1
  · rw [mem_positions, mem_loopRange, mem_loopRange] at hp
    exact Or.inr ⟨p.1, p.2, ⟨hp.1.1, hp.1.2, hp.2.1, hp.2.2⟩, h1⟩

theorem channelUsed_range {pool_channel channels pooled_height pooled_width index : Int}
    {n ph pw c : Int} (r : Roi)
    (hdec : decodeForward pool_channel channels pooled_height pooled_width index
      = (n, ph, pw, c))
    (hidx : 0 ≤ index) (hcls0 : 0 ≤ r.roi_cls) (hcls1 : r.roi_cls < channels) :
    0 ≤ channelUsed pool_channel r c ∧ channelUsed pool_channel r c < channels := by
  unfold channelUsed
  by_cases hpc : pool_channel ≠ 0
  · rw [if_pos hpc]
    exact ⟨hcls0, hcls1⟩
  · rw [if_neg hpc]
    unfold decodeForward at hdec
    simp only [hpc, if_false, Prod.mk.injEq] at hdec
    obtain ⟨_, _, _, rfl⟩ := hdec
    exact ⟨Int.tmod_nonneg _ hidx, Int.tmod_lt_of_pos _ (by omega)⟩

/-- C14: for a region with class index in `[0, channels)`, however malformed its
coordinates, and every pooled cell, the clipped window lies in
`[0, height] x [0, width]`, every index `(h*width + w)*channels + channel` read
by the scan lies in `[0, height*width*channels)`, every argmax the kernel records
is `-1` or lies in `[0, height*width*channels)`, and the kernel does return when
the batch slice of the region lies in the buffer. -/
theorem forward_reads_in_slice (bottom_data : List Dtype) (spatial_scale : Dtype)
    (pool_channel height width channels pooled_height pooled_width channel_rois : Int)
    (bottom_rois : List Dtype) (index n ph pw c : Int) (r : Roi)
    (hdec : decodeForward pool_channel channels pooled_height pooled_width index
      = (n, ph, pw, c))
    (hroi : loadRoi bottom_rois (n * channel_rois) = some r)
    (hidx : 0 ≤ index) (hH : 0 ≤ height) (hW : 0 ≤ width)
    (hcls0 : 0 ≤ r.roi_cls) (hcls1 : r.roi_cls < channels) :
    (0 ≤ hstart r spatial_scale pooled_height height ph ∧
      hstart r spatial_scale pooled_height height ph ≤ height ∧
      0 ≤ hend r spatial_scale pooled_height height ph ∧
      hend r spatial_scale pooled_height height ph ≤ height ∧
      0 ≤ wstart r spatial_scale pooled_width width pw ∧
      wstart r spatial_scale pooled_width width pw ≤ width ∧
      0 ≤ wend r spatial_scale pooled_width width pw ∧
      wend r spatial_scale pooled_width width pw ≤ width) ∧
    (∀ h w, InWindow r spatial_scale height width pooled_height pooled_width ph pw h w →
      0 ≤ (h * width + w) * channels + channelUsed pool_channel r c ∧
      (h * width + w) * channels + channelUsed pool_channel r c
        < height * width * channels) ∧
    (∀ out a, ROIPoolForward bottom_data spatial_scale pool_channel height width channels
        pooled_height pooled_width channel_rois bottom_rois index = some (out, a) →
      a = -1 ∨ (0 ≤ a ∧ a < height * width * channels)) ∧
    (0 ≤ r.roi_batch_ind →
      (r.roi_batch_ind + 1) * channels * height * width ≤ (bottom_data.length : Int) →
      ∃ out a, ROIPoolForward bottom_data spatial_scale pool_channel height width channels
        pooled_height pooled_width channel_rois bottom_rois index = some (out, a)) := by
  obtain ⟨hc0, hc1⟩ := channelUsed_range r hdec hidx hcls0 hcls1
  have hread : ∀ h w,
      InWindow r spatial_scale height width pooled_height pooled_width ph pw h w →
      0 ≤ (h * width + w) * channels + channelUsed pool_channel r c ∧
      (h * width + w) * channels + channelUsed pool_channel r c
        < height * width * channels := by
    intro h w hin
    obtain ⟨b1, b2, b3, b4⟩ := inWindow_bounds hin
    have := bottomIndex_bounds hc0 hc1 b1 b2 b3 b4
    unfold bottomIndex at this
    have e : channels * height * width = height * width * channels := by ring
    rw [e] at this
    exact this
  refine ⟨?_, hread, ?_, ?_⟩
  · unfold hstart hend wstart wend winStart winEnd clip
    omega
  · intro out a hres
    rw [ROIPoolForward_eq_poolCell hdec hroi] at hres
    rcases poolCell_argmax hres with h1 | ⟨h0, w0, hin, h1⟩
    · exact Or.inl h1
    · refine Or.inr ?_
      have := hread h0 w0 hin
      simp only at h1
      rw [h1]
      exact this
  · intro hb0 hb1
    rw [ROIPoolForward_eq_poolCell hdec hroi]
    obtain ⟨res, hres⟩ := poolCell_defined bottom_data spatial_scale pool_channel height width
      channels pooled_height pooled_width r ph pw c hb0 hb1 hc0 hc1
    exact ⟨res.1, res.2, hres⟩

/-! ### The backward kernel as a sum over pooled cells -/

theorem foldlM_add_sum {α : Type} (f : Dtype → α → Option Dtype) (val : α → Dtype)
    (L : List α) (g : Dtype) (h : ∀ p ∈ L, ∀ g, f g p = some (g + val p)) :
    L.foldlM f g = some (g + (L.map val).sum) := by
  induction L generalizing g with
  | nil => simp
  | cons p L ih =>
    rw [List.foldlM_cons, h p (List.mem_cons_self p L) g]
    simp only [Option.some_bind, Option.bind_eq_bind]
    rw [ih (g + val p) (fun q hq => h q (List.mem_cons_of_mem p hq))]
    simp only [List.map_cons, List.sum_cons]
    rw [add_assoc]

theorem foldlM_congr_mem {α σ : Type} (f1 f2 : σ → α → Option σ) (L : List α) (s : σ)
    (h : ∀ p ∈ L, ∀ s, f1 s p = f2 s p) : L.foldlM f1 s = L.foldlM f2 s := by
  induction L generalizing s with
  | nil => rfl
  | cons p L ih =>
    rw [List.foldlM_cons, List.foldlM_cons, h p (List.mem_cons_self p L) s]
    congr 1
    funext s1
    exact ih s1 (fun q hq => h q (List.mem_cons_of_mem p hq))

theorem backStep_value {top_diff : List Dtype} {argmax_data : List Int}
    {pool_channel width channels pooled_height pooled_width roi_n h w c ph pw : Int}
    (g : Dtype)
    (hread : SlotReadable top_diff argmax_data
      (topSlot pool_channel channels pooled_height pooled_width roi_n ph pw c)
      ((h * width + w) * channels + c)) :
    backStep top_diff argmax_data pool_channel width channels pooled_width
        (if pool_channel ≠ 0 then roi_n * pooled_height * pooled_width
          else roi_n * pooled_height * pooled_width * channels) h w c ph pw g
      = some (g + cellGrad top_diff argmax_data
          (topSlot pool_channel channels pooled_height pooled_width roi_n ph pw c)
          ((h * width + w) * channels + c)) := by
  rw [backStep_topSlot]
  obtain ⟨⟨a, ha⟩, ht⟩ := hread
  unfold cellGrad
  by_cases hidx : a = (h * width + w) * channels + c
  · subst hidx
    obtain ⟨t, htt⟩ := ht ha
    simp [ha, htt]
  · have hne : ¬ (some a = some ((h * width + w) * channels + c)) := by
      intro hcon
      exact hidx (Option.some.inj hcon)
    simp [ha, hidx]

theorem loopRange_clip_mem {x y bound p : Int}
    (hp : p ∈ loopRange (clip x bound) (clip y bound)) : 0 ≤ p ∧ p < bound := by
  rw [mem_loopRange] at hp
  obtain ⟨a1, a2, _⟩ := clip_window (lt_of_le_of_lt hp.1 hp.2)
  omega

theorem pooled_range_mem {x roi_start roi_end pooled p : Int}
    (hp : p ∈ loopRange (pooledStart x roi_start roi_end pooled)
      (pooledEnd x roi_start roi_end pooled)) : 0 ≤ p ∧ p < pooled := by
  unfold pooledStart pooledEnd at hp
  exact loopRange_clip_mem hp

/-- The pooled-cell loops of lines 210-225 add `regionGrad` over the scanned range. -/
theorem backWindow_value {top_diff : List Dtype} {argmax_data : List Int}
    {pool_channel width channels pooled_height pooled_width roi_n h w c : Int}
    (phs pws : List Int) (g : Dtype)
    (hread : ∀ ph ∈ phs, ∀ pw ∈ pws, SlotReadable top_diff argmax_data
      (topSlot pool_channel channels pooled_height pooled_width roi_n ph pw c)
      ((h * width + w) * channels + c)) :
    phs.foldlM
        (fun g ph => pws.foldlM
          (fun g pw => backStep top_diff argmax_data pool_channel width channels
            pooled_width
            (if pool_channel ≠ 0 then roi_n * pooled_height * pooled_width
              else roi_n * pooled_height * pooled_width * channels) h w c ph pw g) g) g
      = some (g + regionGrad top_diff argmax_data pool_channel width channels
          pooled_height pooled_width roi_n h w c phs pws) := by
  rw [foldlM_nested (fun g ph pw => backStep top_diff argmax_data pool_channel width
    channels pooled_width
    (if pool_channel ≠ 0 then roi_n * pooled_height * pooled_width
      else roi_n * pooled_height * pooled_width * channels) h w c ph pw g)]
  unfold regionGrad
  apply foldlM_add_sum
  intro p hp g1
  rw [mem_positions] at hp
  exact backStep_value g1 (hread p.1 hp.1 p.2 hp.2)

theorem loadRoi_fields {bottom_rois : List Dtype} {off : Int} {r : Roi}
    (h : loadRoi bottom_rois off = some r) :
    load bottom_rois (off + 0) = some r.batch_index ∧
    load bottom_rois (off + 1) = some r.class_index ∧
    load bottom_rois (off + 2) = some r.x1 ∧
    load bottom_rois (off + 3) = some r.y1 ∧
    load bottom_rois (off + 4) = some r.x2 ∧
    load bottom_rois (off + 5) = some r.y2 := by
  unfold loadRoi at h
  simp only [Option.bind_eq_some] at h
  obtain ⟨r0, h0, r1, h1, r2, h2, r3, h3, r4, h4, r5, h5, hr⟩ := h
  have hr1 := Option.some.inj hr
  subst hr1
  exact ⟨h0, h1, h2, h3, h4, h5⟩

/-- The region-loop body of lines 155-225 adds `roiGradient` of the region. -/
theorem backRoi_value {top_diff : List Dtype} {argmax_data : List Int}
    {channel_rois : Int} {spatial_scale : Dtype}
    {pool_channel width channels pooled_height pooled_width : Int}
    {bottom_rois : List Dtype} {n h w c roi_n : Int} {r : Roi} (g : Dtype)
    (hroi : loadRoi bottom_rois (roi_n * channel_rois) = some r)
    (hread : n = r.roi_batch_ind → (pool_channel ≠ 0 → c = r.roi_cls) →
      ∀ ph pw, 0 ≤ ph → ph < pooled_height → 0 ≤ pw → pw < pooled_width →
        SlotReadable top_diff argmax_data
          (topSlot pool_channel channels pooled_height pooled_width roi_n ph pw c)
          ((h * width + w) * channels + c)) :
    backRoi top_diff argmax_data channel_rois spatial_scale pool_channel width channels
        pooled_height pooled_width bottom_rois n h w c g roi_n
      = some (g + roiGradient top_diff argmax_data spatial_scale pool_channel width channels
          pooled_height pooled_width r roi_n n h w c) := by
  obtain ⟨f0, f1, f2, f3, f4, f5⟩ := loadRoi_fields hroi
  unfold backRoi roiGradient
  simp only [f0, f1, f2, f3, f4, f5, Option.some_bind]
  have e0 : toInt r.batch_index = r.roi_batch_ind := rfl
  have e1 : toInt r.class_index = r.roi_cls := rfl
  rw [e0, e1]
  by_cases hn : n ≠ r.roi_batch_ind
  · rw [if_pos hn, if_pos hn, add_zero]
  · rw [if_neg hn, if_neg hn]
    by_cases hcl : pool_channel ≠ 0 ∧ c ≠ r.roi_cls
    · rw [if_pos hcl, if_pos hcl, add_zero]
    · rw [if_neg hcl, if_neg hcl]
      have hn1 : n = r.roi_batch_ind := not_not.1 hn
      have hcl1 : pool_channel ≠ 0 → c = r.roi_cls := by
        intro hpc
        by_contra hcon
        exact hcl ⟨hpc, hcon⟩
      have hr : (⟨r.batch_index, r.class_index, r.x1, r.y1, r.x2, r.y2⟩ : Roi) = r := rfl
      rw [hr]
      unfold backCell
      have hin : (decide (w ≥ r.roi_start_w spatial_scale) &&
          decide (w ≤ r.roi_end_w spatial_scale) &&
          decide (h ≥ r.roi_start_h spatial_scale) &&
          decide (h ≤ r.roi_end_h spatial_scale)) = inRoi r spatial_scale h w := rfl
      simp only [hin]
      by_cases hroiin : (!inRoi r spatial_scale h w) = true
      · rw [if_pos hroiin, if_pos hroiin, add_zero]
      · rw [if_neg hroiin, if_neg hroiin]
        unfold backWindow
        apply backWindow_value
        intro ph hph pw hpw
        obtain ⟨a1, a2⟩ := pooled_range_mem hph
        obtain ⟨b1, b2⟩ := pooled_range_mem hpw
        exact hread hn1 hcl1 ph pw a1 a2 b1 b2

theorem decodeBackward_range {height width channels index : Int}
    (hidx : 0 ≤ index) (hW : 0 < width) (hC : 0 < channels) (hH : 0 ≤ height) :
    0 ≤ (decodeBackward height width channels index).1 ∧
    0 ≤ (decodeBackward height width channels index).2.1 ∧
    0 ≤ (decodeBackward height width channels index).2.2.1 ∧
    (decodeBackward height width channels index).2.2.1 < width ∧
    0 ≤ (decodeBackward height width channels index).2.2.2 ∧
    (decodeBackward height width channels index).2.2.2 < channels := by
  unfold decodeBackward
  have h1 : 0 ≤ Int.tdiv index channels := Int.tdiv_nonneg hidx (le_of_lt hC)
  have h2 : 0 ≤ Int.tdiv (Int.tdiv index channels) width := Int.tdiv_nonneg h1 (le_of_lt hW)
  exact ⟨Int.tdiv_nonneg h2 hH, Int.tmod_nonneg _ h2, Int.tmod_nonneg _ h1,
    Int.tmod_lt_of_pos _ hW, Int.tmod_nonneg _ hidx, Int.tmod_lt_of_pos _ hC⟩

theorem slotReadable_of_length {top_diff : List Dtype} {argmax_data : List Int}
    {slot : Int} (idx : Int) (h0 : 0 ≤ slot) (h1 : slot < (argmax_data.length : Int))
    (h2 : slot < (top_diff.length : Int)) : SlotReadable top_diff argmax_data slot idx :=
  ⟨load_eq_some h0 h1, fun _ => load_eq_some h0 h2⟩

/-- The kernel body of `ROIPoolBackward` returns the sum of `roiGradient` over the
regions when every region record and every slot it needs can be read. -/
theorem ROIPoolBackward_value {top_diff : List Dtype} {argmax_data : List Int}
    {num_rois channel_rois : Int} {spatial_scale : Dtype}
    {pool_channel height width channels pooled_height pooled_width : Int}
    {bottom_rois : List Dtype} {index : Int}
    (hregs : ∀ roi_n, 0 ≤ roi_n → roi_n < num_rois →
      ∃ r, loadRoi bottom_rois (roi_n * channel_rois) = some r ∧
        ((decodeBackward height width channels index).1 = r.roi_batch_ind →
          (pool_channel ≠ 0 → (decodeBackward height width channels index).2.2.2 = r.roi_cls) →
          ∀ ph pw, 0 ≤ ph → ph < pooled_height → 0 ≤ pw → pw < pooled_width →
            SlotReadable top_diff argmax_data
              (topSlot pool_channel channels pooled_height pooled_width roi_n ph pw
                (decodeBackward height width channels index).2.2.2)
              (((decodeBackward height width channels index).2.1 * width
                + (decodeBackward height width channels index).2.2.1) * channels
                + (decodeBackward height width channels index).2.2.2))) :
    ROIPoolBackward top_diff argmax_data num_rois channel_rois spatial_scale pool_channel
        height width channels pooled_height pooled_width bottom_rois index
      = some (backwardValue top_diff argmax_data num_rois channel_rois spatial_scale
          pool_channel height width channels pooled_height pooled_width bottom_rois index) := by
  have hfold := foldlM_add_sum
    (backRoi top_diff argmax_data channel_rois spatial_scale pool_channel width channels
      pooled_height pooled_width bottom_rois
      (decodeBackward height width channels index).1
      (decodeBackward height width channels index).2.1
      (decodeBackward height width channels index).2.2.1
      (decodeBackward height width channels index).2.2.2)
    (fun roi_n => match loadRoi bottom_rois (roi_n * channel_rois) with
      | some r => roiGradient top_diff argmax_data spatial_scale pool_channel width channels
          pooled_height pooled_width r roi_n
          (decodeBackward height width channels index).1
          (decodeBackward height width channels index).2.1
          (decodeBackward height width channels index).2.2.1
          (decodeBackward height width channels index).2.2.2
      | none => 0)
    (loopRange 0 num_rois) 0
    (by
      intro roi_n hmem g
      rw [mem_loopRange] at hmem
      obtain ⟨r, hr, hread⟩ := hregs roi_n hmem.1 hmem.2
      rw [backRoi_value g hr hread]
      simp only [hr])
  rw [zero_add] at hfold
  exact hfold

/-! ### Backward: sentinel cells and the region filter -/

theorem load_mem {α : Type} {p : List α} {i : Int} {a : α} (h : load p i = some a) :
    a ∈ p := by
  unfold load at h
  split at h
  · exact List.getElem?_mem h
  · exact Option.noConfusion h

theorem list_sum_zero {α : Type} (L : List α) (f : α → Dtype) (h : ∀ x ∈ L, f x = 0) :
    (L.map f).sum = 0 := by
  induction L with
  | nil => rfl
  | cons a L ih =>
    rw [List.map_cons, List.sum_cons, h a (List.mem_cons_self a L),
      ih (fun x hx => h x (List.mem_cons_of_mem a hx)), add_zero]

theorem regionGrad_zero {top_diff : List Dtype} {argmax_data : List Int}
    {pool_channel width channels pooled_height pooled_width roi_n h w c : Int}
    (phs pws : List Int)
    (hz : ∀ ph ∈ phs, ∀ pw ∈ pws, cellGrad top_diff argmax_data
      (topSlot pool_channel channels pooled_height pooled_width roi_n ph pw c)
      ((h * width + w) * channels + c) = 0) :
    regionGrad top_diff argmax_data pool_channel width channels pooled_height pooled_width
      roi_n h w c phs pws = 0 := by
  unfold regionGrad
  apply list_sum_zero
  intro p hp
  rw [mem_positions] at hp
  exact hz p.1 hp.1 p.2 hp.2

theorem cellGrad_of_ne {top_diff : List Dtype} {argmax_data : List Int} {slot idx : Int}
    (h : load argmax_data slot ≠ some idx) : cellGrad top_diff argmax_data slot idx = 0 := by
  unfold cellGrad
  rw [if_neg h]

theorem roiGradient_zero_of_no_hit {top_diff : List Dtype} {argmax_data : List Int}
    {spatial_scale : Dtype} {pool_channel width channels pooled_height pooled_width : Int}
    {r : Roi} {roi_n n h w c : Int}
    (hz : ∀ slot, load argmax_data slot ≠ some ((h * width + w) * channels + c)) :
    roiGradient top_diff argmax_data spatial_scale pool_channel width channels
      pooled_height pooled_width r roi_n n h w c = 0 := by
  unfold roiGradient
  split
  · rfl
  · split
    · rfl
    · split
      · rfl
      · exact regionGrad_zero _ _ (fun ph _ pw _ => cellGrad_of_ne (hz _))

theorem dims_pos_of_index {index b height width channels : Int}
    (hW : 0 ≤ width) (hC : 0 ≤ channels)
    (h0 : 0 ≤ index) (h1 : index < b * height * width * channels) :
    0 < width ∧ 0 < channels := by
  constructor
  · by_contra hcon
    have e : width = 0 := by omega
    rw [e] at h1
    simp at h1
    omega
  · by_contra hcon
    have e : channels = 0 := by omega
    rw [e] at h1
    simp at h1
    omega

theorem element_index_nonneg {height width channels index : Int}
    (hidx : 0 ≤ index) (hW : 0 < width) (hC : 0 < channels) (hH : 0 ≤ height) :
    0 ≤ ((decodeBackward height width channels index).2.1 * width
      + (decodeBackward height width channels index).2.2.1) * channels
      + (decodeBackward height width channels index).2.2.2 := by
  obtain ⟨_, d2, d3, _, d5, _⟩ := decodeBackward_range hidx hW hC hH
  have e1 : 0 ≤ (decodeBackward height width channels index).2.1 * width :=
    mul_nonneg d2 (le_of_lt hW)
  have e2 : 0 ≤ ((decodeBackward height width channels index).2.1 * width
      + (decodeBackward height width channels index).2.2.1) * channels :=
    mul_nonneg (by omega) (le_of_lt hC)
  omega

/-- C15: a pooled cell whose recorded argmax is `-1` leaves the gradient of every
feature-map element unchanged in the loop body of Backward; hence, when every
entry of the argmax map is `-1`, Backward returns the gradient `0` at every
element, whatever the output gradient is. -/
theorem sentinel_backpropagates_nothing (top_diff : List Dtype) (argmax_data : List Int)
    (spatial_scale : Dtype)
    (pool_channel batch_size num_rois channel_rois height width channels pooled_height
      pooled_width : Int)
    (bottom_rois : List Dtype)
    (hH : 0 ≤ height) (hW : 0 ≤ width) (hC : 0 ≤ channels)
    (hregs : ∀ roi_n, 0 ≤ roi_n → roi_n < num_rois →
      ∃ r, loadRoi bottom_rois (roi_n * channel_rois) = some r)
    (hlen : forwardSize pool_channel num_rois channels pooled_height pooled_width
      ≤ (argmax_data.length : Int))
    (hall : ∀ a ∈ argmax_data, a = -1) :
    (∀ (offset h w c ph pw : Int) (g : Dtype),
      0 ≤ (h * width + w) * channels + c →
      load argmax_data (offset + if pool_channel ≠ 0 then ph * pooled_width + pw
        else (ph * pooled_width + pw) * channels + c) = some (-1) →
      backStep top_diff argmax_data pool_channel width channels pooled_width offset
        h w c ph pw g = some g) ∧
    ROIPoolBackwardLaucher top_diff spatial_scale pool_channel batch_size num_rois
        channel_rois height width channels pooled_height pooled_width bottom_rois
        argmax_data
      = some (List.replicate (batch_size * height * width * channels).toNat 0) := by
  have hne : ∀ (idx : Int), 0 ≤ idx → ∀ slot, load argmax_data slot ≠ some idx := by
    intro idx hidx slot hcon
    have := hall idx (load_mem hcon)
    omega
  constructor
  · intro offset h w c ph pw g hidx hl
    have ha : (-1 : Int) ≠ (h * width + w) * channels + c := by omega
    unfold backStep
    simp only [hl, Option.some_bind, if_neg ha]
  · unfold ROIPoolBackwardLaucher
    have hcells : ∀ x ∈ loopRange 0 (batch_size * height * width * channels),
        ROIPoolBackward top_diff argmax_data num_rois channel_rois spatial_scale pool_channel
          height width channels pooled_height pooled_width bottom_rois x
        = some ((fun _ => (0 : Dtype)) x) := by
      intro x hx
      rw [mem_loopRange] at hx
      obtain ⟨hWp, hCp⟩ := dims_pos_of_index hW hC hx.1 hx.2
      obtain ⟨_, _, _, _, d5, d6⟩ := decodeBackward_range hx.1 hWp hCp hH
      have hidx := element_index_nonneg hx.1 hWp hCp hH
      rw [ROIPoolBackward_value]
      · unfold backwardValue
        simp only
        rw [list_sum_zero]
        intro roi_n _
        split
        · exact roiGradient_zero_of_no_hit (hne _ hidx)
        · rfl
      · intro roi_n h0 h1
        obtain ⟨r, hr⟩ := hregs roi_n h0 h1
        refine ⟨r, hr, ?_⟩
        intro _ _ ph pw p0 p1 q0 q1
        obtain ⟨s0, s1⟩ := topSlot_bounds pool_channel h0 h1 p0 p1 q0 q1 d5 d6
        exact ⟨load_eq_some s0 (by omega), fun hcon => absurd hcon (hne _ hidx _)⟩
    rw [collect_map_some _ _ _ hcells, List.map_const', loopRange_length]
    simp

theorem roiGradient_zero_of_no_match {top_diff : List Dtype} {argmax_data : List Int}
    {spatial_scale : Dtype} {pool_channel width channels pooled_height pooled_width : Int}
    {r : Roi} {roi_n n h w c : Int}
    (hno : n ≠ r.roi_batch_ind ∨ (pool_channel ≠ 0 ∧ c ≠ r.roi_cls)) :
    roiGradient top_diff argmax_data spatial_scale pool_channel width channels
      pooled_height pooled_width r roi_n n h w c = 0 := by
  unfold roiGradient
  by_cases hn : n ≠ r.roi_batch_ind
  · rw [if_pos hn]
  · rw [if_neg hn]
    rcases hno with h1 | h1
    · exact absurd h1 hn
    · rw [if_pos h1]

theorem backRoi_congr_top {top_diff top_diff1 : List Dtype} {argmax_data : List Int}
    {channel_rois : Int} {spatial_scale : Dtype}
    {pool_channel width channels pooled_height pooled_width : Int}
    {bottom_rois : List Dtype} {n h w c roi_n : Int} {r : Roi} (g : Dtype)
    (hroi : loadRoi bottom_rois (roi_n * channel_rois) = some r)
    (hsame : n = r.roi_batch_ind → (pool_channel ≠ 0 → c = r.roi_cls) →
      ∀ ph pw, 0 ≤ ph → ph < pooled_height → 0 ≤ pw → pw < pooled_width →
        load top_diff (topSlot pool_channel channels pooled_height pooled_width roi_n ph pw c)
          = load top_diff1
            (topSlot pool_channel channels pooled_height pooled_width roi_n ph pw c)) :
    backRoi top_diff argmax_data channel_rois spatial_scale pool_channel width channels
        pooled_height pooled_width bottom_rois n h w c g roi_n
      = backRoi top_diff1 argmax_data channel_rois spatial_scale pool_channel width channels
        pooled_height pooled_width bottom_rois n h w c g roi_n := by
  obtain ⟨f0, f1, f2, f3, f4, f5⟩ := loadRoi_fields hroi
  unfold backRoi
  simp only [f0, f1, f2, f3, f4, f5, Option.some_bind]
  have e0 : toInt r.batch_index = r.roi_batch_ind := rfl
  have e1 : toInt r.class_index = r.roi_cls := rfl
  rw [e0, e1]
  by_cases hn : n ≠ r.roi_batch_ind
  · rw [if_pos hn, if_pos hn]
  · rw [if_neg hn, if_neg hn]
    by_cases hcl : pool_channel ≠ 0 ∧ c ≠ r.roi_cls
    · rw [if_pos hcl, if_pos hcl]
    · rw [if_neg hcl, if_neg hcl]
      have hn1 : n = r.roi_batch_ind := not_not.1 hn
      have hcl1 : pool_channel ≠ 0 → c = r.roi_cls := by
        intro hpc
        by_contra hcon
        exact hcl ⟨hpc, hcon⟩
      have hr : (⟨r.batch_index, r.class_index, r.x1, r.y1, r.x2, r.y2⟩ : Roi) = r := rfl
      rw [hr]
      unfold backCell
      have hin : (decide (w ≥ r.roi_start_w spatial_scale) &&
          decide (w ≤ r.roi_end_w spatial_scale) &&
          decide (h ≥ r.roi_start_h spatial_scale) &&
          decide (h ≤ r.roi_end_h spatial_scale)) = inRoi r spatial_scale h w := rfl
      simp only [hin]
      by_cases hroiin : (!inRoi r spatial_scale h w) = true
      · rw [if_pos hroiin, if_pos hroiin]
      · rw [if_neg hroiin, if_neg hroiin]
        unfold backWindow
        apply foldlM_congr_mem
        intro ph hph g1
        apply foldlM_congr_mem
        intro pw hpw g2
        obtain ⟨a1, a2⟩ := pooled_range_mem hph
        obtain ⟨b1, b2⟩ := pooled_range_mem hpw
        rw [backStep_topSlot, backStep_topSlot, hsame hn1 hcl1 ph pw a1 a2 b1 b2]

/-- C16: the source element `(b, h, w, c)` of index `index` receives the gradient `0`
when every region has a batch index other than `b` or, in pool-by-channel mode,
a class index other than `c`; and the gradient it receives is the same for two
output gradients that agree on the slots of the regions with batch index `b`
(and class index `c` in pool-by-channel mode), whatever the argmax map is. -/
theorem backward_region_filter (top_diff : List Dtype) (argmax_data : List Int)
    (num_rois channel_rois : Int) (spatial_scale : Dtype)
    (pool_channel height width channels pooled_height pooled_width : Int)
    (bottom_rois : List Dtype) (index : Int)
    (hregs : ∀ roi_n, 0 ≤ roi_n → roi_n < num_rois →
      ∃ r, loadRoi bottom_rois (roi_n * channel_rois) = some r) :
    ((∀ roi_n r, 0 ≤ roi_n → roi_n < num_rois →
        loadRoi bottom_rois (roi_n * channel_rois) = some r →
        (decodeBackward height width channels index).1 ≠ r.roi_batch_ind ∨
        (pool_channel ≠ 0 ∧
          (decodeBackward height width channels index).2.2.2 ≠ r.roi_cls)) →
      ROIPoolBackward top_diff argmax_data num_rois channel_rois spatial_scale pool_channel
        height width channels pooled_height pooled_width bottom_rois index = some 0) ∧
    (∀ top_diff1 : List Dtype,
      (∀ roi_n r, 0 ≤ roi_n → roi_n < num_rois →
        loadRoi bottom_rois (roi_n * channel_rois) = some r →
        (decodeBackward height width channels index).1 = r.roi_batch_ind →
        (pool_channel ≠ 0 →
          (decodeBackward height width channels index).2.2.2 = r.roi_cls) →
        ∀ ph pw, 0 ≤ ph → ph < pooled_height → 0 ≤ pw → pw < pooled_width →
          load top_diff (topSlot pool_channel channels pooled_height pooled_width roi_n
              ph pw (decodeBackward height width channels index).2.2.2)
            = load top_diff1 (topSlot pool_channel channels pooled_height pooled_width roi_n
              ph pw (decodeBackward height width channels index).2.2.2)) →
      ROIPoolBackward top_diff argmax_data num_rois channel_rois spatial_scale pool_channel
          height width channels pooled_height pooled_width bottom_rois index
        = ROIPoolBackward top_diff1 argmax_data num_rois channel_rois spatial_scale
          pool_channel height width channels pooled_height pooled_width bottom_rois
          index) := by
  constructor
  · intro hno
    rw [ROIPoolBackward_value]
    · unfold backwardValue
      simp only
      rw [list_sum_zero]
      intro roi_n hmem
      rw [mem_loopRange] at hmem
      obtain ⟨r, hr⟩ := hregs roi_n hmem.1 hmem.2
      simp only [hr]
      exact roiGradient_zero_of_no_match (hno roi_n r hmem.1 hmem.2 hr)
    · intro roi_n h0 h1
      obtain ⟨r, hr⟩ := hregs roi_n h0 h1
      refine ⟨r, hr, ?_⟩
      intro hb hc
      exfalso
      rcases hno roi_n r h0 h1 hr with hx | ⟨hpc, hx⟩
      · exact hx hb
      · exact hx (hc hpc)
  · intro top_diff1 hsame
    unfold ROIPoolBackward
    apply foldlM_congr_mem
    intro roi_n hmem g
    rw [mem_loopRange] at hmem
    obtain ⟨r, hr⟩ := hregs roi_n hmem.1 hmem.2
    exact backRoi_congr_top g hr (hsame roi_n r hmem.1 hmem.2 hr)

/-! ### Backward on the argmax map of Forward: the feasible range loses nothing -/

theorem collect_eq_some {α : Type} {xs : List (Option α)} {L : List α}
    (h : collect xs = some L) : xs = L.map some := by
  induction xs generalizing L with
  | nil =>
    have : L = [] := (Option.some.inj h).symm
    rw [this]
    rfl
  | cons x xs ih =>
    cases x with
    | none => exact Option.noConfusion h
    | some a =>
      simp only [collect, Option.map_eq_some'] at h
      obtain ⟨L1, h1, h2⟩ := h
      rw [← h2, List.map_cons, ih h1]

/-- Every entry of the argmax map returned by the forward launcher is the argmax
written by the kernel body at that output index. -/
theorem forward_launcher_cells {bottom_data : List Dtype} {spatial_scale : Dtype}
    {pool_channel num_rois channel_rois height width channels pooled_height
      pooled_width : Int}
    {bottom_rois : List Dtype} {top_data : List Dtype} {argmax_data : List Int}
    (hfwd : ROIPoolForwardLaucher bottom_data spatial_scale pool_channel num_rois
      channel_rois height width channels pooled_height pooled_width bottom_rois
      = some (top_data, argmax_data)) :
    top_data.length
      = (forwardSize pool_channel num_rois channels pooled_height pooled_width).toNat ∧
    argmax_data.length
      = (forwardSize pool_channel num_rois channels pooled_height pooled_width).toNat ∧
    ∀ k, 0 ≤ k → k < forwardSize pool_channel num_rois channels pooled_height pooled_width →
      ∃ out a, ROIPoolForward bottom_data spatial_scale pool_channel height width channels
          pooled_height pooled_width channel_rois bottom_rois k = some (out, a) ∧
        load top_data k = some out ∧ load argmax_data k = some a := by
  unfold ROIPoolForwardLaucher at hfwd
  simp only [Option.map_eq_some'] at hfwd
  obtain ⟨L, hL, hunzip⟩ := hfwd
  have hmap := collect_eq_some hL
  rw [List.unzip_eq_map, Prod.mk.injEq] at hunzip
  obtain ⟨htop, harg⟩ := hunzip
  have hlen : L.length
      = (forwardSize pool_channel num_rois channels pooled_height pooled_width).toNat := by
    have := congrArg List.length hmap
    rw [List.length_map, List.length_map, loopRange_length] at this
    unfold forwardSize
    omega
  refine ⟨by rw [← htop, List.length_map, hlen], by rw [← harg, List.length_map, hlen], ?_⟩
  intro k hk0 hk1
  have hi : k.toNat < ((if pool_channel ≠ 0 then num_rois * pooled_height * pooled_width
      else num_rois * pooled_height * pooled_width * channels) - 0).toNat := by
    unfold forwardSize at hk1
    omega
  have hget := congrArg (fun l => l[k.toNat]?) hmap
  simp only [List.getElem?_map, loopRange_getElem? hi, Option.map_some'] at hget
  have hk : (0 : Int) + ((k.toNat : Nat) : Int) = k := by omega
  rw [hk] at hget
  have hlt : k.toNat < L.length := by
    rw [hlen]
    omega
  rw [List.getElem?_eq_getElem hlt, Option.map_some'] at hget
  have hres := Option.some.inj hget
  refine ⟨(L[k.toNat]).1, (L[k.toNat]).2, hres, ?_, ?_⟩
  · unfold load
    rw [if_pos hk0, ← htop, List.getElem?_map, List.getElem?_eq_getElem hlt]
    rfl
  · unfold load
    rw [if_pos hk0, ← harg, List.getElem?_map, List.getElem?_eq_getElem hlt]
    rfl

/-- A coordinate `x` of the clipped window of the pooled index `p` lies in the
feasible range that Backward scans for `x`, and inside a well-formed region. -/
theorem axis_feasible {x roi_start roi_end P p bound : Int}
    (hp0 : 0 ≤ p) (hp1 : p < P)
    (h1 : winStart p roi_start roi_end P bound ≤ x)
    (h2 : x < winEnd p roi_start roi_end P bound) :
    pooledStart x roi_start roi_end P ≤ p ∧ p < pooledEnd x roi_start roi_end P ∧
      (roi_start ≤ roi_end → roi_start ≤ x ∧ x ≤ roi_end) := by
  have he := roiExtent_pos roi_start roi_end
  have hP : 0 < P := by omega
  have heq : (0 : ℚ) < ((roiExtent roi_start roi_end : Int) : ℚ) := by
    exact_mod_cast (show (0 : Int) < roiExtent roi_start roi_end by omega)
  have hPq : (0 : ℚ) < (P : ℚ) := by exact_mod_cast hP
  have hbin : (0 : ℚ) < binSize (roiExtent roi_start roi_end) P := by
    unfold binSize
    positivity
  unfold winStart at h1
  unfold winEnd at h2
  have hcw := clip_window (lt_of_le_of_lt h1 h2)
  have ha : binStart p (roiExtent roi_start roi_end) P ≤ x - roi_start := by
    unfold clip at h1 h2 hcw
    omega
  have hb : x - roi_start < binEnd p (roiExtent roi_start roi_end) P := by
    unfold clip at h1 h2 hcw
    omega
  have hs := binStart_nonneg (e := roiExtent roi_start roi_end) (P := P) hp0 (by omega) hP
  have ht := binEnd_le (e := roiExtent roi_start roi_end) (P := P) (p := p) (by omega)
    (by omega) hP
  have hlo : ⌊((x - roi_start : Int) : Dtype) / binSize (roiExtent roi_start roi_end) P⌋
      ≤ p := by
    rw [Int.floor_le_iff, div_lt_iff₀ hbin]
    unfold binEnd at hb
    rw [Int.lt_ceil] at hb
    push_cast at hb ⊢
    exact hb
  have hhi : p < ⌈((x - roi_start + 1 : Int) : Dtype)
      / binSize (roiExtent roi_start roi_end) P⌉ := by
    rw [Int.lt_ceil, lt_div_iff₀ hbin]
    unfold binStart at ha
    have h3 := Int.lt_floor_add_one ((p : Dtype) * binSize (roiExtent roi_start roi_end) P)
    have h4 : ((⌊(p : Dtype) * binSize (roiExtent roi_start roi_end) P⌋ : Int) : ℚ)
        ≤ ((x - roi_start : Int) : ℚ) := by exact_mod_cast ha
    push_cast at h4 ⊢
    linarith
  refine ⟨?_, ?_, ?_⟩
  · unfold pooledStart clip
    omega
  · unfold pooledEnd clip
    omega
  · intro hwf
    have hext : roiExtent roi_start roi_end = roi_end - roi_start + 1 := by
      unfold roiExtent
      omega
    omega

theorem positions_nodup (a b c d : Int) :
    (positions (loopRange a b) (loopRange c d)).Nodup := by
  have h := positions_pairwise (loopRange_pairwise a b) (loopRange_pairwise c d)
  unfold List.Nodup
  refine h.imp ?_
  intro p q hlex heq
  rw [heq] at hlex
  omega

/-- A sum over a grid of pooled cells equals the sum over a sub-grid outside of
which every term is `0`. -/
theorem sum_positions_restrict (f : Int × Int → Dtype) (a b c d P Q : Int)
    (hsub : ∀ p, p ∈ positions (loopRange a b) (loopRange c d) →
      p ∈ positions (loopRange 0 P) (loopRange 0 Q))
    (hzero : ∀ p, p ∈ positions (loopRange 0 P) (loopRange 0 Q) →
      p ∉ positions (loopRange a b) (loopRange c d) → f p = 0) :
    ((positions (loopRange a b) (loopRange c d)).map f).sum
      = ((positions (loopRange 0 P) (loopRange 0 Q)).map f).sum := by
  rw [← List.sum_toFinset f (positions_nodup a b c d),
    ← List.sum_toFinset f (positions_nodup 0 P 0 Q)]
  apply Finset.sum_subset
  · intro p hp
    rw [List.mem_toFinset] at hp ⊢
    exact hsub p hp
  · intro p hp hnp
    rw [List.mem_toFinset] at hp hnp
    exact hzero p hp hnp

theorem bottomIndex_inj {width channels ch h w h1 w1 : Int} (hch : 0 < channels)
    (hw0 : 0 ≤ w) (hw1 : w < width) (hv0 : 0 ≤ w1) (hv1 : w1 < width)
    (heq : bottomIndex width channels ch h w = bottomIndex width channels ch h1 w1) :
    h = h1 ∧ w = w1 := by
  by_contra hcon
  have hlex : (h < h1 ∨ (h = h1 ∧ w < w1)) ∨ (h1 < h ∨ (h1 = h ∧ w1 < w)) := by omega
  rcases hlex with hl | hl
  · have := bottomIndex_lt ch hch hw0 hw1 hv0 hl
    omega
  · have := bottomIndex_lt ch hch hv0 hv1 hw0 hl
    omega

/-- When the argmax that Forward recorded for the pooled cell `(ph, pw)` of a region
is the flat index of the element `(h, w, c)`, the position `(h, w)` lies in the
clipped window of that cell. -/
theorem argmax_hit_in_window {bottom_data : List Dtype} {spatial_scale : Dtype}
    {pool_channel num_rois channel_rois height width channels pooled_height
      pooled_width : Int}
    {bottom_rois : List Dtype} {top_data : List Dtype} {argmax_data : List Int}
    {roi_n ph pw h w c : Int} {r : Roi}
    (hfwd : ROIPoolForwardLaucher bottom_data spatial_scale pool_channel num_rois
      channel_rois height width channels pooled_height pooled_width bottom_rois
      = some (top_data, argmax_data))
    (hn0 : 0 ≤ roi_n) (hn1 : roi_n < num_rois)
    (hroi : loadRoi bottom_rois (roi_n * channel_rois) = some r)
    (hph0 : 0 ≤ ph) (hph1 : ph < pooled_height) (hpw0 : 0 ≤ pw) (hpw1 : pw < pooled_width)
    (hh0 : 0 ≤ h) (hw0 : 0 ≤ w) (hw1 : w < width) (hc0 : 0 ≤ c) (hc1 : c < channels)
    (hcls : pool_channel ≠ 0 → c = r.roi_cls)
    (hhit : load argmax_data
        (topSlot pool_channel channels pooled_height pooled_width roi_n ph pw c)
      = some ((h * width + w) * channels + c)) :
    InWindow r spatial_scale height width pooled_height pooled_width ph pw h w := by
  obtain ⟨s0, s1⟩ := topSlot_bounds pool_channel hn0 hn1 hph0 hph1 hpw0
    hpw1 hc0 hc1
  obtain ⟨_, _, hcells⟩ := forward_launcher_cells hfwd
  obtain ⟨out, a, hres, _, harg⟩ := hcells _ s0 s1
  rw [hhit] at harg
  have ha : a = (h * width + w) * channels + c := (Option.some.inj harg).symm
  have hidx0 : 0 ≤ (h * width + w) * channels + c := by
    have e1 : 0 ≤ h * width := mul_nonneg hh0 (by omega)
    have e2 : 0 ≤ (h * width + w) * channels := mul_nonneg (by omega) (by omega)
    omega
  have key : ∀ c1, decodeForward pool_channel channels pooled_height pooled_width
      (topSlot pool_channel channels pooled_height pooled_width roi_n ph pw c)
        = (roi_n, ph, pw, c1) →
      channelUsed pool_channel r c1 = c →
      InWindow r spatial_scale height width pooled_height pooled_width ph pw h w := by
    intro c1 hdec hcu
    rw [ROIPoolForward_eq_poolCell hdec hroi] at hres
    rcases poolCell_argmax hres with h1 | ⟨h0, w0, hin, h1⟩
    · simp only at h1
      omega
    · simp only at h1
      unfold cellIndex at h1
      rw [hcu, ha] at h1
      obtain ⟨_, _, b3, b4⟩ := inWindow_bounds hin
      have hb : bottomIndex width channels c h w = bottomIndex width channels c h0 w0 := by
        unfold bottomIndex at h1 ⊢
        exact h1
      obtain ⟨rfl, rfl⟩ := bottomIndex_inj (by omega) hw0 hw1 b3 b4 hb
      exact hin
  by_cases hpc : pool_channel ≠ 0
  · apply key 1
    · rw [topSlot_pool hpc]
      exact decodeForward_pool hpc hn0 hph0 hph1 hpw0 hpw1
    · simp only [channelUsed, hpc, ne_eq, not_false_eq_true, if_true]
      exact (hcls hpc).symm
  · have h0 : pool_channel = 0 := not_not.1 hpc
    apply key c
    · subst h0
      rw [topSlot_full]
      exact decodeForward_full hn0 hph0 hph1 hpw0 hpw1 hc0 hc1
    · simp [channelUsed, h0]

theorem cellGrad_hit {top_diff : List Dtype} {argmax_data : List Int} {slot idx : Int}
    (h : cellGrad top_diff argmax_data slot idx ≠ 0) : load argmax_data slot = some idx := by
  by_contra hcon
  exact h (cellGrad_of_ne hcon)

theorem inRoi_eq_true {r : Roi} {spatial_scale : Dtype} {h w : Int}
    (hw : r.roi_start_w spatial_scale ≤ w ∧ w ≤ r.roi_end_w spatial_scale)
    (hh : r.roi_start_h spatial_scale ≤ h ∧ h ≤ r.roi_end_h spatial_scale) :
    inRoi r spatial_scale h w = true := by
  unfold inRoi
  simp [hw.1, hw.2, hh.1, hh.2]

/-- On the argmax map of Forward, what a well-formed region adds to an element in
Backward is the sum over all the pooled cells of the region. -/
theorem roiGradient_eq_all {bottom_data : List Dtype} {spatial_scale : Dtype}
    {pool_channel num_rois channel_rois height width channels pooled_height
      pooled_width : Int}
    {bottom_rois : List Dtype} {top_data : List Dtype} {argmax_data : List Int}
    (top_diff : List Dtype) {roi_n n h w c : Int} {r : Roi}
    (hfwd : ROIPoolForwardLaucher bottom_data spatial_scale pool_channel num_rois
      channel_rois height width channels pooled_height pooled_width bottom_rois
      = some (top_data, argmax_data))
    (hn0 : 0 ≤ roi_n) (hn1 : roi_n < num_rois)
    (hroi : loadRoi bottom_rois (roi_n * channel_rois) = some r)
    (hwfw : r.roi_start_w spatial_scale ≤ r.roi_end_w spatial_scale)
    (hwfh : r.roi_start_h spatial_scale ≤ r.roi_end_h spatial_scale)
    (hh0 : 0 ≤ h) (hw0 : 0 ≤ w) (hw1 : w < width) (hc0 : 0 ≤ c) (hc1 : c < channels) :
    roiGradient top_diff argmax_data spatial_scale pool_channel width channels
        pooled_height pooled_width r roi_n n h w c
      = if n = r.roi_batch_ind ∧ (pool_channel ≠ 0 → c = r.roi_cls) then
          regionGrad top_diff argmax_data pool_channel width channels pooled_height
            pooled_width roi_n h w c (loopRange 0 pooled_height) (loopRange 0 pooled_width)
        else 0 := by
  unfold roiGradient
  by_cases hn : n ≠ r.roi_batch_ind
  · rw [if_pos hn, if_neg (fun hcon => hn hcon.1)]
  · rw [if_neg hn]
    by_cases hcl : pool_channel ≠ 0 ∧ c ≠ r.roi_cls
    · rw [if_pos hcl, if_neg (fun hcon => hcl.2 (hcon.2 hcl.1))]
    · rw [if_neg hcl]
      have hcls : pool_channel ≠ 0 → c = r.roi_cls := by
        intro hpc
        by_contra hcon
        exact hcl ⟨hpc, hcon⟩
      have hcond : n = r.roi_batch_ind ∧ (pool_channel ≠ 0 → c = r.roi_cls) :=
        ⟨not_not.1 hn, hcls⟩
      rw [if_pos hcond]
      have hwin : ∀ p : Int × Int,
          p ∈ positions (loopRange 0 pooled_height) (loopRange 0 pooled_width) →
          cellGrad top_diff argmax_data
            (topSlot pool_channel channels pooled_height pooled_width roi_n p.1 p.2 c)
            ((h * width + w) * channels + c) ≠ 0 →
          inRoi r spatial_scale h w = true ∧
          p ∈ positions
            (loopRange (pooledStart h (r.roi_start_h spatial_scale)
                (r.roi_end_h spatial_scale) pooled_height)
              (pooledEnd h (r.roi_start_h spatial_scale)
                (r.roi_end_h spatial_scale) pooled_height))
            (loopRange (pooledStart w (r.roi_start_w spatial_scale)
                (r.roi_end_w spatial_scale) pooled_width)
              (pooledEnd w (r.roi_start_w spatial_scale)
                (r.roi_end_w spatial_scale) pooled_width)) := by
        intro p hp hne
        rw [mem_positions, mem_loopRange, mem_loopRange] at hp
        have hin := argmax_hit_in_window hfwd hn0 hn1 hroi hp.1.1 hp.1.2 hp.2.1 hp.2.2
          hh0 hw0 hw1 hc0 hc1 hcls (cellGrad_hit hne)
        obtain ⟨a1, a2, a3⟩ := axis_feasible hp.1.1 hp.1.2 hin.1 hin.2.1
        obtain ⟨b1, b2, b3⟩ := axis_feasible hp.2.1 hp.2.2 hin.2.2.1 hin.2.2.2
        refine ⟨inRoi_eq_true (b3 hwfw) (a3 hwfh), ?_⟩
        rw [mem_positions, mem_loopRange, mem_loopRange]
        exact ⟨⟨a1, a2⟩, b1, b2⟩
      by_cases hroiin : (!inRoi r spatial_scale h w) = true
      · rw [if_pos hroiin]
        symm
        unfold regionGrad
        apply list_sum_zero
        intro p hp
        by_contra hne
        have := (hwin p hp hne).1
        rw [this] at hroiin
        exact Bool.noConfusion hroiin
      · rw [if_neg hroiin]
        unfold regionGrad
        apply sum_positions_restrict
        · intro p hp
          rw [mem_positions] at hp ⊢
          obtain ⟨a1, a2⟩ := pooled_range_mem hp.1
          obtain ⟨b1, b2⟩ := pooled_range_mem hp.2
          rw [mem_loopRange, mem_loopRange]
          omega
        · intro p hp hnp
          by_contra hne
          exact hnp (hwin p hp hne).2

/-- C13: for a region list whose regions all
have `roi_start_w <= roi_end_w` and `roi_start_h <= roi_end_h`, Backward run on the
argmax map produced by Forward (with an output gradient of the shape of the pooled
output) returns, for every source element, the sum of the output gradients of all
the pooled cells, over all regions with the element's batch index (and the
element's channel as class index in pool-by-channel mode) and all `(ph, pw)`,
whose argmax is the element's flat index `(h*width + w)*channels + c`. -/
theorem backward_sums_all_cells (bottom_data top_diff top_data : List Dtype)
    (argmax_data : List Int) (spatial_scale : Dtype)
    (pool_channel batch_size num_rois channel_rois height width channels pooled_height
      pooled_width : Int)
    (bottom_rois : List Dtype)
    (hH : 0 ≤ height) (hW : 0 ≤ width) (hC : 0 ≤ channels)
    (hfwd : ROIPoolForwardLaucher bottom_data spatial_scale pool_channel num_rois
      channel_rois height width channels pooled_height pooled_width bottom_rois
      = some (top_data, argmax_data))
    (hlen : top_diff.length = top_data.length)
    (hregs : ∀ roi_n, 0 ≤ roi_n → roi_n < num_rois →
      ∃ r, loadRoi bottom_rois (roi_n * channel_rois) = some r ∧
        r.roi_start_w spatial_scale ≤ r.roi_end_w spatial_scale ∧
        r.roi_start_h spatial_scale ≤ r.roi_end_h spatial_scale) :
    ROIPoolBackwardLaucher top_diff spatial_scale pool_channel batch_size num_rois
        channel_rois height width channels pooled_height pooled_width bottom_rois
        argmax_data
      = some ((loopRange 0 (batch_size * height * width * channels)).map
          (gradientOfAllCells top_diff argmax_data num_rois channel_rois pool_channel
            height width channels pooled_height pooled_width bottom_rois)) := by
  obtain ⟨htopl, hargl, _⟩ := forward_launcher_cells hfwd
  unfold ROIPoolBackwardLaucher
  apply collect_map_some
  intro x hx
  rw [mem_loopRange] at hx
  obtain ⟨hWp, hCp⟩ := dims_pos_of_index hW hC hx.1 hx.2
  obtain ⟨_, d2, d3, d4, d5, d6⟩ := decodeBackward_range hx.1 hWp hCp hH
  rw [ROIPoolBackward_value]
  · congr 1
    unfold backwardValue gradientOfAllCells
    simp only
    congr 1
    apply List.map_congr_left
    intro roi_n hmem
    rw [mem_loopRange] at hmem
    obtain ⟨r, hr, hwfw, hwfh⟩ := hregs roi_n hmem.1 hmem.2
    simp only [hr]
    exact roiGradient_eq_all top_diff hfwd hmem.1 hmem.2 hr hwfw hwfh d2 d3 d4 d5 d6
  · intro roi_n h0 h1
    obtain ⟨r, hr, _, _⟩ := hregs roi_n h0 h1
    refine ⟨r, hr, ?_⟩
    intro _ _ ph pw p0 p1 q0 q1
    obtain ⟨s0, s1⟩ := topSlot_bounds pool_channel h0 h1 p0 p1 q0 q1 d5 d6
    exact slotReadable_of_length _ s0 (by omega) (by omega)

/-! ### Shapes of the results and the one-writer-per-slot launch -/

theorem flatMap_congr_of_mem {α β : Type} {l : List α} {f g : α → List β}
    (h : ∀ a ∈ l, f a = g a) : l.flatMap f = l.flatMap g := by
  induction l with
  | nil => rfl
  | cons a l ih =>
    rw [List.flatMap_cons, List.flatMap_cons, h a (List.mem_cons_self a l),
      ih (fun x hx => h x (List.mem_cons_of_mem a hx))]

/-- A grid of `(m + 511) / 512` blocks of 512 threads, each thread keeping its
global index when it is below `m`, enumerates `0, ..., m - 1` in order. -/
theorem grid_enumerates (m : Nat) :
    ((List.range ((m + 511) / 512)).flatMap fun b =>
      (List.range 512).flatMap fun t => if b * 512 + t < m then [b * 512 + t] else [])
      = List.range m := by
  have hsorted : ((List.range ((m + 511) / 512)).flatMap fun b =>
      (List.range 512).flatMap fun t =>
        if b * 512 + t < m then [b * 512 + t] else []).Pairwise (fun a b => a < b) := by
    rw [List.pairwise_flatMap]
    constructor
    · intro b _
      rw [List.pairwise_flatMap]
      constructor
      · intro t _
        split
        · exact List.pairwise_singleton _ _
        · exact List.Pairwise.nil
      · refine (List.pairwise_lt_range 512).imp ?_
        intro t1 t2 ht x hx y hy
        split at hx
        · split at hy
          · rw [List.mem_singleton] at hx hy
            omega
          · exact absurd hy (List.not_mem_nil _)
        · exact absurd hx (List.not_mem_nil _)
    · refine (List.pairwise_lt_range _).imp ?_
      intro b1 b2 hb x hx y hy
      rw [List.mem_flatMap] at hx hy
      obtain ⟨t1, ht1, hx⟩ := hx
      obtain ⟨t2, ht2, hy⟩ := hy
      rw [List.mem_range] at ht1 ht2
      split at hx
      · split at hy
        · rw [List.mem_singleton] at hx hy
          omega
        · exact absurd hy (List.not_mem_nil _)
      · exact absurd hx (List.not_mem_nil _)
  have hmem : ∀ i, i ∈ ((List.range ((m + 511) / 512)).flatMap fun b =>
      (List.range 512).flatMap fun t =>
        if b * 512 + t < m then [b * 512 + t] else []) ↔ i ∈ List.range m := by
    intro i
    rw [List.mem_range, List.mem_flatMap]
    constructor
    · rintro ⟨b, _, hb⟩
      rw [List.mem_flatMap] at hb
      obtain ⟨t, _, ht⟩ := hb
      split at ht
      · rw [List.mem_singleton] at ht
        omega
      · exact absurd ht (List.not_mem_nil _)
    · intro hi
      refine ⟨i / 512, ?_, ?_⟩
      · rw [List.mem_range]
        omega
      · rw [List.mem_flatMap]
        refine ⟨i % 512, ?_, ?_⟩
        · rw [List.mem_range]
          omega
        · have e : i / 512 * 512 + i % 512 = i := by omega
          rw [e, if_pos hi]
          exact List.mem_singleton_self i
  have hnodup : ((List.range ((m + 511) / 512)).flatMap fun b =>
      (List.range 512).flatMap fun t =>
        if b * 512 + t < m then [b * 512 + t] else []).Nodup := by
    unfold List.Nodup
    refine hsorted.imp ?_
    intro a b hab
    omega
  have hperm := (List.perm_ext_iff_of_nodup hnodup (List.nodup_range m)).2 hmem
  exact List.eq_of_perm_of_sorted hperm hsorted (List.pairwise_lt_range m)

theorem wrapInt_of_mem {x : Int} (h0 : -2147483648 ≤ x) (h1 : x < 2147483648) :
    wrapInt x = x := by
  unfold wrapInt
  omega

/-- A thread whose counter does not wrap and whose stride reaches `n` runs the
body at most once. -/
theorem kernelLoop_single (n : Int) (stride fuel : Nat) (i : Int)
    (hs : n ≤ (stride : Int)) (hi : 0 ≤ i)
    (hw : i < n → i + (stride : Int) < 2147483648) :
    kernelLoop n stride (fuel + 2) i = if i < n then [i] else [] := by
  by_cases h : i < n
  · have hnext : wrapInt (i + (stride : Int)) = i + (stride : Int) :=
      wrapInt_of_mem (by omega) (hw h)
    have hstop : ¬ (i + (stride : Int) < n) := by omega
    simp only [kernelLoop, if_pos h, hnext, if_neg hstop]
  · simp only [kernelLoop, if_neg h]

theorem gridDim_natCast (m : Nat) (h : m ≤ 1073741824) :
    gridDim (m : Int) = (m + 511) / 512 := by
  unfold gridDim
  have e : Int.tdiv ((m : Int) + 512 - 1) 512 = (((m + 511) / 512 : Nat) : Int) := by
    rw [Int.tdiv_eq_ediv (by omega) (by omega)]
    omega
  simp only [e]
  omega

theorem threadVisits_natCast (m : Nat) (h : m ≤ 1073741824) (b t : Nat)
    (hb : b < (m + 511) / 512) (ht : t < 512) :
    threadVisits (m : Int) b t
      = if b * 512 + t < m then [((b * 512 + t : Nat) : Int)] else [] := by
  unfold threadVisits
  rw [gridDim_natCast m h]
  have e1 : (512 * ((m + 511) / 512)) % 4294967296 = 512 * ((m + 511) / 512) :=
    Nat.mod_eq_of_lt (by omega)
  have e2 : (b * 512 + t) % 4294967296 = b * 512 + t := Nat.mod_eq_of_lt (by omega)
  have e3 : wrapInt ((b * 512 + t : Nat) : Int) = ((b * 512 + t : Nat) : Int) :=
    wrapInt_of_mem (by omega) (by omega)
  simp only [e1, e2, e3]
  have hk := kernelLoop_single (m : Int) (512 * ((m + 511) / 512)) 4294967294
    ((b * 512 + t : Nat) : Int) (by omega) (by omega) (by omega)
  rw [show (4294967296 : Nat) = 4294967294 + 2 from rfl, hk]
  by_cases hlt : b * 512 + t < m
  · rw [if_pos hlt, if_pos (by omega)]
  · rw [if_neg hlt, if_neg (by omega)]

/-- For an output size in `[0, 2^30]` the threads of the launch run the body at
`0, ..., output_size - 1`, once each. -/
theorem launchVisits_eq {n : Int} (h0 : 0 ≤ n) (h1 : n ≤ 1073741824) :
    launchVisits n = loopRange 0 n := by
  obtain ⟨m, rfl⟩ := Int.eq_ofNat_of_zero_le h0
  have hm : m ≤ 1073741824 := by omega
  have hR : loopRange 0 (m : Int) = (List.range m).map (fun (k : Nat) => (k : Int)) := by
    unfold loopRange
    have e : ((m : Int) - 0).toNat = m := by omega
    rw [e]
    apply List.map_congr_left
    intro k _
    omega
  rw [hR, ← grid_enumerates m]
  unfold launchVisits
  rw [gridDim_natCast m hm, List.map_flatMap]
  apply flatMap_congr_of_mem
  intro b hb
  rw [List.mem_range] at hb
  rw [List.map_flatMap]
  apply flatMap_congr_of_mem
  intro t ht
  rw [List.mem_range] at ht
  rw [threadVisits_natCast m hm b t hb ht]
  split <;> rfl

theorem launchWrites_eq {β : Type} {n : Int} (h0 : 0 ≤ n) (h1 : n ≤ 1073741824)
    (body : Int → Option β) (g : Int → β)
    (hbody : ∀ i ∈ loopRange 0 n, body i = some (g i)) :
    launchWrites n body = some ((loopRange 0 n).map fun i => (i, g i)) := by
  unfold launchWrites
  rw [launchVisits_eq h0 h1]
  apply collect_map_some
  intro x hx
  rw [hbody x hx]
  rfl

theorem gridDim_zero : gridDim 0 = 0 := by decide

theorem forwardSize_nonneg (pool_channel : Int)
    {num_rois channels pooled_height pooled_width : Int}
    (hN : 0 ≤ num_rois) (hPH : 0 ≤ pooled_height) (hPW : 0 ≤ pooled_width)
    (hC : 0 ≤ channels) :
    0 ≤ forwardSize pool_channel num_rois channels pooled_height pooled_width := by
  unfold forwardSize
  split
  · exact mul_nonneg (mul_nonneg hN hPH) hPW
  · exact mul_nonneg (mul_nonneg (mul_nonneg hN hPH) hPW) hC

theorem forwardSize_eq (pool_channel num_rois channels pooled_height pooled_width : Int) :
    forwardSize pool_channel num_rois channels pooled_height pooled_width
      = num_rois * pooled_height * pooled_width * (if pool_channel ≠ 0 then 1 else channels) := by
  unfold forwardSize
  split
  · rw [mul_one]
  · rfl

theorem slice_in_buffer {b batch_size height width channels : Int}
    (hb1 : b < batch_size) (hH : 0 ≤ height) (hW : 0 ≤ width) (hC : 0 ≤ channels) :
    (b + 1) * channels * height * width ≤ batch_size * height * width * channels := by
  have h1 : 0 ≤ channels * height * width := mul_nonneg (mul_nonneg hC hH) hW
  have h2 : (b + 1) * (channels * height * width)
      ≤ batch_size * (channels * height * width) :=
    mul_le_mul_of_nonneg_right (by omega) h1
  have e1 : (b + 1) * channels * height * width = (b + 1) * (channels * height * width) := by
    ring
  have e2 : batch_size * height * width * channels
      = batch_size * (channels * height * width) := by ring
  rw [e1, e2]
  exact h2

theorem ROIPoolForwardLaucher_eq (bottom_data : List Dtype) (spatial_scale : Dtype)
    (pool_channel num_rois channel_rois height width channels pooled_height
      pooled_width : Int)
    (bottom_rois : List Dtype) :
    ROIPoolForwardLaucher bottom_data spatial_scale pool_channel num_rois channel_rois
        height width channels pooled_height pooled_width bottom_rois
      = (collect ((loopRange 0
          (forwardSize pool_channel num_rois channels pooled_height pooled_width)).map
          (ROIPoolForward bottom_data spatial_scale pool_channel height width channels
            pooled_height pooled_width channel_rois bottom_rois))).map List.unzip := by
  rfl

/-- The forward kernel returns at every output index when every region record can
be read and names a batch element of the feature map (and, in pool-by-channel
mode, a channel). -/
theorem forward_cell_defined {bottom_data : List Dtype} (spatial_scale : Dtype)
    {pool_channel batch_size num_rois channel_rois height width channels pooled_height
      pooled_width : Int}
    {bottom_rois : List Dtype} {index : Int}
    (hH : 0 ≤ height) (hW : 0 ≤ width) (hC : 0 ≤ channels)
    (hPH : 0 ≤ pooled_height) (hPW : 0 ≤ pooled_width)
    (hdata : (bottom_data.length : Int) = batch_size * height * width * channels)
    (hregs : ∀ n, 0 ≤ n → n < num_rois →
      ∃ r, loadRoi bottom_rois (n * channel_rois) = some r ∧
        0 ≤ r.roi_batch_ind ∧ r.roi_batch_ind < batch_size ∧
        (pool_channel ≠ 0 → 0 ≤ r.roi_cls ∧ r.roi_cls < channels))
    (hidx0 : 0 ≤ index)
    (hidx1 : index < forwardSize pool_channel num_rois channels pooled_height pooled_width) :
    ∃ res, ROIPoolForward bottom_data spatial_scale pool_channel height width channels
      pooled_height pooled_width channel_rois bottom_rois index = some res := by
  have hdec : decodeForward pool_channel channels pooled_height pooled_width index
      = ((decodeForward pool_channel channels pooled_height pooled_width index).1,
        (decodeForward pool_channel channels pooled_height pooled_width index).2.1,
        (decodeForward pool_channel channels pooled_height pooled_width index).2.2.1,
        (decodeForward pool_channel channels pooled_height pooled_width index).2.2.2) := rfl
  have hrange : (0 ≤ (decodeForward pool_channel channels pooled_height pooled_width index).1 ∧
      (decodeForward pool_channel channels pooled_height pooled_width index).1 < num_rois) ∧
      (pool_channel = 0 →
        0 ≤ (decodeForward pool_channel channels pooled_height pooled_width index).2.2.2 ∧
        (decodeForward pool_channel channels pooled_height pooled_width index).2.2.2
          < channels) := by
    unfold forwardSize at hidx1
    by_cases hpc : pool_channel ≠ 0
    · rw [if_pos hpc] at hidx1
      obtain ⟨r1, r2, _⟩ := decodeForward_pool_range hpc hidx0 hidx1 hPH hPW hdec
      exact ⟨⟨r1, r2⟩, fun h0 => absurd h0 hpc⟩
    · rw [if_neg hpc] at hidx1
      have h0 : pool_channel = 0 := not_not.1 hpc
      rw [h0] at hdec ⊢
      obtain ⟨r1, r2, _, _, _, _, r7, r8, _⟩ :=
        decodeForward_full_range hidx0 hidx1 hPH hPW hC hdec
      exact ⟨⟨r1, r2⟩, fun _ => ⟨r7, r8⟩⟩
  obtain ⟨r, hr, hb0, hb1, hcls⟩ := hregs _ hrange.1.1 hrange.1.2
  rw [ROIPoolForward_eq_poolCell hdec hr]
  apply poolCell_defined
  · exact hb0
  · rw [hdata]
    exact slice_in_buffer hb1 hH hW hC
  · unfold channelUsed
    split
    · rename_i hpc
      exact (hcls hpc).1
    · rename_i hpc
      exact (hrange.2 (not_not.1 hpc)).1
  · unfold channelUsed
    split
    · rename_i hpc
      exact (hcls hpc).2
    · rename_i hpc
      exact (hrange.2 (not_not.1 hpc)).2

theorem ROIPoolForwardLaunch_eq (device_error : Bool) (bottom_data : List Dtype)
    (spatial_scale : Dtype)
    (pool_channel num_rois channel_rois height width channels pooled_height
      pooled_width : Int)
    (bottom_rois : List Dtype) :
    ROIPoolForwardLaunch device_error bottom_data spatial_scale pool_channel num_rois
        channel_rois height width channels pooled_height pooled_width bottom_rois
      = if launchFailed
          (gridDim (forwardSize pool_channel num_rois channels pooled_height pooled_width))
          device_error then Outcome.exited
        else Outcome.returned (launchWrites
          (forwardSize pool_channel num_rois channels pooled_height pooled_width)
          (ROIPoolForward bottom_data spatial_scale pool_channel height width channels
            pooled_height pooled_width channel_rois bottom_rois)) := by
  rfl

theorem launchFailed_of_pos {n : Int} (h0 : 1 ≤ n) (h1 : n ≤ 1073741824) :
    launchFailed (gridDim n) false = false := by
  obtain ⟨m, rfl⟩ := Int.eq_ofNat_of_zero_le (by omega : 0 ≤ n)
  rw [gridDim_natCast m (by omega)]
  have hpos : (m + 511) / 512 ≠ 0 := by omega
  simp [launchFailed, hpos]

theorem launchFailed_zero (device_error : Bool) :
    launchFailed (gridDim 0) device_error = true := by
  rw [gridDim_zero]
  simp [launchFailed]

/-- C12 (as amended): for non-negative dimensions, a feature map of
`batch_size * height * width * channels` values, region records that can be read
and name a batch element (and a channel in pool-by-channel mode) and an output
gradient and argmax map of the pooled size: when the number
`num_rois * pooled_height * pooled_width * (pool_by_channel ? 1 : channels)` of
pooled values lies in `[1, 2^30]` and the device reports no error, the call of the
forward launcher returns after its threads have written exactly the slots
`0, ..., size - 1` of the pooled output and of the argmax map, each once; likewise
the backward launcher writes exactly the slots `0, ..., batch_size * height * width *
channels - 1` of the gradient, each once, when that number lies in `[1, 2^30]`;
and with an output size of 0 the launch has no block and the launcher ends the
process. -/
theorem launcher_shapes (bottom_data top_diff : List Dtype) (argmax_data : List Int)
    (spatial_scale : Dtype)
    (pool_channel batch_size num_rois channel_rois height width channels pooled_height
      pooled_width : Int)
    (bottom_rois : List Dtype)
    (hH : 0 ≤ height) (hW : 0 ≤ width) (hC : 0 ≤ channels)
    (hPH : 0 ≤ pooled_height) (hPW : 0 ≤ pooled_width)
    (hdata : (bottom_data.length : Int) = batch_size * height * width * channels)
    (hregs : ∀ n, 0 ≤ n → n < num_rois →
      ∃ r, loadRoi bottom_rois (n * channel_rois) = some r ∧
        0 ≤ r.roi_batch_ind ∧ r.roi_batch_ind < batch_size ∧
        (pool_channel ≠ 0 → 0 ≤ r.roi_cls ∧ r.roi_cls < channels))
    (htop : (top_diff.length : Int)
      = num_rois * pooled_height * pooled_width * (if pool_channel ≠ 0 then 1 else channels))
    (harg : (argmax_data.length : Int)
      = num_rois * pooled_height * pooled_width
        * (if pool_channel ≠ 0 then 1 else channels)) :
    (1 ≤ num_rois * pooled_height * pooled_width
        * (if pool_channel ≠ 0 then 1 else channels) →
      num_rois * pooled_height * pooled_width
        * (if pool_channel ≠ 0 then 1 else channels) ≤ 1073741824 →
      ∃ top_data argmax_out writes,
        ROIPoolForwardLaunch false bottom_data spatial_scale pool_channel num_rois
          channel_rois height width channels pooled_height pooled_width bottom_rois
          = Outcome.returned (some writes) ∧
        writes.map Prod.fst = loopRange 0 (num_rois * pooled_height * pooled_width
          * (if pool_channel ≠ 0 then 1 else channels)) ∧
        (writes.map Prod.snd).unzip = (top_data, argmax_out) ∧
        (top_data.length : Int) = num_rois * pooled_height * pooled_width
          * (if pool_channel ≠ 0 then 1 else channels) ∧
        (argmax_out.length : Int) = num_rois * pooled_height * pooled_width
          * (if pool_channel ≠ 0 then 1 else channels) ∧
        ROIPoolForwardLaucher bottom_data spatial_scale pool_channel num_rois channel_rois
          height width channels pooled_height pooled_width bottom_rois
          = some (top_data, argmax_out)) ∧
    (1 ≤ batch_size * height * width * channels →
      batch_size * height * width * channels ≤ 1073741824 →
      ∃ bottom_diff writes,
        ROIPoolBackwardLaunch false top_diff spatial_scale pool_channel batch_size num_rois
          channel_rois height width channels pooled_height pooled_width bottom_rois
          argmax_data = Outcome.returned (some writes) ∧
        writes.map Prod.fst = loopRange 0 (batch_size * height * width * channels) ∧
        writes.map Prod.snd = bottom_diff ∧
        (bottom_diff.length : Int) = batch_size * height * width * channels ∧
        ROIPoolBackwardLaucher top_diff spatial_scale pool_channel batch_size num_rois
          channel_rois height width channels pooled_height pooled_width bottom_rois
          argmax_data = some bottom_diff) ∧
    (num_rois * pooled_height * pooled_width
        * (if pool_channel ≠ 0 then 1 else channels) = 0 →
      ∀ device_error,
        ROIPoolForwardLaunch device_error bottom_data spatial_scale pool_channel num_rois
          channel_rois height width channels pooled_height pooled_width bottom_rois
          = Outcome.exited) ∧
    (batch_size * height * width * channels = 0 →
      ∀ device_error,
        ROIPoolBackwardLaunch device_error top_diff spatial_scale pool_channel batch_size
          num_rois channel_rois height width channels pooled_height pooled_width
          bottom_rois argmax_data = Outcome.exited) := by
  have hsize := forwardSize_eq pool_channel num_rois channels pooled_height pooled_width
  refine ⟨?_, ?_, ?_, ?_⟩
  · rw [← hsize]
    intro s1 s2
    have hcells : ∀ x ∈ loopRange 0
          (forwardSize pool_channel num_rois channels pooled_height pooled_width),
        ROIPoolForward bottom_data spatial_scale pool_channel height width channels
          pooled_height pooled_width channel_rois bottom_rois x
        = some ((ROIPoolForward bottom_data spatial_scale pool_channel height width channels
          pooled_height pooled_width channel_rois bottom_rois x).getD (0, -1)) := by
      intro x hx
      rw [mem_loopRange] at hx
      obtain ⟨res, hres⟩ := forward_cell_defined spatial_scale
        hH hW hC hPH hPW hdata hregs hx.1 hx.2
      rw [hres]
      rfl
    have hfwd : ROIPoolForwardLaucher bottom_data spatial_scale pool_channel num_rois
        channel_rois height width channels pooled_height pooled_width bottom_rois
        = some (((loopRange 0
            (forwardSize pool_channel num_rois channels pooled_height pooled_width)).map
          (fun x => (ROIPoolForward bottom_data spatial_scale pool_channel height width
            channels pooled_height pooled_width channel_rois bottom_rois x).getD
              (0, -1))).unzip) := by
      rw [ROIPoolForwardLaucher_eq, collect_map_some _ _ _ hcells]
      rfl
    obtain ⟨l1, l2, _⟩ := forward_launcher_cells hfwd
    have hlaunch : ROIPoolForwardLaunch false bottom_data spatial_scale pool_channel
        num_rois channel_rois height width channels pooled_height pooled_width bottom_rois
        = Outcome.returned (some ((loopRange 0
            (forwardSize pool_channel num_rois channels pooled_height pooled_width)).map
          fun x => (x, (ROIPoolForward bottom_data spatial_scale pool_channel height width
            channels pooled_height pooled_width channel_rois bottom_rois x).getD
              (0, -1)))) := by
      rw [ROIPoolForwardLaunch_eq, launchFailed_of_pos s1 s2,
        launchWrites_eq (by omega) s2 _ _ hcells]
      rfl
    refine ⟨_, _, _, hlaunch, ?_, ?_, ?_, ?_, hfwd⟩
    · rw [List.map_map]
      exact List.map_id _
    · rw [List.map_map]
      rfl
    · rw [l1]
      omega
    · rw [l2]
      omega
  · intro s1 s2
    have hcells : ∀ x ∈ loopRange 0 (batch_size * height * width * channels),
        ROIPoolBackward top_diff argmax_data num_rois channel_rois spatial_scale pool_channel
          height width channels pooled_height pooled_width bottom_rois x
        = some (backwardValue top_diff argmax_data num_rois channel_rois spatial_scale
          pool_channel height width channels pooled_height pooled_width bottom_rois x) := by
      intro x hx
      rw [mem_loopRange] at hx
      obtain ⟨hWp, hCp⟩ := dims_pos_of_index hW hC hx.1 hx.2
      obtain ⟨_, _, _, _, d5, d6⟩ := decodeBackward_range hx.1 hWp hCp hH
      apply ROIPoolBackward_value
      intro roi_n h0 h1
      obtain ⟨r, hr, _⟩ := hregs roi_n h0 h1
      refine ⟨r, hr, ?_⟩
      intro _ _ ph pw p0 p1 q0 q1
      obtain ⟨s0, s1⟩ := topSlot_bounds pool_channel h0 h1 p0 p1 q0 q1 d5 d6
      exact slotReadable_of_length _ s0 (by omega) (by omega)
    have hlaunch : ROIPoolBackwardLaunch false top_diff spatial_scale pool_channel
        batch_size num_rois channel_rois height width channels pooled_height pooled_width
        bottom_rois argmax_data
        = Outcome.returned (some ((loopRange 0 (batch_size * height * width * channels)).map
          fun x => (x, backwardValue top_diff argmax_data num_rois channel_rois
            spatial_scale pool_channel height width channels pooled_height pooled_width
            bottom_rois x))) := by
      unfold ROIPoolBackwardLaunch
      simp only [launchFailed_of_pos s1 s2, launchWrites_eq (by omega) s2 _ _ hcells]
      rfl
    refine ⟨_, _, hlaunch, ?_, rfl, ?_, ?_⟩
    · rw [List.map_map]
      exact List.map_id _
    · rw [List.map_map, List.length_map, loopRange_length]
      omega
    · unfold ROIPoolBackwardLaucher
      rw [collect_map_some _ _ _ hcells, List.map_map]
      rfl
  · rw [← hsize]
    intro hz device_error
    rw [ROIPoolForwardLaunch_eq, hz, launchFailed_zero]
    rfl
  · intro hz device_error
    unfold ROIPoolBackwardLaunch
    simp only [hz, launchFailed_zero]
    rfl
/-! ### Instances of the layout, geometry and backward theorems -/

/-- C18 (as amended) in pool-by-channel mode, at region 1, cell `(1, 0)`, channel 2. -/
theorem layout_agreement_witness :
    (∀ (top_diff : List Dtype) (argmax_data : List Int) (width h w : Int) (g : Dtype),
      backStep top_diff argmax_data (1 : Int) width (3 : Int) (2 : Int)
          (if (1 : Int) ≠ 0 then (1 : Int) * (2 : Int) * (2 : Int)
            else (1 : Int) * (2 : Int) * (2 : Int) * (3 : Int)) h w (2 : Int) (1 : Int) (0 : Int) g
        = (load argmax_data
            (topSlot (1 : Int) (3 : Int) (2 : Int) (2 : Int) (1 : Int) (1 : Int) (0 : Int) (2 : Int))).bind
          fun a => if a = (h * width + w) * (3 : Int) + (2 : Int) then
            (load top_diff
              (topSlot (1 : Int) (3 : Int) (2 : Int) (2 : Int) (1 : Int) (1 : Int) (0 : Int) (2 : Int))).bind
              fun t => some (g + t)
          else some g) ∧
    topSlot (1 : Int) (3 : Int) (2 : Int) (2 : Int) (1 : Int) (1 : Int) (0 : Int) (2 : Int)
      = (if (1 : Int) ≠ 0 then
          (1 : Int) * (2 : Int) * (2 : Int) + (1 : Int) * (2 : Int) + (0 : Int)
        else (1 : Int) * (2 : Int) * (2 : Int) * (3 : Int)
          + ((1 : Int) * (2 : Int) + (0 : Int)) * (3 : Int) + (2 : Int)) ∧
    decodeForward (1 : Int) (3 : Int) (2 : Int) (2 : Int)
        (topSlot (1 : Int) (3 : Int) (2 : Int) (2 : Int) (1 : Int) (1 : Int) (0 : Int) (2 : Int))
      = ((1 : Int), (1 : Int), (0 : Int), if (1 : Int) ≠ 0 then 1 else (2 : Int)) ∧
    channelUsed (1 : Int) poolRoi (if (1 : Int) ≠ 0 then 1 else (2 : Int))
      = (if (1 : Int) ≠ 0 then poolRoi.roi_cls else (2 : Int)) :=
  layout_agreement (1 : Int) (3 : Int) (2 : Int) (2 : Int) (1 : Int) (1 : Int) (0 : Int) (2 : Int) poolRoi
    (by decide!) (by decide!) (by decide!) (by decide!) (by decide!) (by decide!) (by decide!)

/-- C18, counterexample: with pool-by-channel, 3 channels and a 2x2 pooled grid, the
slot Backward reads for region 1, cell `(1, 0)` and channel 2 is the output index 6,
which Forward decomposes into `(1, 1, 0, 1)`, not into `(1, 1, 0, 2)`. -/
theorem pool_decode_channel_is_one :
    topSlot 1 3 2 2 1 1 0 2 = 1 * 2 * 2 + 1 * 2 + 0 ∧
    decodeForward 1 3 2 2 (topSlot 1 3 2 2 1 1 0 2) = (1, 1, 0, 1) ∧
    decodeForward 1 3 2 2 (topSlot 1 3 2 2 1 1 0 2) ≠ (1, 1, 0, 2) := by
  decide!

/-- C20, counterexample: with pool-by-channel, one region, one channel and a 1x1
pooled grid, the output index 0 lies in `[0, output_size)` and Forward decomposes it
into `(0, 0, 0, 1)`, whose `c = 1` is not below `channels = 1`. -/
theorem pool_decode_channel_out_of_range :
    forwardSize 1 1 1 1 1 = 1 ∧
    decodeForward 1 1 1 1 0 = (0, 0, 0, 1) ∧
    ¬ ((decodeForward 1 1 1 1 0).2.2.2 < 1) := by
  decide!

/-- C20 (as amended) with pool-by-channel: 2 regions, 3 channels, a 2x2 pooled grid,
index 5. -/
theorem decode_bijection_witness :
    (0 ≤ (1 : Int) ∧ (1 : Int) < (2 : Int) ∧ 0 ≤ (0 : Int) ∧ (0 : Int) < (2 : Int) ∧ 0 ≤ (1 : Int) ∧ (1 : Int) < (2 : Int)) ∧
    (if (1 : Int) ≠ 0 then
      (1 : Int) = 1 ∧ (5 : Int) = ((1 : Int) * (2 : Int) + (0 : Int)) * (2 : Int) + (1 : Int)
    else 0 ≤ (1 : Int) ∧ (1 : Int) < (3 : Int) ∧
      (5 : Int) = (((1 : Int) * (2 : Int) + (0 : Int)) * (2 : Int) + (1 : Int)) * (3 : Int) + (1 : Int)) ∧
    0 ≤ (if (1 : Int) ≠ 0 then ((1 : Int) * (2 : Int) + (1 : Int)) * (2 : Int) + (0 : Int)
      else (((1 : Int) * (2 : Int) + (1 : Int)) * (2 : Int) + (0 : Int)) * (3 : Int) + (2 : Int)) ∧
    (if (1 : Int) ≠ 0 then ((1 : Int) * (2 : Int) + (1 : Int)) * (2 : Int) + (0 : Int)
      else (((1 : Int) * (2 : Int) + (1 : Int)) * (2 : Int) + (0 : Int)) * (3 : Int) + (2 : Int))
      < forwardSize (1 : Int) (2 : Int) (3 : Int) (2 : Int) (2 : Int) ∧
    decodeForward (1 : Int) (3 : Int) (2 : Int) (2 : Int)
        (if (1 : Int) ≠ 0 then ((1 : Int) * (2 : Int) + (1 : Int)) * (2 : Int) + (0 : Int)
          else (((1 : Int) * (2 : Int) + (1 : Int)) * (2 : Int) + (0 : Int)) * (3 : Int) + (2 : Int))
      = ((1 : Int), (1 : Int), (0 : Int), if (1 : Int) ≠ 0 then 1 else (2 : Int)) :=
  decode_bijection (1 : Int) (2 : Int) (3 : Int) (2 : Int) (2 : Int) (5 : Int) (1 : Int) (0 : Int) (1 : Int) (1 : Int) (1 : Int) (1 : Int) (0 : Int) (2 : Int)
    (by decide!) (by decide!) (by decide!) (by decide!) (by decide!) (by decide!) (by decide!) (by decide!) (by decide!) (by decide!) (by decide!) (by decide!) (by decide!) (by decide!)

/-- C17 for the axis range `[1, 5]` pooled into 3 cells. -/
theorem windows_tile_region_witness :
    (∀ p, 0 ≤ p → p + 1 < (3 : Int) →
      (1 : Int) + binStart (p + 1) (roiExtent (1 : Int) (5 : Int)) (3 : Int)
        ≤ (1 : Int) + binEnd p (roiExtent (1 : Int) (5 : Int)) (3 : Int)) ∧
    (∀ x, (∃ p, 0 ≤ p ∧ p < (3 : Int) ∧
        (1 : Int) + binStart p (roiExtent (1 : Int) (5 : Int)) (3 : Int) ≤ x ∧
        x < (1 : Int) + binEnd p (roiExtent (1 : Int) (5 : Int)) (3 : Int)) ↔
      (x ≥ (1 : Int) ∧ x ≤ (5 : Int))) :=
  windows_tile_region (1 : Int) (5 : Int) (3 : Int) (by decide!) (by decide!)

/-- C14 on the pooled cell `(1, 1)` of the scenario, whose batch slice is the buffer. -/
theorem forward_reads_in_slice_witness :
    (0 ≤ hstart scenarioRoi (1 : Dtype) (2 : Int) (4 : Int) (1 : Int) ∧
      hstart scenarioRoi (1 : Dtype) (2 : Int) (4 : Int) (1 : Int) ≤ (4 : Int) ∧
      0 ≤ hend scenarioRoi (1 : Dtype) (2 : Int) (4 : Int) (1 : Int) ∧
      hend scenarioRoi (1 : Dtype) (2 : Int) (4 : Int) (1 : Int) ≤ (4 : Int) ∧
      0 ≤ wstart scenarioRoi (1 : Dtype) (2 : Int) (4 : Int) (1 : Int) ∧
      wstart scenarioRoi (1 : Dtype) (2 : Int) (4 : Int) (1 : Int) ≤ (4 : Int) ∧
      0 ≤ wend scenarioRoi (1 : Dtype) (2 : Int) (4 : Int) (1 : Int) ∧
      wend scenarioRoi (1 : Dtype) (2 : Int) (4 : Int) (1 : Int) ≤ (4 : Int)) ∧
    (∀ h w, InWindow scenarioRoi (1 : Dtype) (4 : Int) (4 : Int) (2 : Int) (2 : Int) (1 : Int) (1 : Int) h w →
      0 ≤ (h * (4 : Int) + w) * (1 : Int) + channelUsed (0 : Int) scenarioRoi (0 : Int) ∧
      (h * (4 : Int) + w) * (1 : Int) + channelUsed (0 : Int) scenarioRoi (0 : Int)
        < (4 : Int) * (4 : Int) * (1 : Int)) ∧
    (∀ out a, ROIPoolForward scenarioMap (1 : Dtype) (0 : Int) (4 : Int) (4 : Int) (1 : Int)
        (2 : Int) (2 : Int) (6 : Int) scenarioRois (3 : Int) = some (out, a) →
      a = -1 ∨ (0 ≤ a ∧ a < (4 : Int) * (4 : Int) * (1 : Int))) ∧
    (∃ out a, ROIPoolForward scenarioMap (1 : Dtype) (0 : Int) (4 : Int) (4 : Int) (1 : Int)
        (2 : Int) (2 : Int) (6 : Int) scenarioRois (3 : Int) = some (out, a)) :=
  have t := forward_reads_in_slice scenarioMap (1 : Dtype) (0 : Int) (4 : Int) (4 : Int) (1 : Int) (2 : Int) (2 : Int) (6 : Int) scenarioRois (3 : Int) (0 : Int) (1 : Int) (1 : Int) (0 : Int) scenarioRoi
    (by decide!) (by decide!) (by decide!) (by decide!) (by decide!) (by decide!) (by decide!)
  ⟨t.1, t.2.1, t.2.2.1, t.2.2.2 (by decide!) (by decide!)⟩

/-- C15 on the scenario with the argmax map `[-1,-1,-1,-1]` and the output gradient
`[1,2,3,4]`. -/
theorem sentinel_backpropagates_nothing_witness :
    (∀ (offset h w c ph pw : Int) (g : Dtype),
      0 ≤ (h * (4 : Int) + w) * (1 : Int) + c →
      load sentinelArgmax (offset + if (0 : Int) ≠ 0 then ph * (2 : Int) + pw
        else (ph * (2 : Int) + pw) * (1 : Int) + c) = some (-1) →
      backStep rampGrad sentinelArgmax (0 : Int) (4 : Int) (1 : Int) (2 : Int) offset
        h w c ph pw g = some g) ∧
    ROIPoolBackwardLaucher rampGrad (1 : Dtype) (0 : Int) (1 : Int) (1 : Int)
        (6 : Int) (4 : Int) (4 : Int) (1 : Int) (2 : Int) (2 : Int) scenarioRois
        sentinelArgmax
      = some (List.replicate ((1 : Int) * (4 : Int) * (4 : Int) * (1 : Int)).toNat 0) :=
  sentinel_backpropagates_nothing rampGrad sentinelArgmax (1 : Dtype) (0 : Int) (1 : Int) (1 : Int) (6 : Int) (4 : Int) (4 : Int) (1 : Int) (2 : Int) (2 : Int) scenarioRois
    (by decide!) (by decide!) (by decide!)
    (by
      intro roi_n h0 h1
      have e : roi_n = 0 := by omega
      subst e
      exact ⟨scenarioRoi, by decide!⟩)
    (by decide!) (by decide!)

/-- C16 on the scenario for the element of index 21, which lies in batch element 1
while the only region has batch index 0. -/
theorem backward_region_filter_witness :
    (ROIPoolBackward rampGrad scenarioArgmax (1 : Int) (6 : Int) (1 : Dtype) (0 : Int)
        (4 : Int) (4 : Int) (1 : Int) (2 : Int) (2 : Int) scenarioRois (21 : Int) = some 0) ∧
    (∀ top_diff1 : List Dtype,
      (∀ roi_n r, 0 ≤ roi_n → roi_n < (1 : Int) →
        loadRoi scenarioRois (roi_n * (6 : Int)) = some r →
        (decodeBackward (4 : Int) (4 : Int) (1 : Int) (21 : Int)).1 = r.roi_batch_ind →
        ((0 : Int) ≠ 0 →
          (decodeBackward (4 : Int) (4 : Int) (1 : Int) (21 : Int)).2.2.2 = r.roi_cls) →
        ∀ ph pw, 0 ≤ ph → ph < (2 : Int) → 0 ≤ pw → pw < (2 : Int) →
          load rampGrad (topSlot (0 : Int) (1 : Int) (2 : Int) (2 : Int) roi_n
              ph pw (decodeBackward (4 : Int) (4 : Int) (1 : Int) (21 : Int)).2.2.2)
            = load top_diff1 (topSlot (0 : Int) (1 : Int) (2 : Int) (2 : Int) roi_n
              ph pw (decodeBackward (4 : Int) (4 : Int) (1 : Int) (21 : Int)).2.2.2)) →
      ROIPoolBackward rampGrad scenarioArgmax (1 : Int) (6 : Int) (1 : Dtype) (0 : Int)
          (4 : Int) (4 : Int) (1 : Int) (2 : Int) (2 : Int) scenarioRois (21 : Int)
        = ROIPoolBackward top_diff1 scenarioArgmax (1 : Int) (6 : Int) (1 : Dtype)
          (0 : Int) (4 : Int) (4 : Int) (1 : Int) (2 : Int) (2 : Int) scenarioRois
          (21 : Int)) :=
  have t := backward_region_filter rampGrad scenarioArgmax (1 : Int) (6 : Int) (1 : Dtype) (0 : Int) (4 : Int) (4 : Int) (1 : Int) (2 : Int) (2 : Int) scenarioRois (21 : Int)
    (by
      intro roi_n h0 h1
      have e : roi_n = 0 := by omega
      subst e
      exact ⟨scenarioRoi, by decide!⟩)
  ⟨t.1 (by
      intro roi_n r h0 h1 hr
      have e : roi_n = 0 := by omega
      subst e
      have hr0 : loadRoi scenarioRois (0 * 6) = some scenarioRoi := by decide!
      rw [hr0] at hr
      have e1 : scenarioRoi = r := Option.some.inj hr
      subst e1
      exact Or.inl (by decide!)), t.2⟩

/-- C13 on the scenario with the output gradient `[1,2,3,4]`. -/
theorem backward_sums_all_cells_witness :
    ROIPoolBackwardLaucher rampGrad (1 : Dtype) (0 : Int) (1 : Int) (1 : Int)
        (6 : Int) (4 : Int) (4 : Int) (1 : Int) (2 : Int) (2 : Int) scenarioRois
        scenarioArgmax
      = some ((loopRange 0 ((1 : Int) * (4 : Int) * (4 : Int) * (1 : Int))).map
          (gradientOfAllCells rampGrad scenarioArgmax (1 : Int) (6 : Int) (0 : Int)
            (4 : Int) (4 : Int) (1 : Int) (2 : Int) (2 : Int) scenarioRois)) :=
  backward_sums_all_cells scenarioMap rampGrad scenarioTop scenarioArgmax (1 : Dtype) (0 : Int) (1 : Int) (1 : Int) (6 : Int) (4 : Int) (4 : Int) (1 : Int) (2 : Int) (2 : Int) scenarioRois
    (by decide!) (by decide!) (by decide!) (by decide!) (by decide!)
    (by
      intro roi_n h0 h1
      have e : roi_n = 0 := by omega
      subst e
      exact ⟨scenarioRoi, by decide!, by decide!, by decide!⟩)
/-! ### Single-precision windows, values below `-FLT_MAX` and the kernel launch -/

/-- C12, counterexample.  With no region the forward output size is 0, with an
empty batch the backward output size is 0: the launch has no block and the
launcher ends the process instead of returning.  With an output size of
`2^30 + 1` (a batch of one feature map of `2^30 + 1` values, say) the grid has
2097153 blocks and the stride is `2^30 + 512`: the thread 0 of block 2097152 runs
the body at `2^30`, then, its counter having wrapped, at two negative indices and
at 1536, the slot that thread 0 of block 3 writes as well. -/
theorem launch_exits_or_wraps :
    ROIPoolForwardLaunch false scenarioMap 1 0 0 6 4 4 1 2 2 [] = Outcome.exited ∧
    ROIPoolBackwardLaunch false [] 1 0 0 0 6 4 4 1 2 2 [] [] = Outcome.exited ∧
    gridDim 1073741825 = 2097153 ∧
    threadVisits 1073741825 2097152 0 = [1073741824, -2147483136, -1073740800, 1536] ∧
    threadVisits 1073741825 3 0 = [1536] ∧
    (-2147483136 : Int) ∈ launchVisits 1073741825 ∧
    launchVisits 1073741825 ≠ loopRange 0 1073741825 := by
  have hmem : (-2147483136 : Int) ∈ launchVisits 1073741825 := by
    unfold launchVisits
    rw [List.mem_flatMap]
    refine ⟨2097152, ?_, ?_⟩
    · rw [List.mem_range]
      decide!
    · rw [List.mem_flatMap]
      refine ⟨0, ?_, ?_⟩
      · rw [List.mem_range]
        decide
      · have e : threadVisits 1073741825 2097152 0
            = [1073741824, -2147483136, -1073740800, 1536] := by decide!
        rw [e]
        decide
  refine ⟨by decide!, by decide!, by decide!, by decide!, by decide!, hmem, ?_⟩
  intro heq
  rw [heq, mem_loopRange] at hmem
  omega

/-- C12 (as amended) on the scenario, whose output sizes are 4 and 16, and on the
same dimensions with no region and an empty batch, whose output sizes are 0. -/
theorem launcher_shapes_witness :
    (∃ top_data argmax_out writes,
        ROIPoolForwardLaunch false scenarioMap (1 : Dtype) (0 : Int) (1 : Int)
          (6 : Int) (4 : Int) (4 : Int) (1 : Int) (2 : Int) (2 : Int) scenarioRois
          = Outcome.returned (some writes) ∧
        writes.map Prod.fst = loopRange 0 ((1 : Int) * (2 : Int) * (2 : Int)
          * (if (0 : Int) ≠ 0 then 1 else (1 : Int))) ∧
        (writes.map Prod.snd).unzip = (top_data, argmax_out) ∧
        (top_data.length : Int) = (1 : Int) * (2 : Int) * (2 : Int)
          * (if (0 : Int) ≠ 0 then 1 else (1 : Int)) ∧
        (argmax_out.length : Int) = (1 : Int) * (2 : Int) * (2 : Int)
          * (if (0 : Int) ≠ 0 then 1 else (1 : Int)) ∧
        ROIPoolForwardLaucher scenarioMap (1 : Dtype) (0 : Int) (1 : Int) (6 : Int)
          (4 : Int) (4 : Int) (1 : Int) (2 : Int) (2 : Int) scenarioRois
          = some (top_data, argmax_out)) ∧
    (∃ bottom_diff writes,
        ROIPoolBackwardLaunch false rampGrad (1 : Dtype) (0 : Int) (1 : Int) (1 : Int)
          (6 : Int) (4 : Int) (4 : Int) (1 : Int) (2 : Int) (2 : Int) scenarioRois
          scenarioArgmax = Outcome.returned (some writes) ∧
        writes.map Prod.fst = loopRange 0 ((1 : Int) * (4 : Int) * (4 : Int) * (1 : Int)) ∧
        writes.map Prod.snd = bottom_diff ∧
        (bottom_diff.length : Int) = (1 : Int) * (4 : Int) * (4 : Int) * (1 : Int) ∧
        ROIPoolBackwardLaucher rampGrad (1 : Dtype) (0 : Int) (1 : Int) (1 : Int)
          (6 : Int) (4 : Int) (4 : Int) (1 : Int) (2 : Int) (2 : Int) scenarioRois
          scenarioArgmax = some bottom_diff) ∧
    (∀ device_error,
        ROIPoolForwardLaunch device_error ([] : List Dtype) (1 : Dtype) (0 : Int) (0 : Int)
          (6 : Int) (4 : Int) (4 : Int) (1 : Int) (2 : Int) (2 : Int) ([] : List Dtype)
          = Outcome.exited) ∧
    (∀ device_error,
        ROIPoolBackwardLaunch device_error ([] : List Dtype) (1 : Dtype) (0 : Int) (0 : Int)
          (0 : Int) (6 : Int) (4 : Int) (4 : Int) (1 : Int) (2 : Int) (2 : Int)
          ([] : List Dtype) ([] : List Int) = Outcome.exited) :=
  have t := launcher_shapes scenarioMap rampGrad scenarioArgmax (1 : Dtype) (0 : Int) (1 : Int) (1 : Int) (6 : Int) (4 : Int) (4 : Int) (1 : Int) (2 : Int) (2 : Int) scenarioRois
    (by decide!) (by decide!) (by decide!) (by decide!) (by decide!) (by decide!)
    (by
      intro n h0 h1
      have e : n = 0 := by omega
      subst e
      exact ⟨scenarioRoi, by decide!, by decide!, by decide!, by decide!⟩)
    (by decide!) (by decide!)
  have u := launcher_shapes ([] : List Dtype) ([] : List Dtype) ([] : List Int) (1 : Dtype) (0 : Int) (0 : Int) (0 : Int) (6 : Int) (4 : Int) (4 : Int) (1 : Int) (2 : Int) (2 : Int) ([] : List Dtype)
    (by decide!) (by decide!) (by decide!) (by decide!) (by decide!) (by decide!)
    (by
      intro n h0 h1
      omega)
    (by decide!) (by decide!)
  ⟨t.1 (by decide!) (by decide!), t.2.1 (by decide!) (by decide!), u.2.2.1 (by decide!), u.2.2.2 (by decide!)⟩
end ROIPool
